import Mathlib

/-!
# CXX-Broking: bounded queue, channel registry and channel worker

A shallow embedding of `ThreadSafeQueue.h`, `Broker.h`, `Channel.h` and
`Subscription.cpp`.

Conventions of the embedding.

* Mutexes and condition variables serialise the operations; every operation is
  modelled as one atomic step on the state it guards.
* A blocking operation (`enqueue`, `dequeue`, `publish`) is a guarded step: it
  yields `none` in a state in which the calling thread would wait.
* A `std::function` stored by the program is a transformer of an environment
  `W` that stands for everything outside the broker (the captures of the
  closure).  The queue's `notifyCallback` additionally receives the contents of
  the deque at the moment of the call, so that the position of the call inside
  `enqueue_` can be observed.
  A callback does not call back into the queue or channel that runs it (the
  mutex it would need is held by the caller).
* `int` is `Int` restricted to `-2^31 ≤ n < 2^31`; the conversion
  `(unsigned) n` is `n % 2^32`.
* The output of the logging macros is not part of the state.
-/

namespace broking

/-! ## ThreadSafeQueue.h -/

/-- The conversion `(unsigned) n` of a 32-bit `int`. -/
def toUnsigned (n : Int) : Nat := (n % 4294967296).toNat

/-- The class `ThreadSafeQueue<T>`: the deque, `maxSize` and `notifyCallback`. -/
structure ThreadSafeQueue (T : Type) (W : Type) where
  queue : List T
  maxSize : Int
  notifyCallback : List T → W → W

namespace ThreadSafeQueue

variable {T W : Type}

/-- The lambda `DO_NOTHING_CALLBACK`. -/
def DO_NOTHING_CALLBACK : List T → W → W := fun _ w => w

/-- The constructor `ThreadSafeQueue(int size)`. -/
def new (size : Int) : ThreadSafeQueue T W :=
  { queue := [], maxSize := size, notifyCallback := DO_NOTHING_CALLBACK }

/-- The test `queue.size() < (unsigned) maxSize`. -/
def canEnqueue_ (q : ThreadSafeQueue T W) : Bool :=
  decide (q.queue.length < toUnsigned q.maxSize)

/-- The test `!queue.empty()`. -/
def canDequeue_ (q : ThreadSafeQueue T W) : Bool :=
  !q.queue.isEmpty

/-- Public probe: takes the lock and calls `canEnqueue_`. -/
def canEnqueue (q : ThreadSafeQueue T W) : Bool := q.canEnqueue_

/-- Public probe: takes the lock and calls `canDequeue_`. -/
def canDequeue (q : ThreadSafeQueue T W) : Bool := q.canDequeue_

/-- Internal enqueue: `queue.push_back(message); notifyCallback();` (the
`notify_one` that follows wakes a waiting dequeuer and changes no data). -/
def enqueue_ (q : ThreadSafeQueue T W) (message : T) (w : W) : ThreadSafeQueue T W × W :=
  let q1 := { q with queue := q.queue ++ [message] }
  (q1, q1.notifyCallback q1.queue w)

/-- Non-blocking enqueue. -/
def tryEnqueue (q : ThreadSafeQueue T W) (message : T) (w : W) :
    Bool × ThreadSafeQueue T W × W :=
  if q.canEnqueue_ then
    (true, q.enqueue_ message w)
  else
    (false, q, w)

/-- Blocking enqueue: `none` while `!canEnqueue_()` holds (the caller waits on
`cvEnqueue`), otherwise `enqueue_`. -/
def enqueue (q : ThreadSafeQueue T W) (message : T) (w : W) :
    Option (ThreadSafeQueue T W × W) :=
  if q.canEnqueue_ then some (q.enqueue_ message w) else none

/-- Internal dequeue: `result = queue.front(); queue.pop_front(); return result`.
Both calls need a non-empty deque, which every caller establishes first. -/
def dequeue_ (q : ThreadSafeQueue T W) (h : q.queue ≠ []) (w : W) :
    T × ThreadSafeQueue T W × W :=
  (q.queue.head h, { q with queue := q.queue.tail }, w)

/-- Non-blocking dequeue; `none` is the empty optional. -/
def tryDequeue (q : ThreadSafeQueue T W) (w : W) : Option T × ThreadSafeQueue T W × W :=
  if h : q.canDequeue_ = true then
    let r := q.dequeue_ (by intro e; simp [canDequeue_, e] at h) w
    (some r.1, r.2)
  else
    (none, q, w)

/-- Blocking dequeue: `none` while `!canDequeue_()` holds (the caller waits on
`cvDequeue`), otherwise `dequeue_`. -/
def dequeue (q : ThreadSafeQueue T W) (w : W) : Option (T × ThreadSafeQueue T W × W) :=
  if h : q.canDequeue_ = true then
    some (q.dequeue_ (by intro e; simp [canDequeue_, e] at h) w)
  else
    none

/-- The assignment `notifyCallback = callback`. -/
def setOnNewElement (q : ThreadSafeQueue T W) (callback : List T → W → W) :
    ThreadSafeQueue T W :=
  { q with notifyCallback := callback }

/-- The assignment `notifyCallback = DO_NOTHING_CALLBACK`. -/
def unsetOnNewElement (q : ThreadSafeQueue T W) : ThreadSafeQueue T W :=
  { q with notifyCallback := DO_NOTHING_CALLBACK }

end ThreadSafeQueue

/-! ### Histories of queue operations -/

/-- One call of a public operation of the queue. -/
inductive QueueOp (T : Type) (W : Type) where
  | tryEnqueue (v : T)
  | enqueue (v : T)
  | tryDequeue
  | dequeue
  | setOnNewElement (callback : List T → W → W)
  | unsetOnNewElement

/-- A queue together with the environment and the record of what has been
enqueued and dequeued so far, both in call order. -/
structure QueueRun (T : Type) (W : Type) where
  q : ThreadSafeQueue T W
  world : W
  enqueued : List T
  dequeued : List T

namespace QueueRun

variable {T W : Type}

/-- The freshly constructed queue of the given size, nothing recorded. -/
def start (size : Int) (w : W) : QueueRun T W :=
  { q := ThreadSafeQueue.new size, world := w, enqueued := [], dequeued := [] }

/-- Performs one call.  A blocking call that would wait is not a step (`none`);
a `tryEnqueue` that returns false and a `tryDequeue` that returns the empty
optional are steps that record nothing. -/
def step (r : QueueRun T W) : QueueOp T W → Option (QueueRun T W)
  | .tryEnqueue v =>
    let res := r.q.tryEnqueue v r.world
    some { q := res.2.1, world := res.2.2,
           enqueued := if res.1 then r.enqueued ++ [v] else r.enqueued,
           dequeued := r.dequeued }
  | .enqueue v =>
    match r.q.enqueue v r.world with
    | none => none
    | some res => some { q := res.1, world := res.2,
                         enqueued := r.enqueued ++ [v], dequeued := r.dequeued }
  | .tryDequeue =>
    let res := r.q.tryDequeue r.world
    some { q := res.2.1, world := res.2.2, enqueued := r.enqueued,
           dequeued := match res.1 with
             | some x => r.dequeued ++ [x]
             | none => r.dequeued }
  | .dequeue =>
    match r.q.dequeue r.world with
    | none => none
    | some res => some { q := res.2.1, world := res.2.2, enqueued := r.enqueued,
                         dequeued := r.dequeued ++ [res.1] }
  | .setOnNewElement cb => some { r with q := r.q.setOnNewElement cb }
  | .unsetOnNewElement => some { r with q := r.q.unsetOnNewElement }

/-- Performs the calls from left to right; `none` as soon as one would wait. -/
def run (r : QueueRun T W) : List (QueueOp T W) → Option (QueueRun T W)
  | [] => some r
  | op :: ops =>
    match r.step op with
    | none => none
    | some r1 => r1.run ops

end QueueRun

/-! ## Subscription.cpp, Channel.h -/

/-- An address of an object (a channel, or a queue made by `make_shared`). -/
abbrev Addr := Nat

/-- The enumeration `Severity`. -/
inductive Severity where
  | WARNING
  | ERROR
  deriving DecidableEq, Repr

/-- The constant `DEFAULT_BUFFERSIZE`. -/
def DEFAULT_BUFFERSIZE : Int := 5

/-- The constant `PUBLISHING_QUEUE_SIZE`. -/
def PUBLISHING_QUEUE_SIZE : Int := 5

/-- The function `getSubscriptionID`: returns the static counter and increments
it.  The argument and the second component are the counter before and after. -/
def getSubscriptionID (subscriptionCounter : Int) : Int × Int :=
  (subscriptionCounter, subscriptionCounter + 1)

/-- The class `Subscription`: `channel` is `none` for `nullptr`. -/
structure Subscription where
  id : Int
  channel : Option Addr
  persistent : Bool
  deriving DecidableEq, Repr

/-- The delivery function stored in the subscriber map, by the lambda that
made it: `[callback](T message) {callback(message); return true;}` or
`[buffer](T message) {return buffer->tryEnqueue(message);}`, the latter holding
the address of the shared queue. -/
inductive Subscriber (T : Type) (W : Type) where
  | callback (callback : T → W → W)
  | buffer (buffer : Addr)

/-- Assignment `m[k] = v` on a `std::map<int, _>`, kept in ascending key order. -/
def mapAssign {β : Type} (k : Int) (v : β) : List (Int × β) → List (Int × β)
  | [] => [(k, v)]
  | (k1, v1) :: rest =>
    if k < k1 then (k, v) :: (k1, v1) :: rest
    else if k = k1 then (k, v) :: rest
    else (k1, v1) :: mapAssign k v rest

/-- The data members of `Channel<T>` (the thread handle, the mutexes and the
condition variable carry no data). -/
structure Channel (T : Type) (W : Type) where
  run : Bool
  publishingQueue : ThreadSafeQueue (T × Severity) W
  subscribers : List (Int × Subscriber T W)
  name : String

/-- The queues made by `make_shared<ThreadSafeQueue<T>>`: the queue at each
address and the first address not handed out yet. -/
structure Buffers (T : Type) (W : Type) where
  cell : Addr → ThreadSafeQueue T W
  next : Addr

/-- Writes the queue at an address. -/
def Buffers.set {T W : Type} (b : Buffers T W) (a : Addr) (q : ThreadSafeQueue T W) :
    Buffers T W :=
  { b with cell := fun x => if x = a then q else b.cell x }

/-- What a channel's worker acts on besides the channel: the shared queues of
its buffered subscribers, the environment of the callbacks, and the calls
`WARNING_CHANNEL.publish(text)` made so far, each recorded as the pair
`(text, Severity::ERROR)` that `publish` enqueues on that channel's inbound
queue.  That enqueue is blocking and the queue is drained by the warnings
channel's own worker, a thread other than the one modelled here; the record
keeps the calls in the order in which they complete. -/
structure Env (T : Type) (W : Type) where
  buffers : Buffers T W
  world : W
  warnings : List (String × Severity)

/-- The result of code that may throw: the state reached, and the `what()` of
the exception when one left the code. -/
inductive Outcome (σ : Type) where
  | done (s : σ)
  | thrown (what : String) (s : σ)

/-- The state carried by an outcome. -/
def Outcome.state {σ : Type} : Outcome σ → σ
  | .done s => s
  | .thrown _ s => s

/-- The `what()` of the exception, if one was thrown. -/
def Outcome.exception {σ : Type} : Outcome σ → Option String
  | .done _ => none
  | .thrown what _ => some what

/-- The text published on the warnings channel for a dropped message. -/
def droppedWarning (name : String) (subscriber : Int) : String :=
  "Dropped a message on Channel \"" ++ name ++ "\" - Subscriber "
    ++ toString subscriber ++ " didn't accept..."

/-- The `what()` of the `std::runtime_error` for a dropped critical message. -/
def droppedCritical (name : String) : String :=
  "Dropped critical message on Channel \"" ++ name ++ "\""

namespace Subscriber

variable {T W : Type}

/-- The call `subscriber.second(message)`. -/
def call : Subscriber T W → T → Env T W → Bool × Env T W
  | .callback cb, message, e => (true, { e with world := cb message e.world })
  | .buffer ptr, message, e =>
    let r := (e.buffers.cell ptr).tryEnqueue message e.world
    (r.1, { e with buffers := e.buffers.set ptr r.2.1, world := r.2.2 })

end Subscriber

namespace Channel

variable {T W : Type}

/-- The constructor `Channel(std::string name)`. -/
def new (name : String) : Channel T W :=
  { run := true, publishingQueue := ThreadSafeQueue.new PUBLISHING_QUEUE_SIZE,
    subscribers := [], name := name }

/-- The loop `for (auto&& subscriber : subscribers)` of `processingLoop` for one
dequeued message: a refused ERROR message throws, a refused WARNING message is
reported by `WARNING_CHANNEL.publish`, whose severity is the default. -/
def deliver (name : String) (message : T) (severity : Severity) :
    List (Int × Subscriber T W) → Env T W → Outcome (Env T W)
  | [], e => .done e
  | subscriber :: rest, e =>
    let r := subscriber.2.call message e
    if !r.1 then
      if severity = Severity.ERROR then
        .thrown (droppedCritical name) r.2
      else
        deliver name message severity rest
          { r.2 with warnings :=
              r.2.warnings ++ [(droppedWarning name subscriber.1, Severity.ERROR)] }
    else
      deliver name message severity rest r.2

/-- One iteration of `while (publishingQueue.canDequeue())`: dequeue the next
pair and hand the message to every subscriber.  Without a queued message the
loop is left and nothing changes.  The worker is the only consumer of the
inbound queue, so the `dequeue` after a successful `canDequeue` does not wait. -/
def processNext (ch : Channel T W) (e : Env T W) : Outcome (Channel T W × Env T W) :=
  if ch.publishingQueue.canDequeue then
    match ch.publishingQueue.dequeue e.world with
    | none => .done (ch, e)
    | some r =>
      match deliver ch.name r.1.1 r.1.2 ch.subscribers { e with world := r.2.2 } with
      | .done e1 => .done ({ ch with publishingQueue := r.2.1 }, e1)
      | .thrown what e1 => .thrown what ({ ch with publishingQueue := r.2.1 }, e1)
  else
    .done (ch, e)

/-- The method `publish(message, severity)`: the blocking enqueue of the pair
(`none` while the inbound queue is full); the `notify_all` wakes the worker. -/
def publish (ch : Channel T W) (message : T) (severity : Severity) (w : W) :
    Option (Channel T W × W) :=
  match ch.publishingQueue.enqueue (message, severity) w with
  | none => none
  | some r => some ({ ch with publishingQueue := r.1 }, r.2)

/-- The call `publish(message)`, severity defaulted to `Severity::ERROR`. -/
def publishDefault (ch : Channel T W) (message : T) (w : W) : Option (Channel T W × W) :=
  ch.publish message Severity.ERROR w

/-- The method `subscribe(callback, persistent)` of the channel at address
`self`: a subscription with a fresh id whose entry wraps the callback. -/
def subscribe (ch : Channel T W) (self : Addr) (callback : T → W → W) (persistent : Bool)
    (subscriptionCounter : Int) : Subscription × Channel T W × Int :=
  let c := getSubscriptionID subscriptionCounter
  let s : Subscription := { id := c.1, channel := some self, persistent := persistent }
  (s, { ch with subscribers := mapAssign s.id (Subscriber.callback callback) ch.subscribers },
    c.2)

end Channel

/-! ### The worker and the publishers of one channel -/

/-- What happens to a channel: a publisher completes `publish`, or the worker
runs one iteration of its inner loop. -/
inductive ChannelEvent (T : Type) where
  | publish (message : T) (severity : Severity)
  | process

/-- A channel, what its worker acts on, and the exception that left
`processingLoop`, if any (it ends the worker thread, and with it the process). -/
structure ChannelState (T : Type) (W : Type) where
  ch : Channel T W
  env : Env T W
  raised : Option String

namespace ChannelState

variable {T W : Type}

/-- One event.  A `publish` on a full inbound queue does not complete (`none`);
once an exception has left the worker nothing changes any more. -/
def step (s : ChannelState T W) : ChannelEvent T → Option (ChannelState T W)
  | .publish message severity =>
    match s.raised with
    | some _ => some s
    | none =>
      match s.ch.publish message severity s.env.world with
      | none => none
      | some r => some { s with ch := r.1, env := { s.env with world := r.2 } }
  | .process =>
    match s.raised with
    | some _ => some s
    | none =>
      match s.ch.processNext s.env with
      | .done r => some { ch := r.1, env := r.2, raised := none }
      | .thrown what r => some { ch := r.1, env := r.2, raised := some what }

/-- The events from left to right. -/
def run (s : ChannelState T W) : List (ChannelEvent T) → Option (ChannelState T W)
  | [] => some s
  | ev :: evs =>
    match s.step ev with
    | none => none
    | some s1 => s1.run evs

end ChannelState

/-! ## Broker.h -/

/-- A channel object made by `new Channel<T>(id)` and owned by the registry:
its address, its dynamic element type (a code `elemType` of a universe `U` of
element types, decoded by `El`) and its data. -/
structure ChannelObject (U : Type) (El : U → Type) (W : Type) where
  addr : Addr
  elemType : U
  channel : Channel (El elemType) W

/-- The cast `dynamic_cast<Channel<T>*>`: the channel when its element type is
`T`, `none` for the null pointer otherwise. -/
def ChannelObject.cast {U : Type} {El : U → Type} {W : Type} [DecidableEq U]
    (o : ChannelObject U El W) (t : U) : Option (Channel (El t) W) :=
  if h : o.elemType = t then some (h ▸ o.channel) else none

/-- The class `Broker`: the map `channels` from names to owned channel objects
(its iteration order is never used; new names are put at the end). -/
structure Broker (U : Type) (El : U → Type) (W : Type) where
  channels : List (String × ChannelObject U El W)

namespace Broker

variable {U : Type} {El : U → Type} {W : Type} [DecidableEq U]

/-- The text of the `std::logic_error` thrown by `getChannel`. -/
def castFailed : String := "Failed to cast - Please ensure that the types match!!"

/-- The method `getChannel<T>(id)`; `fresh` is the address at which `new` would
place a channel.  The result is the returned reference (the address of the
channel) or the exception, together with the registry afterwards. -/
def getChannel (b : Broker U El W) (t : U) (id : String) (fresh : Addr) :
    Except String Addr × Broker U El W :=
  let b1 : Broker U El W :=
    match b.channels.lookup id with
    | none => { channels := b.channels ++ [(id, ⟨fresh, t, Channel.new id⟩)] }
    | some _ => b
  match b1.channels.lookup id with
  | none => (.error castFailed, b1)
  | some o =>
    match o.cast t with
    | none => (.error castFailed, b1)
    | some _ => (.ok o.addr, b1)

/-- A sequence of `getChannel` calls, results dropped. -/
def getChannels (b : Broker U El W) : List (U × String × Addr) → Broker U El W
  | [] => b
  | c :: cs => getChannels (b.getChannel c.1 c.2.1 c.2.2).2 cs

/-- Reads the channel behind a reference `Channel<T>&`. -/
def deref (b : Broker U El W) (t : U) (a : Addr) : Option (Channel (El t) W) :=
  match b.channels.find? (fun e => decide (e.2.addr = a)) with
  | none => none
  | some e => e.2.cast t

/-- Writes the channel behind a reference `Channel<T>&`. -/
def assign (b : Broker U El W) (t : U) (a : Addr) (c : Channel (El t) W) : Broker U El W :=
  { channels := b.channels.map
      (fun e => if e.2.addr = a then (e.1, ⟨a, t, c⟩) else e) }

end Broker

/-- The element types used by `main.cpp` and by the warnings channel. -/
inductive MainType where
  | int
  | string
  deriving DecidableEq, Repr

/-- The C++ type named by a `MainType`. -/
def MainType.El : MainType → Type
  | .int => Int
  | .string => String

/-- The function `main` up to its second `publish`, followed by the worker
handling the two messages: `GET_CHANNEL(int, "test")` on the empty registry
(the channel is placed at `fresh`), `subscribe(callback, true)` with the first
subscription id, `publish(1)`, `publish(42)`.  The result is the final state of
the channel, `none` if a `publish` had to wait or `getChannel` threw. -/
def main {W : Type} (callback : Int → W → W) (fresh : Addr) (w : W) :
    Option (ChannelState Int W) :=
  let b : Broker MainType MainType.El W := { channels := [] }
  match b.getChannel MainType.int "test" fresh with
  | (.error _, _) => none
  | (.ok a, b1) =>
    match b1.deref MainType.int a with
    | none => none
    | some ch =>
      let sub := ch.subscribe a callback true 0
      let s : ChannelState Int W :=
        { ch := sub.2.1, env := { buffers := ⟨fun _ => ThreadSafeQueue.new 0, 0⟩,
                                  world := w, warnings := [] },
          raised := none }
      match s.ch.publishDefault 1 s.env.world with
      | none => none
      | some r1 =>
        match r1.1.publishDefault 42 r1.2 with
        | none => none
        | some r2 =>
          ({ s with ch := r2.1, env := { s.env with world := r2.2 } } : ChannelState Int W).run
            [ChannelEvent.process, ChannelEvent.process]

/-! ### Vocabulary of the delivery claims -/

/-- A queue is full when it holds at least as many elements as its capacity,
read the way `canEnqueue_` reads it. -/
def ThreadSafeQueue.isFull {T W : Type} (q : ThreadSafeQueue T W) : Bool :=
  decide (toUnsigned q.maxSize ≤ q.queue.length)

/-- The addresses of the queues of the buffered subscribers, in map order. -/
def bufferAddrs {T W : Type} : List (Int × Subscriber T W) → List Addr
  | [] => []
  | (_, .callback _) :: rest => bufferAddrs rest
  | (_, .buffer ptr) :: rest => ptr :: bufferAddrs rest

/-- The ids of the buffered subscribers whose queue is full in `e`, in map
order. -/
def fullSubscribers {T W : Type} (e : Env T W) : List (Int × Subscriber T W) → List Int
  | [] => []
  | (_, .callback _) :: rest => fullSubscribers e rest
  | (id, .buffer ptr) :: rest =>
    if (e.buffers.cell ptr).isFull then id :: fullSubscribers e rest
    else fullSubscribers e rest

/-- The environment after every subscriber has been handed `message` once, in
map order, the queues being as in `e`: a callback subscriber runs its callback,
a buffered subscriber with room runs the `notifyCallback` of its queue on the
extended deque, a buffered subscriber without room runs nothing. -/
def handedToAll {T W : Type} (message : T) (e : Env T W) :
    List (Int × Subscriber T W) → W → W
  | [], w => w
  | (_, .callback cb) :: rest, w => handedToAll message e rest (cb message w)
  | (_, .buffer ptr) :: rest, w =>
    handedToAll message e rest
      (if (e.buffers.cell ptr).isFull then w
       else (e.buffers.cell ptr).notifyCallback ((e.buffers.cell ptr).queue ++ [message]) w)

/-- The subscriber map that holds exactly the given callbacks. -/
def callbackSubscribers {T W : Type} (cbs : List (Int × (T → W → W))) :
    List (Int × Subscriber T W) :=
  cbs.map (fun c => (c.1, Subscriber.callback c.2))

/-- The environment after each of the callbacks has run once on `message`, in
map order. -/
def invokeAll {T W : Type} (cbs : List (Int × (T → W → W))) (message : T) (w : W) : W :=
  cbs.foldl (fun w1 c => c.2 message w1) w

/-- The messages of the `publish` events, in order. -/
def publishedBy {T : Type} : List (ChannelEvent T) → List (T × Severity)
  | [] => []
  | .publish message severity :: evs => (message, severity) :: publishedBy evs
  | .process :: evs => publishedBy evs

/-- The schedule in which the worker handles each message right after its
`publish`. -/
def publishAndProcess {T : Type} : List (T × Severity) → List (ChannelEvent T)
  | [] => []
  | m :: ms => .publish m.1 m.2 :: .process :: publishAndProcess ms

/-- A channel `"c"` of numbers for the examples: one buffered subscriber with id
0 whose queue is at address 0, and the message 9 queued with the given
severity. -/
def sampleChannel (severity : Severity) : Channel Nat Unit :=
  { run := true,
    publishingQueue := ⟨[(9, severity)], PUBLISHING_QUEUE_SIZE,
      ThreadSafeQueue.DO_NOTHING_CALLBACK⟩,
    subscribers := [(0, Subscriber.buffer 0)],
    name := "c" }

/-- The queues for the examples: a queue of capacity 1 that holds the unread
message 5, no warning published yet. -/
def sampleEnv : Env Nat Unit :=
  { buffers := ⟨fun _ => ⟨[5], 1, ThreadSafeQueue.DO_NOTHING_CALLBACK⟩, 1⟩,
    world := (),
    warnings := [] }

/-- What holds of a channel built by the constructor once callbacks `cbs` are
its only subscribers, as long as its worker has thrown nothing. -/
structure ChannelState.CallbackOnly {T W : Type} (cbs : List (Int × (T → W → W))) (ws : List (String × Severity))
    (s : ChannelState T W) : Prop where
  raised : s.raised = none
  subscribers : s.ch.subscribers = callbackSubscribers cbs
  notify : s.ch.publishingQueue.notifyCallback = ThreadSafeQueue.DO_NOTHING_CALLBACK
  maxSize : s.ch.publishingQueue.maxSize = PUBLISHING_QUEUE_SIZE
  warnings : s.env.warnings = ws

/-! ## Subscription.cpp: handles -/

/-- The call `m.erase(k)` on a `std::map<int, _>`. -/
def mapErase {β : Type} (k : Int) (m : List (Int × β)) : List (Int × β) :=
  m.filter (fun e => decide (e.1 ≠ k))

/-- The value stored under a key of a `std::map<int, _>`, if any. -/
def mapFind {β : Type} (k : Int) : List (Int × β) → Option β
  | [] => none
  | (k1, v) :: rest => if k1 = k then some v else mapFind k rest

/-- The method `Channel<T>::unsubscribe(subscription)`. -/
def Channel.unsubscribe {T W : Type} (ch : Channel T W) (subscription : Subscription) :
    Channel T W :=
  { ch with subscribers := mapErase subscription.id ch.subscribers }

/-- The method `getName()`. -/
def Channel.getName {T W : Type} (ch : Channel T W) : String := ch.name

/-- A channel as seen through `AbstractChannelBase*`: a channel of some element
type. -/
structure AbstractChannelBase (U : Type) (El : U → Type) (W : Type) where
  elemType : U
  channel : Channel (El elemType) W

/-- The virtual method `unsubscribe`, dispatched to `Channel<T>::unsubscribe`. -/
def AbstractChannelBase.unsubscribe {U : Type} {El : U → Type} {W : Type}
    (o : AbstractChannelBase U El W) (subscription : Subscription) :
    AbstractChannelBase U El W :=
  ⟨o.elemType, o.channel.unsubscribe subscription⟩

/-- The ids under which a channel holds subscribers, in map order. -/
def AbstractChannelBase.ids {U : Type} {El : U → Type} {W : Type}
    (o : AbstractChannelBase U El W) : List Int :=
  o.channel.subscribers.map (fun e => e.1)

/-- The channel objects of the program by address, together with the calls of
the virtual `unsubscribe` made so far (channel address and subscription id, in
call order), which are recorded for the claims that count them. -/
structure ChannelMemory (U : Type) (El : U → Type) (W : Type) where
  object : Addr → AbstractChannelBase U El W
  unsubscribeCalls : List (Addr × Int)

/-- The call `channel->unsubscribe(subscription)`. -/
def ChannelMemory.unsubscribe {U : Type} {El : U → Type} {W : Type}
    (m : ChannelMemory U El W) (channel : Addr) (subscription : Subscription) :
    ChannelMemory U El W :=
  { object := fun a =>
      if a = channel then (m.object a).unsubscribe subscription else m.object a,
    unsubscribeCalls := m.unsubscribeCalls ++ [(channel, subscription.id)] }

namespace Subscription

/-- The default constructor `Subscription()`: the invalid subscription. -/
def invalid : Subscription := { id := -1, channel := none, persistent := true }

/-- The constructor `Subscription(channel, persistent)`; the second component is
the counter afterwards. -/
def create (channel : Addr) (persistent : Bool) (subscriptionCounter : Int) :
    Subscription × Int :=
  ({ id := (getSubscriptionID subscriptionCounter).1, channel := some channel,
     persistent := persistent },
   (getSubscriptionID subscriptionCounter).2)

/-- The method `getID()`. -/
def getID (s : Subscription) : Int := s.id

/-- A handle is active when it has a valid id and a channel. -/
def Active (s : Subscription) : Prop := 0 ≤ s.id ∧ s.channel ≠ none

/-- A handle is inactive when its id is -1 and it has no channel. -/
def Inactive (s : Subscription) : Prop := s.id = -1 ∧ s.channel = none

/-- The move constructor `Subscription(Subscription&& other)`: the new object
and `other` afterwards. -/
def moveConstruct (other : Subscription) : Subscription × Subscription :=
  ({ id := other.id, channel := other.channel, persistent := other.persistent },
   { id := -1, channel := none, persistent := true })

variable {U : Type} {El : U → Type} {W : Type}

/-- The method `unsubscribe()`: the handle and the channels afterwards. -/
def unsubscribe (s : Subscription) (m : ChannelMemory U El W) :
    Subscription × ChannelMemory U El W :=
  match s.channel with
  | some channel => ({ s with channel := none, id := -1 }, m.unsubscribe channel s)
  | none => (s, m)

/-- The move assignment `this = std::move(other)` for two different objects:
`this`, `other` and the channels afterwards. -/
def moveAssign (this other : Subscription) (m : ChannelMemory U El W) :
    Subscription × Subscription × ChannelMemory U El W :=
  let r := if this.channel.isSome && !this.persistent then this.unsubscribe m else (this, m)
  ({ id := other.id, channel := other.channel, persistent := other.persistent },
   { id := -1, channel := none, persistent := true },
   r.2)

/-- The destructor `~Subscription()`: the channels afterwards. -/
def destroy (s : Subscription) (m : ChannelMemory U El W) : ChannelMemory U El W :=
  if !s.persistent then (s.unsubscribe m).2 else m

/-- The destructors of the given handles, from left to right. -/
def destroyAll (m : ChannelMemory U El W) : List Subscription → ChannelMemory U El W
  | [] => m
  | s :: rest => destroyAll (s.destroy m) rest

/-- The handle is passed through `n` move constructions: the moved-from sources
in order, and the last holder. -/
def moveChain : Nat → Subscription → List Subscription × Subscription
  | 0, s => ([], s)
  | n + 1, s =>
    let r := moveChain n (moveConstruct s).1
    ((moveConstruct s).2 :: r.1, r.2)

end Subscription

/-! ## BufferedSubscription.h -/

/-- The class `BufferedSubscription<T>`: the `Subscription` base and the pointer
`queue` to the shared queue, `none` for `nullptr`. -/
structure BufferedSubscription where
  subscription : Subscription
  queue : Option Addr
  deriving DecidableEq, Repr

namespace BufferedSubscription

variable {T W : Type}

/-- The text of the `std::logic_error` thrown on an instance without a queue. -/
def invalidText : String := "Invalid BuferedSubscription - did you move it?"

/-- The constructor `BufferedSubscription(Subscription&& subscription, queue)`:
the new object and the argument `subscription` afterwards. -/
def create (subscription : Subscription) (queue : Option Addr) :
    BufferedSubscription × Subscription :=
  ({ subscription := (Subscription.moveConstruct subscription).1, queue := queue },
   (Subscription.moveConstruct subscription).2)

/-- The move constructor `BufferedSubscription(BufferedSubscription&&)`: the new
object and the argument afterwards. -/
def moveConstruct (other : BufferedSubscription) :
    BufferedSubscription × BufferedSubscription :=
  ({ subscription := (Subscription.moveConstruct other.subscription).1,
     queue := other.queue },
   { subscription := (Subscription.moveConstruct other.subscription).2, queue := none })

/-- The method `hasMessage()`. -/
def hasMessage (bs : BufferedSubscription) (buffers : Buffers T W) : Except String Bool :=
  match bs.queue with
  | none => .error invalidText
  | some queue => .ok (buffers.cell queue).canDequeue

/-- The method `getMessage()`: the exception, or the result of the blocking
`dequeue` (`none` while the caller waits for a message). -/
def getMessage (bs : BufferedSubscription) (buffers : Buffers T W) (w : W) :
    Except String (Option (T × Buffers T W × W)) :=
  match bs.queue with
  | none => .error invalidText
  | some queue =>
    match (buffers.cell queue).dequeue w with
    | none => .ok none
    | some r => .ok (some (r.1, buffers.set queue r.2.1, r.2.2))

/-- The method `setOnNewElement(callback)`. -/
def setOnNewElement (bs : BufferedSubscription) (callback : List T → W → W)
    (buffers : Buffers T W) : Except String (Buffers T W) :=
  match bs.queue with
  | none => .error invalidText
  | some queue => .ok (buffers.set queue ((buffers.cell queue).setOnNewElement callback))

/-- The method `unsetOnNewElement()`. -/
def unsetOnNewElement (bs : BufferedSubscription) (buffers : Buffers T W) : Buffers T W :=
  match bs.queue with
  | none => buffers
  | some queue => buffers.set queue (buffers.cell queue).unsetOnNewElement

end BufferedSubscription

/-- The method `subscribe(buffersize)` of the channel at address `self`:
`make_shared` places the new queue at the next free address, the entry under
the fresh id wraps its `tryEnqueue`, and the subscription, not persistent, is
moved into the returned `BufferedSubscription`. -/
def Channel.subscribeBuffer {T W : Type} (ch : Channel T W) (self : Addr) (buffersize : Int)
    (subscriptionCounter : Int) (buffers : Buffers T W) :
    BufferedSubscription × Channel T W × Int × Buffers T W :=
  let buffer := buffers.next
  let buffers1 : Buffers T W :=
    { cell := (buffers.set buffer (ThreadSafeQueue.new buffersize)).cell,
      next := buffers.next + 1 }
  let s := Subscription.create self false subscriptionCounter
  ((BufferedSubscription.create s.1 (some buffer)).1,
   { ch with subscribers := mapAssign s.1.getID (Subscriber.buffer buffer) ch.subscribers },
   s.2, buffers1)

/-! ## Programs that create, move and destroy handles -/

namespace ChannelMemory

variable {U : Type} {El : U → Type} {W : Type}

/-- Writes the channel object at an address. -/
def setObject (m : ChannelMemory U El W) (a : Addr) (o : AbstractChannelBase U El W) :
    ChannelMemory U El W :=
  { m with object := fun x => if x = a then o else m.object x }

/-- The call `subscribe(callback, persistent)` on the channel at an address;
`callback` gives the callback for the element type of that channel. -/
def subscribe (m : ChannelMemory U El W) (channel : Addr)
    (callback : (t : U) → El t → W → W) (persistent : Bool) (subscriptionCounter : Int) :
    Subscription × ChannelMemory U El W × Int :=
  let o := m.object channel
  let r := o.channel.subscribe channel (callback o.elemType) persistent subscriptionCounter
  (r.1, m.setObject channel ⟨o.elemType, r.2.1⟩, r.2.2)

end ChannelMemory

/-- The state of a program that uses handles: the channels, the shared queues
of every element type, the static counter of `getSubscriptionID`, the handle
objects (slot `k` holds the `k`-th handle object that was constructed, `none`
once it is destroyed; `constructed` is the number of slots in use), and the ids
handed out by the `subscribe` calls so far, in call order. -/
structure Program (U : Type) (El : U → Type) (W : Type) where
  memory : ChannelMemory U El W
  buffers : (t : U) → Buffers (El t) W
  subscriptionCounter : Int
  handles : Nat → Option Subscription
  constructed : Nat
  issued : List Int

/-- What a program does with handles.  A buffered subscription is followed by
its `Subscription` base. -/
inductive HandleOp (U : Type) (El : U → Type) (W : Type) where
  | subscribe (channel : Addr) (callback : (t : U) → El t → W → W) (persistent : Bool)
  | subscribeBuffer (channel : Addr) (buffersize : Int)
  | construct
  | moveConstruct (source : Nat)
  | moveAssign (target source : Nat)
  | unsubscribe (handle : Nat)
  | destroy (handle : Nat)

namespace Program

variable {U : Type} {El : U → Type} {W : Type} [DecidableEq U]

/-- The program at its start: no handle yet, the counter at 0. -/
def start (object : Addr → AbstractChannelBase U El W)
    (buffers : (t : U) → Buffers (El t) W) : Program U El W :=
  { memory := { object := object, unsubscribeCalls := [] },
    buffers := buffers,
    subscriptionCounter := 0,
    handles := fun _ => none,
    constructed := 0,
    issued := [] }

/-- Writes a slot. -/
def setHandle (p : Program U El W) (k : Nat) (s : Option Subscription) : Program U El W :=
  { p with handles := fun x => if x = k then s else p.handles x }

/-- Puts a newly constructed handle object into the next slot. -/
def addHandle (p : Program U El W) (s : Subscription) : Program U El W :=
  { p with handles := fun x => if x = p.constructed then some s else p.handles x,
           constructed := p.constructed + 1 }

/-- One operation.  An operation on a slot that holds no live handle, and a
move assignment of a handle to itself, are not operations of the program and
change nothing. -/
def step (p : Program U El W) : HandleOp U El W → Program U El W
  | .subscribe channel callback persistent =>
    let r := p.memory.subscribe channel callback persistent p.subscriptionCounter
    addHandle { p with memory := r.2.1, subscriptionCounter := r.2.2,
                       issued := p.issued ++ [r.1.id] } r.1
  | .subscribeBuffer channel buffersize =>
    let o := p.memory.object channel
    let r := o.channel.subscribeBuffer channel buffersize p.subscriptionCounter
      (p.buffers o.elemType)
    addHandle { p with memory := p.memory.setObject channel ⟨o.elemType, r.2.1⟩,
                       buffers := fun t =>
                         if h : t = o.elemType then h ▸ r.2.2.2 else p.buffers t,
                       subscriptionCounter := r.2.2.1,
                       issued := p.issued ++ [r.1.subscription.id] } r.1.subscription
  | .construct => addHandle p Subscription.invalid
  | .moveConstruct source =>
    match p.handles source with
    | none => p
    | some s => addHandle (p.setHandle source (some (Subscription.moveConstruct s).2))
        (Subscription.moveConstruct s).1
  | .moveAssign target source =>
    if target = source then p
    else
      match p.handles target, p.handles source with
      | some t, some s =>
        let r := t.moveAssign s p.memory
        ({ p with memory := r.2.2 }.setHandle target (some r.1)).setHandle source (some r.2.1)
      | _, _ => p
  | .unsubscribe handle =>
    match p.handles handle with
    | none => p
    | some s =>
      let r := s.unsubscribe p.memory
      { p with memory := r.2 }.setHandle handle (some r.1)
  | .destroy handle =>
    match p.handles handle with
    | none => p
    | some s => { p with memory := s.destroy p.memory }.setHandle handle none

/-- The operations from left to right. -/
def run (p : Program U El W) : List (HandleOp U El W) → Program U El W
  | [] => p
  | op :: ops => (p.step op).run ops

end Program

/-- Channel objects for the examples: at every address a channel `"c"` of `int`
whose only subscriber is a callback under the id 0. -/
def sampleMemory : ChannelMemory MainType MainType.El Unit :=
  { object := fun _ =>
      ⟨MainType.int,
        { (Channel.new "c" : Channel Int Unit) with
          subscribers := [(0, Subscriber.callback (fun _ w => w))] }⟩,
    unsubscribeCalls := [] }

/-- What holds of a program's handles and counter in every state it reaches:
the counter is the number of ids issued, the `k`-th id issued is `k`, a live
handle either has id -1 and no channel or has a channel and an id that was
issued, and two live handle objects with a channel have different ids. -/
structure Program.Consistent {U : Type} {El : U → Type} {W : Type}
    (p : Program U El W) : Prop where
  counter : p.subscriptionCounter = (p.issued.length : Int)
  issued : p.issued = (List.range p.issued.length).map Int.ofNat
  handle : ∀ k s, p.handles k = some s →
    (s.id = -1 ∧ s.channel = none) ∨
    (0 ≤ s.id ∧ s.id < p.subscriptionCounter ∧ s.channel ≠ none)
  distinct : ∀ i j s t, i ≠ j → p.handles i = some s → p.handles j = some t →
    s.channel ≠ none → t.channel ≠ none → s.id ≠ t.id

/-- A program for the examples, on the channels of `sampleMemory`: two
subscriptions, a move of the first handle, the destruction of its source and of
the new holder, and a third subscription. -/
def sampleProgram : Program MainType MainType.El Unit :=
  (Program.start sampleMemory.object
    (fun _ => ⟨fun _ => ThreadSafeQueue.new 0, 0⟩)).run
    [HandleOp.subscribe 3 (fun _ _ w => w) false,
     HandleOp.subscribeBuffer 4 2,
     HandleOp.moveConstruct 0,
     HandleOp.destroy 0,
     HandleOp.destroy 2,
     HandleOp.subscribe 3 (fun _ _ w => w) true]

/-! ## Broker.cpp -/

/-- The constant `WARNING_CHANNEL_NAME`. -/
def WARNING_CHANNEL_NAME : String := "InternalChannel.Warnings"

/-- The global object `WARNING_CHANNEL`, as its definition
`Channel<std::string> WARNING_CHANNEL(WARNING_CHANNEL_NAME)` constructs it. -/
def WARNING_CHANNEL {W : Type} : Channel String W := Channel.new WARNING_CHANNEL_NAME

/-- The object returned by `Broker::getBroker()`, as constructed: a registry
without channels. -/
def Broker.getBroker {U : Type} {El : U → Type} {W : Type} : Broker U El W :=
  { channels := [] }

/-- A scenario for the warnings channel, from the start of the process.  The
application looks `"InternalChannel.Warnings"` up in the registry as a channel
of `string` (a channel made by `new` is placed at `fresh`) and registers on the
returned channel a persistent callback that appends what it receives.  Then
the worker of a channel `"c"`, whose buffered subscriber 1 has a full queue,
handles a WARNING message; its calls `WARNING_CHANNEL.publish` are performed on
the global object; the worker of the global object and the worker of the
looked-up channel each run until their inbound queue is empty.  The result is
what the callback has received, the calls `WARNING_CHANNEL.publish` made, and
what is left in the inbound queue of the global object. -/
def warningLookupScenario (fresh : Addr) :
    Option (List String × List (String × Severity) × List (String × Severity)) :=
  let b : Broker MainType MainType.El (List String) := Broker.getBroker
  match b.getChannel MainType.string WARNING_CHANNEL_NAME fresh with
  | (.error _, _) => none
  | (.ok a, b1) =>
    match b1.deref MainType.string a with
    | none => none
    | some looked =>
      let sub := looked.subscribe a
        (fun (text : String) (received : List String) => received ++ [text]) true 0
      let source : Channel Nat (List String) :=
        { (Channel.new "c" : Channel Nat (List String)) with
          publishingQueue := ⟨[(9, Severity.WARNING)], PUBLISHING_QUEUE_SIZE,
            ThreadSafeQueue.DO_NOTHING_CALLBACK⟩,
          subscribers := [(1, Subscriber.buffer 0)] }
      let e : Env Nat (List String) :=
        { buffers := ⟨fun _ => ⟨[5], 1, ThreadSafeQueue.DO_NOTHING_CALLBACK⟩, 1⟩,
          world := [], warnings := [] }
      let dropped := (source.processNext e).state.2
      let noQueues : Buffers String (List String) := ⟨fun _ => ThreadSafeQueue.new 0, 0⟩
      match (⟨WARNING_CHANNEL, ⟨noQueues, dropped.world, []⟩, none⟩ :
          ChannelState String (List String)).run
            (dropped.warnings.map (fun d => ChannelEvent.publish d.1 d.2)) with
      | none => none
      | some published =>
        match published.run (dropped.warnings.map (fun _ => ChannelEvent.process)) with
        | none => none
        | some global =>
          match (⟨sub.2.1, ⟨noQueues, global.env.world, []⟩, none⟩ :
              ChannelState String (List String)).run [ChannelEvent.process] with
          | none => none
          | some lookedUp =>
            some (lookedUp.env.world, dropped.warnings, global.ch.publishingQueue.queue)

/-! ### A buffered subscription, its channel and its holder -/

/-- What happens around a buffered subscription: a publisher completes
`publish`, the worker runs one iteration of its inner loop, or the holder of
the subscription completes `getMessage`. -/
inductive ConsumerEvent (T : Type) where
  | publish (message : T) (severity : Severity)
  | process
  | getMessage

/-- The channel with what its worker acts on, the messages `getMessage` has
returned so far, in call order, and whether the worker has handled a message at
a moment at which the queue of the subscription was full. -/
structure ConsumerRun (T : Type) (W : Type) where
  state : ChannelState T W
  retrieved : List T
  overflowed : Bool

namespace ConsumerRun

variable {T W : Type}

/-- Whether the queue of the subscription is full. -/
def queueFull (bs : BufferedSubscription) (r : ConsumerRun T W) : Bool :=
  match bs.queue with
  | none => false
  | some queue => (r.state.env.buffers.cell queue).isFull

/-- One event for the subscription `bs`.  A `publish` on a full inbound queue
and a `getMessage` on an empty queue do not complete (`none`); once an
exception has left the worker nothing changes any more. -/
def step (bs : BufferedSubscription) (r : ConsumerRun T W) :
    ConsumerEvent T → Option (ConsumerRun T W)
  | .publish message severity =>
    match r.state.step (ChannelEvent.publish message severity) with
    | none => none
    | some s => some { r with state := s }
  | .process =>
    match r.state.step ChannelEvent.process with
    | none => none
    | some s =>
      some { state := s, retrieved := r.retrieved,
             overflowed := r.overflowed ||
               (r.state.raised.isNone && r.state.ch.publishingQueue.canDequeue &&
                 queueFull bs r) }
  | .getMessage =>
    match r.state.raised with
    | some _ => some r
    | none =>
      match bs.getMessage r.state.env.buffers r.state.env.world with
      | .error _ => some r
      | .ok none => none
      | .ok (some x) =>
        some { r with
          state := { r.state with
            env := { r.state.env with buffers := x.2.1, world := x.2.2 } },
          retrieved := r.retrieved ++ [x.1] }

/-- The events from left to right. -/
def run (bs : BufferedSubscription) (r : ConsumerRun T W) :
    List (ConsumerEvent T) → Option (ConsumerRun T W)
  | [] => some r
  | ev :: evs =>
    match step bs r ev with
    | none => none
    | some r1 => run bs r1 evs

/-- The messages of the `publish` events, in order. -/
def published : List (ConsumerEvent T) → List (T × Severity)
  | [] => []
  | .publish message severity :: evs => (message, severity) :: published evs
  | _ :: evs => published evs

/-- The start of a run: on a channel as constructed, with the subscriber map
`subs`, `subscribe(buffersize)` is called; nothing is published or retrieved
yet.  The first component is the subscription returned. -/
def start (name : String) (subs : List (Int × Subscriber T W)) (self : Addr)
    (buffersize : Int) (subscriptionCounter : Int) (e : Env T W) :
    BufferedSubscription × ConsumerRun T W :=
  let r := ({ (Channel.new name : Channel T W) with subscribers := subs }).subscribeBuffer
    self buffersize subscriptionCounter e.buffers
  (r.1, { state := { ch := r.2.1, env := { e with buffers := r.2.2.2 }, raised := none },
          retrieved := [], overflowed := false })

end ConsumerRun

/-- The schedule in which the given pairs are published one after the other and
the worker runs no iteration. -/
def publishOnly {T : Type} (ms : List (T × Severity)) : List (ChannelEvent T) :=
  ms.map (fun m => ChannelEvent.publish m.1 m.2)

/-- The number of iterations of the worker's inner loop in a schedule; each of
them dequeues at most one pair. -/
def iterations {T : Type} : List (ChannelEvent T) → Nat
  | [] => 0
  | .publish _ _ :: evs => iterations evs
  | .process :: evs => iterations evs + 1

/-! ### The warnings channel with a buffered subscriber -/

/-- The call `unsubscribe()` on a `BufferedSubscription<T>`: the method is the
one inherited from `Subscription`; it acts on the base and does not touch
`queue`. -/
def BufferedSubscription.unsubscribe {U : Type} {El : U → Type} {W : Type}
    (bs : BufferedSubscription) (m : ChannelMemory U El W) :
    BufferedSubscription × ChannelMemory U El W :=
  ({ bs with subscription := (bs.subscription.unsubscribe m).1 },
   (bs.subscription.unsubscribe m).2)

/-! ### Vocabulary of the fan-out claim -/

namespace ThreadSafeQueue

variable {T W : Type}

theorem toUnsigned_of_nonneg (n : Int) (h0 : 0 ≤ n) (h1 : n < 2147483648) :
    (toUnsigned n : Int) = n := by
  unfold toUnsigned
  rw [Int.toNat_of_nonneg (Int.emod_nonneg _ (by decide))]
  exact Int.emod_eq_of_lt h0 (by omega)

theorem canEnqueue__iff (q : ThreadSafeQueue T W) :
    q.canEnqueue_ = true ↔ q.queue.length < toUnsigned q.maxSize := by
  simp [canEnqueue_]

theorem canDequeue__iff (q : ThreadSafeQueue T W) :
    q.canDequeue_ = true ↔ q.queue ≠ [] := by
  cases h : q.queue <;> simp [canDequeue_, h]

theorem tryEnqueue_of_can (q : ThreadSafeQueue T W) (v : T) (w : W)
    (h : q.canEnqueue_ = true) :
    q.tryEnqueue v w =
      (true, { q with queue := q.queue ++ [v] }, q.notifyCallback (q.queue ++ [v]) w) := by
  simp [tryEnqueue, h, enqueue_]

theorem tryEnqueue_of_not_can (q : ThreadSafeQueue T W) (v : T) (w : W)
    (h : q.canEnqueue_ = false) : q.tryEnqueue v w = (false, q, w) := by
  simp [tryEnqueue, h]

theorem enqueue_of_can (q : ThreadSafeQueue T W) (v : T) (w : W)
    (h : q.canEnqueue_ = true) :
    q.enqueue v w =
      some ({ q with queue := q.queue ++ [v] }, q.notifyCallback (q.queue ++ [v]) w) := by
  simp [enqueue, h, enqueue_]

theorem enqueue_of_not_can (q : ThreadSafeQueue T W) (v : T) (w : W)
    (h : q.canEnqueue_ = false) : q.enqueue v w = none := by
  simp [enqueue, h]

theorem tryDequeue_nil (q : ThreadSafeQueue T W) (w : W) (h : q.queue = []) :
    q.tryDequeue w = (none, q, w) := by
  simp [tryDequeue, canDequeue_, h]

theorem tryDequeue_cons (q : ThreadSafeQueue T W) (w : W) (x : T) (xs : List T)
    (h : q.queue = x :: xs) :
    q.tryDequeue w = (some x, { q with queue := xs }, w) := by
  simp [tryDequeue, canDequeue_, dequeue_, h]

theorem dequeue_nil (q : ThreadSafeQueue T W) (w : W) (h : q.queue = []) :
    q.dequeue w = none := by
  simp [dequeue, canDequeue_, h]

theorem dequeue_cons (q : ThreadSafeQueue T W) (w : W) (x : T) (xs : List T)
    (h : q.queue = x :: xs) :
    q.dequeue w = some (x, { q with queue := xs }, w) := by
  simp [dequeue, canDequeue_, dequeue_, h]

end ThreadSafeQueue

/-! ## Claims on the queue -/

namespace ThreadSafeQueue

variable {T W : Type}

/-- C1. For a queue of capacity `C = maxSize` with `0 ≤ C` (an `int`, so
`C < 2^31`) that holds at most `C` elements, `tryEnqueue v` returns false
exactly when the size equals `C`; then the queue and the environment are
unchanged; otherwise it returns true and the contents are the old contents
with `v` appended at the back, capacity and callback being kept. -/
theorem tryEnqueue_false_iff_full (q : ThreadSafeQueue T W) (v : T) (w : W)
    (hC : 0 ≤ q.maxSize) (hI : q.maxSize < 2147483648)
    (hsize : (q.queue.length : Int) ≤ q.maxSize) :
    ((q.tryEnqueue v w).1 = false ↔ (q.queue.length : Int) = q.maxSize) ∧
    ((q.queue.length : Int) = q.maxSize → (q.tryEnqueue v w).2 = (q, w)) ∧
    ((q.queue.length : Int) ≠ q.maxSize →
      (q.tryEnqueue v w).1 = true ∧
      (q.tryEnqueue v w).2.1.queue = q.queue ++ [v] ∧
      (q.tryEnqueue v w).2.1.maxSize = q.maxSize ∧
      (q.tryEnqueue v w).2.1.notifyCallback = q.notifyCallback) := by
  have hu := toUnsigned_of_nonneg q.maxSize hC hI
  by_cases hfull : (q.queue.length : Int) = q.maxSize
  · have hc : q.canEnqueue_ = false := by
      rw [Bool.eq_false_iff]
      intro h
      rw [canEnqueue__iff] at h
      omega
    rw [tryEnqueue_of_not_can q v w hc]
    exact ⟨⟨fun _ => hfull, fun _ => rfl⟩, fun _ => rfl, fun h => absurd hfull h⟩
  · have hc : q.canEnqueue_ = true := by
      rw [canEnqueue__iff]
      omega
    rw [tryEnqueue_of_can q v w hc]
    refine ⟨⟨fun h => ?_, fun h => absurd h hfull⟩, fun h => absurd h hfull,
      fun _ => ⟨rfl, rfl, rfl, rfl⟩⟩
    simp at h

/-- C1, at a queue of capacity 2: full with `[7, 8]`, not full with `[7]`. -/
theorem tryEnqueue_false_iff_full_witness :
    (((⟨[7, 8], 2, DO_NOTHING_CALLBACK⟩ : ThreadSafeQueue Nat Unit).tryEnqueue 9 ()).1 = false ↔
      (([7, 8] : List Nat).length : Int) = 2) ∧
    (((⟨[7], 2, DO_NOTHING_CALLBACK⟩ : ThreadSafeQueue Nat Unit).tryEnqueue 9 ()).1 = true ∧
      ((⟨[7], 2, DO_NOTHING_CALLBACK⟩ : ThreadSafeQueue Nat Unit).tryEnqueue 9 ()).2.1.queue
        = [7, 9]) :=
  ⟨(tryEnqueue_false_iff_full ⟨[7, 8], 2, DO_NOTHING_CALLBACK⟩ 9 ()
      (by decide) (by decide) (by decide)).1,
   by decide⟩

/-- C2. `tryDequeue` returns the empty optional exactly when the queue is
empty, and then changes nothing; on a queue `x :: xs` it returns `x` and leaves
`xs`, everything else unchanged, and the blocking `dequeue` does not wait and
yields the same element and the same queue. -/
theorem tryDequeue_spec (q : ThreadSafeQueue T W) (w : W) :
    ((q.tryDequeue w).1 = none ↔ q.queue = []) ∧
    (q.queue = [] → q.tryDequeue w = (none, q, w)) ∧
    (∀ x xs, q.queue = x :: xs →
      q.tryDequeue w = (some x, { q with queue := xs }, w) ∧
      q.dequeue w = some (x, { q with queue := xs }, w)) := by
  refine ⟨?_, fun h => tryDequeue_nil q w h,
    fun x xs h => ⟨tryDequeue_cons q w x xs h, dequeue_cons q w x xs h⟩⟩
  cases h : q.queue with
  | nil => simp [tryDequeue_nil q w h]
  | cons x xs => simp [tryDequeue_cons q w x xs h]

end ThreadSafeQueue

/-! ### Histories: invariants of `QueueRun.step` -/

namespace QueueRun

variable {T W : Type}

theorem step_history (r r1 : QueueRun T W) (op : QueueOp T W) (h : r.step op = some r1)
    (hinv : r.enqueued = r.dequeued ++ r.q.queue) :
    r1.enqueued = r1.dequeued ++ r1.q.queue := by
  cases op with
  | tryEnqueue v =>
    simp only [step, Option.some.injEq] at h
    subst h
    cases hc : r.q.canEnqueue_
    · simp [ThreadSafeQueue.tryEnqueue_of_not_can r.q v r.world hc, hinv]
    · simp [ThreadSafeQueue.tryEnqueue_of_can r.q v r.world hc, hinv]
  | enqueue v =>
    cases hc : r.q.canEnqueue_
    · simp [step, ThreadSafeQueue.enqueue_of_not_can r.q v r.world hc] at h
    · simp only [step, ThreadSafeQueue.enqueue_of_can r.q v r.world hc,
        Option.some.injEq] at h
      subst h
      simp [hinv]
  | tryDequeue =>
    simp only [step, Option.some.injEq] at h
    subst h
    cases hq : r.q.queue with
    | nil => simp [ThreadSafeQueue.tryDequeue_nil r.q r.world hq, hinv]
    | cons x xs => simp [ThreadSafeQueue.tryDequeue_cons r.q r.world x xs hq, hinv, hq]
  | dequeue =>
    cases hq : r.q.queue with
    | nil => simp [step, ThreadSafeQueue.dequeue_nil r.q r.world hq] at h
    | cons x xs =>
      simp only [step, ThreadSafeQueue.dequeue_cons r.q r.world x xs hq,
        Option.some.injEq] at h
      subst h
      simp [hinv, hq]
  | setOnNewElement cb =>
    simp only [step, Option.some.injEq] at h
    subst h
    simpa [ThreadSafeQueue.setOnNewElement] using hinv
  | unsetOnNewElement =>
    simp only [step, Option.some.injEq] at h
    subst h
    simpa [ThreadSafeQueue.unsetOnNewElement] using hinv

theorem run_history (ops : List (QueueOp T W)) :
    ∀ r r1 : QueueRun T W, r.run ops = some r1 →
      r.enqueued = r.dequeued ++ r.q.queue → r1.enqueued = r1.dequeued ++ r1.q.queue := by
  induction ops with
  | nil =>
    intro r r1 h hinv
    simp only [run, Option.some.injEq] at h
    subst h
    exact hinv
  | cons op ops ih =>
    intro r r1 h hinv
    simp only [run] at h
    cases hs : r.step op with
    | none => simp [hs] at h
    | some r2 =>
      simp only [hs] at h
      exact ih r2 r1 h (step_history r r2 op hs hinv)

theorem step_capacity (r r1 : QueueRun T W) (op : QueueOp T W) (h : r.step op = some r1)
    (hinv : r.q.queue.length ≤ toUnsigned r.q.maxSize) :
    r1.q.maxSize = r.q.maxSize ∧ r1.q.queue.length ≤ toUnsigned r1.q.maxSize := by
  cases op with
  | tryEnqueue v =>
    simp only [step, Option.some.injEq] at h
    subst h
    cases hc : r.q.canEnqueue_
    · simpa [ThreadSafeQueue.tryEnqueue_of_not_can r.q v r.world hc] using hinv
    · have := (ThreadSafeQueue.canEnqueue__iff r.q).1 hc
      simp only [ThreadSafeQueue.tryEnqueue_of_can r.q v r.world hc, List.length_append,
        List.length_singleton, true_and]
      omega
  | enqueue v =>
    cases hc : r.q.canEnqueue_
    · simp [step, ThreadSafeQueue.enqueue_of_not_can r.q v r.world hc] at h
    · have := (ThreadSafeQueue.canEnqueue__iff r.q).1 hc
      simp only [step, ThreadSafeQueue.enqueue_of_can r.q v r.world hc,
        Option.some.injEq] at h
      subst h
      simp only [List.length_append, List.length_singleton, true_and]
      omega
  | tryDequeue =>
    simp only [step, Option.some.injEq] at h
    subst h
    cases hq : r.q.queue with
    | nil => simp [ThreadSafeQueue.tryDequeue_nil r.q r.world hq, hq]
    | cons x xs =>
      rw [hq] at hinv
      simp only [ThreadSafeQueue.tryDequeue_cons r.q r.world x xs hq, true_and]
      simp only [List.length_cons] at hinv
      omega
  | dequeue =>
    cases hq : r.q.queue with
    | nil => simp [step, ThreadSafeQueue.dequeue_nil r.q r.world hq] at h
    | cons x xs =>
      simp only [step, ThreadSafeQueue.dequeue_cons r.q r.world x xs hq,
        Option.some.injEq] at h
      subst h
      rw [hq] at hinv
      simp only [List.length_cons] at hinv
      simp only [true_and]
      omega
  | setOnNewElement cb =>
    simp only [step, Option.some.injEq] at h
    subst h
    simpa [ThreadSafeQueue.setOnNewElement] using hinv
  | unsetOnNewElement =>
    simp only [step, Option.some.injEq] at h
    subst h
    simpa [ThreadSafeQueue.unsetOnNewElement] using hinv

theorem run_capacity (ops : List (QueueOp T W)) :
    ∀ r r1 : QueueRun T W, r.run ops = some r1 →
      r.q.queue.length ≤ toUnsigned r.q.maxSize →
      r1.q.maxSize = r.q.maxSize ∧ r1.q.queue.length ≤ toUnsigned r1.q.maxSize := by
  induction ops with
  | nil =>
    intro r r1 h hinv
    simp only [run, Option.some.injEq] at h
    subst h
    exact ⟨rfl, hinv⟩
  | cons op ops ih =>
    intro r r1 h hinv
    simp only [run] at h
    cases hs : r.step op with
    | none => simp [hs] at h
    | some r2 =>
      simp only [hs] at h
      have h2 := step_capacity r r2 op hs hinv
      have h3 := ih r2 r1 h h2.2
      exact ⟨h3.1.trans h2.1, h3.2⟩

end QueueRun

namespace QueueRun

variable {T W : Type}

theorem step_enqueue_of_can (r : QueueRun T W) (v : T) (op : QueueOp T W)
    (hop : op = .tryEnqueue v ∨ op = .enqueue v) (hc : r.q.canEnqueue_ = true) :
    ∃ r1, r.step op = some r1 ∧ r1.q.queue = r.q.queue ++ [v] ∧
      r1.q.maxSize = r.q.maxSize ∧ r1.dequeued = r.dequeued := by
  rcases hop with h | h <;> subst h
  · exact ⟨_, rfl, by simp [ThreadSafeQueue.tryEnqueue_of_can r.q v r.world hc],
      by simp [ThreadSafeQueue.tryEnqueue_of_can r.q v r.world hc], rfl⟩
  · simp only [step, ThreadSafeQueue.enqueue_of_can r.q v r.world hc]
    exact ⟨_, rfl, rfl, rfl, rfl⟩

theorem step_dequeue_of_cons (r : QueueRun T W) (x : T) (xs : List T) (op : QueueOp T W)
    (hop : op = .tryDequeue ∨ op = .dequeue) (hq : r.q.queue = x :: xs) :
    ∃ r1, r.step op = some r1 ∧ r1.q.queue = xs ∧ r1.dequeued = r.dequeued ++ [x] := by
  rcases hop with h | h <;> subst h
  · exact ⟨_, rfl, by simp [ThreadSafeQueue.tryDequeue_cons r.q r.world x xs hq],
      by simp [ThreadSafeQueue.tryDequeue_cons r.q r.world x xs hq]⟩
  · simp only [step, ThreadSafeQueue.dequeue_cons r.q r.world x xs hq]
    exact ⟨_, rfl, rfl, rfl⟩

theorem run_enqueues (f : T → QueueOp T W)
    (hf : ∀ v, f v = .tryEnqueue v ∨ f v = .enqueue v) (vs : List T) :
    ∀ (r : QueueRun T W) (rest : List (QueueOp T W)),
      r.q.queue.length + vs.length ≤ toUnsigned r.q.maxSize →
      ∃ r1 : QueueRun T W, r.run (vs.map f ++ rest) = r1.run rest ∧ r1.q.queue = r.q.queue ++ vs ∧
        r1.dequeued = r.dequeued := by
  induction vs with
  | nil => intro r rest _; exact ⟨r, rfl, by simp, rfl⟩
  | cons v vs ih =>
    intro r rest hlen
    simp only [List.length_cons] at hlen
    have hc : r.q.canEnqueue_ = true := by
      rw [ThreadSafeQueue.canEnqueue__iff]; omega
    obtain ⟨r1, h1, hq1, hm1, hd1⟩ := step_enqueue_of_can r v (f v) (hf v) hc
    have hlen1 : r1.q.queue.length + vs.length ≤ toUnsigned r1.q.maxSize := by
      rw [hq1, hm1, List.length_append, List.length_singleton]; omega
    obtain ⟨r2, h2, hq2, hd2⟩ := ih r1 rest hlen1
    refine ⟨r2, ?_, ?_, hd2.trans hd1⟩
    · simp only [List.map_cons, List.cons_append, run, h1]
      exact h2
    · rw [hq2, hq1, List.append_assoc, List.singleton_append]

theorem run_dequeues (op : QueueOp T W) (hop : op = .tryDequeue ∨ op = .dequeue)
    (xs : List T) :
    ∀ (r : QueueRun T W) (ys : List T) (rest : List (QueueOp T W)),
      r.q.queue = xs ++ ys →
      ∃ r1 : QueueRun T W, r.run (List.replicate xs.length op ++ rest) = r1.run rest ∧ r1.q.queue = ys ∧
        r1.dequeued = r.dequeued ++ xs := by
  induction xs with
  | nil => intro r ys rest hq; exact ⟨r, rfl, by simpa using hq, by simp⟩
  | cons x xs ih =>
    intro r ys rest hq
    obtain ⟨r1, h1, hq1, hd1⟩ := step_dequeue_of_cons r x (xs ++ ys) op hop hq
    obtain ⟨r2, h2, hq2, hd2⟩ := ih r1 ys rest hq1
    refine ⟨r2, ?_, hq2, ?_⟩
    · simp only [List.length_cons, List.replicate_succ, List.cons_append, run, h1]
      exact h2
    · rw [hd2, hd1, List.append_assoc, List.singleton_append]

theorem run_enqueues_dequeues (f : T → QueueOp T W)
    (hf : ∀ v, f v = .tryEnqueue v ∨ f v = .enqueue v)
    (op : QueueOp T W) (hop : op = .tryDequeue ∨ op = .dequeue)
    (size : Int) (w : W) (vs : List T) (hlen : vs.length ≤ toUnsigned size) :
    ∃ r, (start size w).run (vs.map f ++ List.replicate vs.length op) = some r ∧
      r.dequeued = vs ∧ r.q.queue = [] := by
  obtain ⟨r1, h1, hq1, hd1⟩ := run_enqueues f hf vs (start size w)
    (List.replicate vs.length op) (by simpa [start, ThreadSafeQueue.new] using hlen)
  have hq1' : r1.q.queue = vs ++ [] := by simpa [start, ThreadSafeQueue.new] using hq1
  obtain ⟨r2, h2, hq2, hd2⟩ := run_dequeues op hop vs r1 [] [] hq1'
  refine ⟨r2, ?_, ?_, hq2⟩
  · rw [h1]
    simpa [run] using h2
  · rw [hd2, hd1]
    simp [start]

end QueueRun

namespace QueueRun

variable {T W : Type}

/-- C3. The queue is first-in first-out.  For a capacity `0 ≤ C` (an `int`) and
a list `vs` of at most `C` values, enqueuing `vs` in order into the fresh queue
and then dequeuing `vs.length` times yields exactly `vs` and leaves the queue
empty, both with the non-blocking and with the blocking calls (none of which
waits).  For any capacity and any sequence of calls from the fresh queue, what
has been enqueued is what has been dequeued followed by what is stored, so the
`k`-th dequeued element is the `k`-th enqueued element. -/
theorem fifo (C : Int) (w : W) :
    (0 ≤ C → C < 2147483648 → ∀ vs : List T, (vs.length : Int) ≤ C →
      (∃ r, (start C w).run (vs.map QueueOp.tryEnqueue ++
              List.replicate vs.length QueueOp.tryDequeue) = some r ∧
            r.dequeued = vs ∧ r.q.queue = []) ∧
      (∃ r, (start C w).run (vs.map QueueOp.enqueue ++
              List.replicate vs.length QueueOp.dequeue) = some r ∧
            r.dequeued = vs ∧ r.q.queue = [])) ∧
    (∀ (ops : List (QueueOp T W)) (r : QueueRun T W), (start C w).run ops = some r →
      r.enqueued = r.dequeued ++ r.q.queue ∧
      ∀ k, k < r.dequeued.length → r.dequeued[k]? = r.enqueued[k]?) := by
  constructor
  · intro hC hI vs hlen
    have hu := ThreadSafeQueue.toUnsigned_of_nonneg C hC hI
    have hlen1 : vs.length ≤ toUnsigned C := by omega
    exact ⟨run_enqueues_dequeues QueueOp.tryEnqueue (fun _ => Or.inl rfl) QueueOp.tryDequeue
        (Or.inl rfl) C w vs hlen1,
      run_enqueues_dequeues QueueOp.enqueue (fun _ => Or.inr rfl) QueueOp.dequeue
        (Or.inr rfl) C w vs hlen1⟩
  · intro ops r h
    have hinv := run_history ops (start C w) r h (by simp [start, ThreadSafeQueue.new])
    refine ⟨hinv, fun k hk => ?_⟩
    rw [hinv, List.getElem?_append_left hk]

/-- C3, at capacity 3 with the values 4, 5, 6. -/
theorem fifo_witness :
    (∃ r, (start 3 ()).run (([4, 5, 6] : List Nat).map QueueOp.tryEnqueue ++
            List.replicate 3 QueueOp.tryDequeue) = some r ∧
          r.dequeued = [4, 5, 6] ∧ r.q.queue = []) ∧
    (∃ r, (start 3 ()).run (([4, 5, 6] : List Nat).map QueueOp.enqueue ++
            List.replicate 3 QueueOp.dequeue) = some r ∧
          r.dequeued = [4, 5, 6] ∧ r.q.queue = []) :=
  (fifo 3 ()).1 (by decide) (by decide) [4, 5, 6] (by decide)

/-- C4. For a capacity `0 ≤ C` (an `int`), every state reached from the fresh
queue by a sequence of `tryEnqueue`, `enqueue`, `tryDequeue`, `dequeue` (a
blocking call being taken only where it does not wait) and callback changes
stores between 0 and `C` elements, and its capacity is still `C`. -/
theorem capacity_invariant (C : Int) (w : W) (ops : List (QueueOp T W)) (r : QueueRun T W)
    (hC : 0 ≤ C) (hI : C < 2147483648) (h : (start C w).run ops = some r) :
    0 ≤ (r.q.queue.length : Int) ∧ (r.q.queue.length : Int) ≤ C ∧ r.q.maxSize = C := by
  have hu := ThreadSafeQueue.toUnsigned_of_nonneg C hC hI
  have hinv := run_capacity ops (start C w) r h (by simp [start, ThreadSafeQueue.new])
  have hm : r.q.maxSize = C := hinv.1
  have hl := hinv.2
  rw [hm] at hl
  refine ⟨by omega, by omega, hm⟩

/-- C4, at capacity 1: the second `tryEnqueue` is refused, the blocking
`dequeue` and `enqueue` are taken where they do not wait. -/
theorem capacity_invariant_witness :
    (start 1 ()).run [QueueOp.tryEnqueue 4, QueueOp.tryEnqueue 5, QueueOp.dequeue,
        QueueOp.enqueue 6]
      = some ⟨⟨[6], 1, ThreadSafeQueue.DO_NOTHING_CALLBACK⟩, (), [4, 6], [4]⟩ ∧
    0 ≤ (([6] : List Nat).length : Int) ∧ (([6] : List Nat).length : Int) ≤ 1 ∧
      (1 : Int) = 1 :=
  ⟨rfl, capacity_invariant (T := Nat) 1 ()
    [QueueOp.tryEnqueue 4, QueueOp.tryEnqueue 5, QueueOp.dequeue, QueueOp.enqueue 6]
    ⟨⟨[6], 1, ThreadSafeQueue.DO_NOTHING_CALLBACK⟩, (), [4, 6], [4]⟩
    (by decide) (by decide) rfl⟩

end QueueRun

namespace ThreadSafeQueue

variable {T W : Type}

end ThreadSafeQueue

/-! ## Properties of the registry -/

theorem lookup_append_of_some {α β : Type} [BEq α] (y : α) (o : β) :
    ∀ (l l1 : List (α × β)), l.lookup y = some o → (l ++ l1).lookup y = some o := by
  intro l
  induction l with
  | nil => intro l1 h; simp at h
  | cons e l ih =>
    intro l1 h
    obtain ⟨k, v⟩ := e
    simp only [List.cons_append, List.lookup_cons] at h ⊢
    cases hk : (y == k) with
    | true => simpa [hk] using h
    | false => rw [hk] at h; exact ih l1 h

theorem lookup_append_of_none {α β : Type} [BEq α] (y : α) :
    ∀ (l l1 : List (α × β)), l.lookup y = none → (l ++ l1).lookup y = l1.lookup y := by
  intro l
  induction l with
  | nil => intro l1 _; rfl
  | cons e l ih =>
    intro l1 h
    obtain ⟨k, v⟩ := e
    simp only [List.cons_append, List.lookup_cons] at h ⊢
    cases hk : (y == k) with
    | true => simp [hk] at h
    | false => rw [hk] at h; exact ih l1 h

theorem mem_of_lookup_eq_some {β : Type} (y : String) (o : β) :
    ∀ (l : List (String × β)), l.lookup y = some o → (y, o) ∈ l := by
  intro l
  induction l with
  | nil => intro h; simp at h
  | cons e l ih =>
    intro h
    obtain ⟨k, v⟩ := e
    simp only [List.lookup_cons] at h
    cases hk : (y == k) with
    | true =>
      rw [hk] at h
      have hyk : y = k := by simpa using hk
      simp only [Option.some.injEq] at h
      subst h; subst hyk
      exact List.mem_cons_self _ _
    | false =>
      rw [hk] at h
      exact List.mem_cons_of_mem _ (ih h)

namespace ChannelObject

variable {U : Type} {El : U → Type} {W : Type} [DecidableEq U]

theorem cast_self (a : Addr) (t : U) (c : Channel (El t) W) :
    (⟨a, t, c⟩ : ChannelObject U El W).cast t = some c := by
  simp [cast]

theorem cast_eq_none_iff (o : ChannelObject U El W) (t : U) :
    o.cast t = none ↔ o.elemType ≠ t := by
  unfold cast
  by_cases h : o.elemType = t <;> simp [h]

theorem cast_eq_some_of_eq (o : ChannelObject U El W) (t : U) (h : o.elemType = t) :
    o.cast t = some (h ▸ o.channel) := by
  simp [cast, h]

end ChannelObject

namespace Broker

variable {U : Type} {El : U → Type} {W : Type} [DecidableEq U]

theorem getChannel_absent (b : Broker U El W) (t : U) (id : String) (fresh : Addr)
    (h : b.channels.lookup id = none) :
    b.getChannel t id fresh =
      (.ok fresh, { channels := b.channels ++ [(id, ⟨fresh, t, Channel.new id⟩)] }) := by
  have h1 : (b.channels ++ [(id, (⟨fresh, t, Channel.new id⟩ : ChannelObject U El W))]).lookup id
      = some ⟨fresh, t, Channel.new id⟩ := by
    rw [lookup_append_of_none id b.channels _ h]
    simp [List.lookup_cons]
  simp only [getChannel, h, h1, ChannelObject.cast_self]

theorem getChannel_present (b : Broker U El W) (t : U) (id : String) (fresh : Addr)
    (o : ChannelObject U El W) (h : b.channels.lookup id = some o) (ht : o.elemType = t) :
    b.getChannel t id fresh = (.ok o.addr, b) := by
  simp only [getChannel, h, ChannelObject.cast_eq_some_of_eq o t ht]

theorem getChannel_mismatch (b : Broker U El W) (t : U) (id : String) (fresh : Addr)
    (o : ChannelObject U El W) (h : b.channels.lookup id = some o) (ht : o.elemType ≠ t) :
    b.getChannel t id fresh = (.error castFailed, b) := by
  simp only [getChannel, h, (ChannelObject.cast_eq_none_iff o t).2 ht]

theorem getChannel_lookup_other (b : Broker U El W) (t : U) (id : String) (fresh : Addr)
    (y : String) (hy : y ≠ id) :
    (b.getChannel t id fresh).2.channels.lookup y = b.channels.lookup y := by
  cases h : b.channels.lookup id with
  | none =>
    rw [getChannel_absent b t id fresh h]
    cases hl : b.channels.lookup y with
    | none =>
      simp only
      rw [lookup_append_of_none y b.channels _ hl]
      have hb : (y == id) = false := by simpa using hy
      simp [List.lookup_cons, hb]
    | some o => exact lookup_append_of_some y o _ _ hl
  | some o =>
    by_cases ht : o.elemType = t
    · rw [getChannel_present b t id fresh o h ht]
    · rw [getChannel_mismatch b t id fresh o h ht]

theorem getChannel_keeps (b : Broker U El W) (t : U) (id : String) (fresh : Addr) :
    (∀ y o, b.channels.lookup y = some o →
      (b.getChannel t id fresh).2.channels.lookup y = some o) ∧
    ∃ added, (b.getChannel t id fresh).2.channels = b.channels ++ added := by
  cases h : b.channels.lookup id with
  | none =>
    rw [getChannel_absent b t id fresh h]
    exact ⟨fun y o hl => lookup_append_of_some y o _ _ hl, _, rfl⟩
  | some o =>
    by_cases ht : o.elemType = t
    · rw [getChannel_present b t id fresh o h ht]
      exact ⟨fun _ _ hl => hl, [], by simp⟩
    · rw [getChannel_mismatch b t id fresh o h ht]
      exact ⟨fun _ _ hl => hl, [], by simp⟩

theorem getChannels_keeps (calls : List (U × String × Addr)) :
    ∀ b : Broker U El W,
      (∀ y o, b.channels.lookup y = some o → (b.getChannels calls).channels.lookup y = some o) ∧
      ∃ added, (b.getChannels calls).channels = b.channels ++ added := by
  induction calls with
  | nil => intro b; exact ⟨fun _ _ h => h, [], by simp [getChannels]⟩
  | cons c cs ih =>
    intro b
    obtain ⟨k1, a1, h1⟩ := getChannel_keeps b c.1 c.2.1 c.2.2
    obtain ⟨k2, a2, h2⟩ := ih (b.getChannel c.1 c.2.1 c.2.2).2
    refine ⟨fun y o h => k2 y o (k1 y o h), a1 ++ a2, ?_⟩
    simp only [getChannels]
    rw [h2, h1, List.append_assoc]

theorem getChannel_ok_lookup (b : Broker U El W) (t : U) (id : String) (fresh a : Addr)
    (h : (b.getChannel t id fresh).1 = .ok a) :
    ∃ o, (b.getChannel t id fresh).2.channels.lookup id = some o ∧ o.addr = a ∧
      o.elemType = t := by
  cases hl : b.channels.lookup id with
  | none =>
    rw [getChannel_absent b t id fresh hl] at h ⊢
    simp only [Except.ok.injEq] at h
    refine ⟨⟨fresh, t, Channel.new id⟩, ?_, h, rfl⟩
    simp only
    rw [lookup_append_of_none id b.channels _ hl]
    simp [List.lookup_cons]
  | some o =>
    by_cases ht : o.elemType = t
    · rw [getChannel_present b t id fresh o hl ht] at h ⊢
      simp only [Except.ok.injEq] at h
      exact ⟨o, hl, h, ht⟩
    · rw [getChannel_mismatch b t id fresh o hl ht] at h
      simp at h

end Broker

theorem mem_mapAssign {β : Type} (k : Int) (v : β) :
    ∀ l : List (Int × β), (k, v) ∈ mapAssign k v l := by
  intro l
  induction l with
  | nil => simp [mapAssign]
  | cons e l ih =>
    obtain ⟨k1, v1⟩ := e
    simp only [mapAssign]
    split
    · exact List.mem_cons_self _ _
    · split
      · exact List.mem_cons_self _ _
      · exact List.mem_cons_of_mem _ ih

namespace Broker

theorem assign_lookup {U : Type} {El : U → Type} {W : Type} (t : U) (a : Addr) (c : Channel (El t) W) (x : String)
    (o : ChannelObject U El W) (ha : o.addr = a) :
    ∀ l : List (String × ChannelObject U El W), l.lookup x = some o →
      (assign ⟨l⟩ t a c).channels.lookup x = some ⟨a, t, c⟩ := by
  intro l
  induction l with
  | nil => intro h; simp at h
  | cons e l ih =>
    intro h
    obtain ⟨k, v⟩ := e
    simp only [List.lookup_cons] at h
    simp only [assign, List.map_cons]
    cases hk : (x == k) with
    | true =>
      rw [hk] at h
      simp only [Option.some.injEq] at h
      subst h
      simp [ha, List.lookup_cons, hk]
    | false =>
      rw [hk] at h
      have := ih h
      simp only [assign] at this
      by_cases hv : v.addr = a
      · simp only [hv, if_true, List.lookup_cons, hk]
        exact this
      · simp only [hv, if_false, List.lookup_cons, hk]
        exact this

variable {U : Type} {El : U → Type} {W : Type} [DecidableEq U]

theorem deref_assign (t : U) (a : Addr) (c : Channel (El t) W) :
    ∀ l : List (String × ChannelObject U El W), (∃ e ∈ l, e.2.addr = a) →
      (assign ⟨l⟩ t a c).deref t a = some c := by
  intro l
  induction l with
  | nil => intro h; simp at h
  | cons e l ih =>
    intro h
    by_cases he : e.2.addr = a
    · simp [deref, assign, he, ChannelObject.cast_self]
    · have h1 : ∃ e1 ∈ l, e1.2.addr = a := by
        obtain ⟨e1, hm, h1⟩ := h
        rcases List.mem_cons.1 hm with rfl | hm
        · exact absurd h1 he
        · exact ⟨e1, hm, h1⟩
      have := ih h1
      simp only [deref, assign] at this
      simp only [deref, assign, List.map_cons, he, if_false, List.find?_cons, decide_False]
      exact this

theorem deref_of_nodup (b : Broker U El W) (t : U) (a : Addr) (x : String)
    (o : ChannelObject U El W) (hn : (b.channels.map (fun e => e.2.addr)).Nodup)
    (hl : b.channels.lookup x = some o) (ha : o.addr = a) :
    b.deref t a = o.cast t := by
  have hm := mem_of_lookup_eq_some x o b.channels hl
  cases hf : b.channels.find? (fun e => decide (e.2.addr = a)) with
  | none =>
    have := List.find?_eq_none.1 hf (x, o) hm
    simp [ha] at this
  | some e =>
    have he := List.mem_of_find?_eq_some hf
    have hp := List.find?_some hf
    simp only [decide_eq_true_eq] at hp
    have hxe : e = (x, o) :=
      List.inj_on_of_nodup_map hn he hm (by simp [hp, ha])
    simp [deref, hf, hxe]

/-- C6. `getChannel<T>(name)` throws exactly when `name` is registered with an
element type other than `T`.  When it throws the registry is unchanged, and a
call with the stored type then succeeds, returns the stored channel and leaves
the registry unchanged.  When `name` is absent the call does not throw: it
returns the new channel and puts it, with element type `T`, under `name`. -/
theorem getChannel_typeMismatch (b : Broker U El W) (t : U) (name : String) (fresh : Addr) :
    ((∃ what, (b.getChannel t name fresh).1 = .error what) ↔
      ∃ o, b.channels.lookup name = some o ∧ o.elemType ≠ t) ∧
    (∀ what, (b.getChannel t name fresh).1 = .error what →
      (b.getChannel t name fresh).2 = b ∧
      ∃ o, b.channels.lookup name = some o ∧
        ∀ fresh1, (b.getChannel t name fresh).2.getChannel o.elemType name fresh1
          = (.ok o.addr, b)) ∧
    (b.channels.lookup name = none →
      (b.getChannel t name fresh).1 = .ok fresh ∧
      (b.getChannel t name fresh).2.channels
        = b.channels ++ [(name, ⟨fresh, t, Channel.new name⟩)] ∧
      (b.getChannel t name fresh).2.channels.lookup name
        = some ⟨fresh, t, Channel.new name⟩) := by
  cases hl : b.channels.lookup name with
  | none =>
    rw [getChannel_absent b t name fresh hl]
    refine ⟨⟨fun ⟨_, h⟩ => by simp at h, fun ⟨_, h, _⟩ => by simp at h⟩,
      fun _ h => by simp at h, fun _ => ⟨rfl, rfl, ?_⟩⟩
    simp only
    rw [lookup_append_of_none name b.channels _ hl]
    simp [List.lookup_cons]
  | some o =>
    by_cases ht : o.elemType = t
    · rw [getChannel_present b t name fresh o hl ht]
      refine ⟨⟨fun ⟨_, h⟩ => by simp at h, fun ⟨o1, h, hne⟩ => ?_⟩,
        fun _ h => by simp at h, fun h => by simp at h⟩
      simp only [Option.some.injEq] at h
      subst h
      exact absurd ht hne
    · rw [getChannel_mismatch b t name fresh o hl ht]
      exact ⟨⟨fun _ => ⟨o, rfl, ht⟩, fun _ => ⟨_, rfl⟩⟩,
        fun _ _ => ⟨rfl, o, rfl, fun fresh1 => getChannel_present b _ name fresh1 o hl rfl⟩,
        fun h => by simp at h⟩

/-- C7. A `getChannel<T>(x)` leaves the entries of the other names unchanged and,
when `x` is registered, the whole registry.  Over any sequence of calls every
entry stays as it is and the registry only grows at its end.  Once
`getChannel<T>(x)` has returned a channel, after any further calls
`getChannel<T>(x)` returns the channel at the same address and changes nothing.
Hence, addresses naming one object each, a subscriber added through the
returned reference is in the subscriber map of the channel that a later
`getChannel<T>(x)` returns. -/
theorem getChannel_identity (b : Broker U El W) (t : U) (x : String) (fresh : Addr) :
    (∀ y, y ≠ x → (b.getChannel t x fresh).2.channels.lookup y = b.channels.lookup y) ∧
    (∀ o, b.channels.lookup x = some o → (b.getChannel t x fresh).2 = b) ∧
    (∀ calls : List (U × String × Addr),
      (∀ y o, b.channels.lookup y = some o →
        (b.getChannels calls).channels.lookup y = some o) ∧
      ∃ added, (b.getChannels calls).channels = b.channels ++ added) ∧
    (∀ a, (b.getChannel t x fresh).1 = .ok a →
      ∀ (calls : List (U × String × Addr)) (fresh1 : Addr),
        ((b.getChannel t x fresh).2.getChannels calls).getChannel t x fresh1
          = (.ok a, (b.getChannel t x fresh).2.getChannels calls)) ∧
    (∀ a, (b.getChannel t x fresh).1 = .ok a →
      ((b.getChannel t x fresh).2.channels.map (fun e => e.2.addr)).Nodup →
      ∃ c1, (b.getChannel t x fresh).2.deref t a = some c1 ∧
        ∀ (callback : El t → W → W) (persistent : Bool) (counter : Int) (fresh1 : Addr),
          (((b.getChannel t x fresh).2.assign t a
              (c1.subscribe a callback persistent counter).2.1).getChannel t x fresh1
            = (.ok a, (b.getChannel t x fresh).2.assign t a
                (c1.subscribe a callback persistent counter).2.1)) ∧
          ∃ c2, ((b.getChannel t x fresh).2.assign t a
                (c1.subscribe a callback persistent counter).2.1).deref t a = some c2 ∧
            ((c1.subscribe a callback persistent counter).1.id,
              Subscriber.callback callback) ∈ c2.subscribers) := by
  refine ⟨fun y hy => getChannel_lookup_other b t x fresh y hy, ?_,
    fun calls => getChannels_keeps calls b, ?_, ?_⟩
  · intro o hl
    by_cases ht : o.elemType = t
    · rw [getChannel_present b t x fresh o hl ht]
    · rw [getChannel_mismatch b t x fresh o hl ht]
  · intro a h calls fresh1
    obtain ⟨o, hl, ha, ht⟩ := getChannel_ok_lookup b t x fresh a h
    have hl1 := (getChannels_keeps calls (b.getChannel t x fresh).2).1 x o hl
    rw [getChannel_present _ t x fresh1 o hl1 ht, ha]
  · intro a h hn
    obtain ⟨o, hl, ha, ht⟩ := getChannel_ok_lookup b t x fresh a h
    have hd := deref_of_nodup (b.getChannel t x fresh).2 t a x o hn hl ha
    rw [ChannelObject.cast_eq_some_of_eq o t ht] at hd
    refine ⟨_, hd, fun callback persistent counter fresh1 => ⟨?_,
      ((ht ▸ o.channel : Channel (El t) W).subscribe a callback persistent counter).2.1,
      ?_, ?_⟩⟩
    · have := assign_lookup t a
        ((ht ▸ o.channel : Channel (El t) W).subscribe a callback persistent counter).2.1
        x o ha (b.getChannel t x fresh).2.channels hl
      exact getChannel_present _ t x fresh1 _ this rfl
    · exact deref_assign t a _ (b.getChannel t x fresh).2.channels
        ⟨(x, o), mem_of_lookup_eq_some x o _ hl, ha⟩
    · exact mem_mapAssign _ _ _

end Broker

namespace Broker

/-- C6, at the registry holding `"x"` as a channel of `int` at address 3: a
request for `"x"` as a channel of `string` throws, and the request for it as a
channel of `int` that follows returns the channel at address 3. -/
theorem getChannel_typeMismatch_witness :
    (∃ what, ((⟨[("x", ⟨3, MainType.int, Channel.new "x"⟩)]⟩ :
        Broker MainType MainType.El Unit).getChannel MainType.string "x" 4).1
        = .error what) ∧
    (((⟨[("x", ⟨3, MainType.int, Channel.new "x"⟩)]⟩ :
        Broker MainType MainType.El Unit).getChannel MainType.string "x" 4).2.getChannel
          MainType.int "x" 5).1 = .ok 3 :=
  ⟨(getChannel_typeMismatch ⟨[("x", ⟨3, MainType.int, Channel.new "x"⟩)]⟩
      MainType.string "x" 4).1.2 ⟨_, rfl, by decide⟩,
   rfl⟩

/-- C7, at the empty registry: `"x"` is created as a channel of `int` at
address 7; a subscriber added through that reference is seen through the
reference returned by the next lookup, which is address 7 again. -/
theorem getChannel_identity_witness :
    ∃ c1, ((⟨[]⟩ : Broker MainType MainType.El Unit).getChannel MainType.int "x" 7).2.deref
        MainType.int 7 = some c1 ∧
      ∀ (callback : Int → Unit → Unit) (persistent : Bool) (counter : Int) (fresh1 : Addr),
        ((((⟨[]⟩ : Broker MainType MainType.El Unit).getChannel MainType.int "x" 7).2.assign
            MainType.int 7 (c1.subscribe 7 callback persistent counter).2.1).getChannel
              MainType.int "x" fresh1
          = (.ok 7, ((⟨[]⟩ : Broker MainType MainType.El Unit).getChannel
              MainType.int "x" 7).2.assign
                MainType.int 7 (c1.subscribe 7 callback persistent counter).2.1)) ∧
        ∃ c2, (((⟨[]⟩ : Broker MainType MainType.El Unit).getChannel MainType.int "x" 7).2.assign
              MainType.int 7 (c1.subscribe 7 callback persistent counter).2.1).deref
                MainType.int 7 = some c2 ∧
          ((c1.subscribe 7 callback persistent counter).1.id,
            Subscriber.callback callback) ∈ c2.subscribers :=
  (getChannel_identity ⟨[]⟩ MainType.int "x" 7).2.2.2.2 7 rfl (by decide)

end Broker

/-! ## Properties of the delivery loop -/

namespace ThreadSafeQueue

variable {T W : Type}

theorem canEnqueue__eq_not_isFull (q : ThreadSafeQueue T W) : q.canEnqueue_ = !q.isFull := by
  unfold canEnqueue_ isFull
  by_cases h : q.queue.length < toUnsigned q.maxSize
  · simp [h]
  · simp [h, Nat.le_of_not_lt h]

end ThreadSafeQueue

namespace Channel

variable {T W : Type}

theorem deliver_cons_callback (name : String) (m : T) (sev : Severity) (id : Int)
    (cb : T → W → W) (rest : List (Int × Subscriber T W)) (e : Env T W) :
    deliver name m sev ((id, Subscriber.callback cb) :: rest) e
      = deliver name m sev rest { e with world := cb m e.world } := by
  simp [deliver, Subscriber.call]

theorem deliver_cons_room (name : String) (m : T) (sev : Severity) (id : Int)
    (a : Addr) (rest : List (Int × Subscriber T W)) (e : Env T W)
    (h : (e.buffers.cell a).isFull = false) :
    deliver name m sev ((id, Subscriber.buffer a) :: rest) e
      = deliver name m sev rest
          { e with
            buffers := e.buffers.set a
              { e.buffers.cell a with queue := (e.buffers.cell a).queue ++ [m] },
            world := (e.buffers.cell a).notifyCallback ((e.buffers.cell a).queue ++ [m])
              e.world } := by
  have hc : (e.buffers.cell a).canEnqueue_ = true := by
    rw [ThreadSafeQueue.canEnqueue__eq_not_isFull, h]; rfl
  simp [deliver, Subscriber.call, ThreadSafeQueue.tryEnqueue_of_can _ m e.world hc]

theorem deliver_cons_full_error (name : String) (m : T) (id : Int)
    (a : Addr) (rest : List (Int × Subscriber T W)) (e : Env T W)
    (h : (e.buffers.cell a).isFull = true) :
    deliver name m Severity.ERROR ((id, Subscriber.buffer a) :: rest) e
      = .thrown (droppedCritical name)
          { e with buffers := e.buffers.set a (e.buffers.cell a) } := by
  have hc : (e.buffers.cell a).canEnqueue_ = false := by
    rw [ThreadSafeQueue.canEnqueue__eq_not_isFull, h]; rfl
  simp [deliver, Subscriber.call, ThreadSafeQueue.tryEnqueue_of_not_can _ m e.world hc]

theorem deliver_cons_full_warning (name : String) (m : T) (id : Int)
    (a : Addr) (rest : List (Int × Subscriber T W)) (e : Env T W)
    (h : (e.buffers.cell a).isFull = true) :
    deliver name m Severity.WARNING ((id, Subscriber.buffer a) :: rest) e
      = deliver name m Severity.WARNING rest
          { e with
            buffers := e.buffers.set a (e.buffers.cell a),
            warnings := e.warnings ++ [(droppedWarning name id, Severity.ERROR)] } := by
  have hc : (e.buffers.cell a).canEnqueue_ = false := by
    rw [ThreadSafeQueue.canEnqueue__eq_not_isFull, h]; rfl
  simp [deliver, Subscriber.call, ThreadSafeQueue.tryEnqueue_of_not_can _ m e.world hc]

theorem fullSubscribers_congr (e e1 : Env T W) :
    ∀ subs : List (Int × Subscriber T W),
      (∀ a, a ∈ bufferAddrs subs → e1.buffers.cell a = e.buffers.cell a) →
      fullSubscribers e1 subs = fullSubscribers e subs := by
  intro subs
  induction subs with
  | nil => intro _; rfl
  | cons s rest ih =>
    intro h
    obtain ⟨id, sub⟩ := s
    cases sub with
    | callback cb => exact ih h
    | buffer a =>
      have h1 := ih (fun x hx => h x (List.mem_cons_of_mem _ hx))
      simp only [fullSubscribers, h a (List.mem_cons_self _ _), h1]

theorem handedToAll_congr (m : T) (e e1 : Env T W) :
    ∀ (subs : List (Int × Subscriber T W)) (w : W),
      (∀ a, a ∈ bufferAddrs subs → e1.buffers.cell a = e.buffers.cell a) →
      handedToAll m e1 subs w = handedToAll m e subs w := by
  intro subs
  induction subs with
  | nil => intro _ _; rfl
  | cons s rest ih =>
    intro w h
    obtain ⟨id, sub⟩ := s
    cases sub with
    | callback cb => exact ih _ h
    | buffer a =>
      simp only [handedToAll, h a (List.mem_cons_self _ _)]
      exact ih _ (fun x hx => h x (List.mem_cons_of_mem _ hx))

theorem mem_fullSubscribers (e : Env T W) (id : Int) :
    ∀ subs : List (Int × Subscriber T W),
      id ∈ fullSubscribers e subs ↔
        ∃ a, (id, Subscriber.buffer a) ∈ subs ∧ (e.buffers.cell a).isFull = true := by
  intro subs
  induction subs with
  | nil => simp [fullSubscribers]
  | cons s rest ih =>
    obtain ⟨i, sub⟩ := s
    cases sub with
    | callback cb => simp [fullSubscribers, ih]
    | buffer b =>
      cases hf : (e.buffers.cell b).isFull with
      | true =>
        have hrw : fullSubscribers e ((i, Subscriber.buffer b) :: rest)
            = i :: fullSubscribers e rest := by simp [fullSubscribers, hf]
        rw [hrw, List.mem_cons, ih]
        constructor
        · rintro (h | ⟨a, h1, h2⟩)
          · exact ⟨b, by rw [h]; exact List.mem_cons_self _ _, hf⟩
          · exact ⟨a, List.mem_cons_of_mem _ h1, h2⟩
        · rintro ⟨a, h1, h3⟩
          rcases List.mem_cons.1 h1 with h | h
          · simp only [Prod.mk.injEq] at h
            exact Or.inl h.1
          · exact Or.inr ⟨a, h, h3⟩
      | false =>
        have hrw : fullSubscribers e ((i, Subscriber.buffer b) :: rest)
            = fullSubscribers e rest := by simp [fullSubscribers, hf]
        rw [hrw, ih]
        constructor
        · rintro ⟨a, h1, h2⟩
          exact ⟨a, List.mem_cons_of_mem _ h1, h2⟩
        · rintro ⟨a, h1, h3⟩
          rcases List.mem_cons.1 h1 with h | h
          · simp only [Prod.mk.injEq, Subscriber.buffer.injEq] at h
            rw [h.2, hf] at h3
            exact absurd h3 (by decide)
          · exact ⟨a, h, h3⟩

end Channel

namespace Channel

variable {T W : Type}

theorem deliver_error_warnings (name : String) (m : T) :
    ∀ (subs : List (Int × Subscriber T W)) (e : Env T W),
      (deliver name m Severity.ERROR subs e).state.warnings = e.warnings := by
  intro subs
  induction subs with
  | nil => intro e; rfl
  | cons s rest ih =>
    intro e
    obtain ⟨id, sub⟩ := s
    cases sub with
    | callback cb => rw [deliver_cons_callback, ih]
    | buffer a =>
      cases hf : (e.buffers.cell a).isFull with
      | true => rw [deliver_cons_full_error name m id a rest e hf]; rfl
      | false => rw [deliver_cons_room name m _ id a rest e hf, ih]

theorem deliver_full_cell (name : String) (m : T) (sev : Severity) (a : Addr) :
    ∀ (subs : List (Int × Subscriber T W)) (e : Env T W),
      (e.buffers.cell a).isFull = true →
      (deliver name m sev subs e).state.buffers.cell a = e.buffers.cell a := by
  intro subs
  induction subs with
  | nil => intro e _; rfl
  | cons s rest ih =>
    intro e ha
    obtain ⟨id, sub⟩ := s
    cases sub with
    | callback cb =>
      rw [deliver_cons_callback]
      exact ih { e with world := cb m e.world } ha
    | buffer b =>
      cases hf : (e.buffers.cell b).isFull with
      | true =>
        cases sev with
        | ERROR =>
          rw [deliver_cons_full_error name m id b rest e hf]
          simp only [Outcome.state, Buffers.set]
          split <;> simp_all
        | WARNING =>
          rw [deliver_cons_full_warning name m id b rest e hf]
          have hcell : ∀ x, (e.buffers.set b (e.buffers.cell b)).cell x = e.buffers.cell x := by
            intro x
            simp only [Buffers.set]
            split <;> simp_all
          rw [ih _ (by simpa [hcell a] using ha)]
          exact hcell a
      | false =>
        have hab : a ≠ b := by
          intro h; rw [h, hf] at ha; exact absurd ha (by decide)
        rw [deliver_cons_room name m sev id b rest e hf]
        have hcell : (e.buffers.set b
            { e.buffers.cell b with queue := (e.buffers.cell b).queue ++ [m] }).cell a
            = e.buffers.cell a := by
          simp [Buffers.set, hab]
        rw [ih _ (by simpa [hcell] using ha)]
        exact hcell

theorem deliver_error_exception (name : String) (m : T) :
    ∀ (subs : List (Int × Subscriber T W)) (e : Env T W), (bufferAddrs subs).Nodup →
      (deliver name m Severity.ERROR subs e).exception =
        if fullSubscribers e subs = [] then none else some (droppedCritical name) := by
  intro subs
  induction subs with
  | nil => intro e _; rfl
  | cons s rest ih =>
    intro e hn
    obtain ⟨id, sub⟩ := s
    cases sub with
    | callback cb =>
      rw [deliver_cons_callback, ih _ hn]
      rw [fullSubscribers_congr e { e with world := cb m e.world } rest (fun _ _ => rfl)]
      rfl
    | buffer a =>
      simp only [bufferAddrs, List.nodup_cons] at hn
      cases hf : (e.buffers.cell a).isFull with
      | true =>
        rw [deliver_cons_full_error name m id a rest e hf]
        simp [fullSubscribers, hf, Outcome.exception]
      | false =>
        rw [deliver_cons_room name m _ id a rest e hf, ih _ hn.2]
        rw [fullSubscribers_congr e _ rest (fun x hx => by
          have hxa : x ≠ a := fun h => hn.1 (h ▸ hx)
          simp [Buffers.set, hxa])]
        simp [fullSubscribers, hf]

theorem deliver_warning_done (name : String) (m : T) :
    ∀ (subs : List (Int × Subscriber T W)) (e : Env T W), (bufferAddrs subs).Nodup →
      ∃ e1, deliver name m Severity.WARNING subs e = .done e1 ∧
        e1.warnings = e.warnings ++
          (fullSubscribers e subs).map (fun id => (droppedWarning name id, Severity.ERROR)) ∧
        e1.world = handedToAll m e subs e.world ∧
        e1.buffers.next = e.buffers.next ∧
        (∀ a, a ∉ bufferAddrs subs → e1.buffers.cell a = e.buffers.cell a) ∧
        (∀ a, a ∈ bufferAddrs subs →
          e1.buffers.cell a =
            if (e.buffers.cell a).isFull then e.buffers.cell a
            else { e.buffers.cell a with queue := (e.buffers.cell a).queue ++ [m] }) := by
  intro subs
  induction subs with
  | nil => intro e _; exact ⟨e, rfl, by simp [fullSubscribers], rfl, rfl, fun _ _ => rfl,
      fun a h => by simp [bufferAddrs] at h⟩
  | cons s rest ih =>
    intro e hn
    obtain ⟨id, sub⟩ := s
    cases sub with
    | callback cb =>
      obtain ⟨e1, h1, h2, h3, h4, h5, h6⟩ := ih { e with world := cb m e.world } hn
      refine ⟨e1, by rw [deliver_cons_callback, h1], ?_, ?_, h4, h5, h6⟩
      · rw [h2, fullSubscribers_congr e { e with world := cb m e.world } rest (fun _ _ => rfl)]
        rfl
      · rw [h3, handedToAll_congr m e { e with world := cb m e.world } rest _ (fun _ _ => rfl)]
        rfl
    | buffer a =>
      simp only [bufferAddrs, List.nodup_cons] at hn
      cases hf : (e.buffers.cell a).isFull with
      | true =>
        have hcell : ∀ x, (e.buffers.set a (e.buffers.cell a)).cell x = e.buffers.cell x := by
          intro x
          simp only [Buffers.set]
          split <;> simp_all
        obtain ⟨e1, h1, h2, h3, h4, h5, h6⟩ := ih
          { e with
            buffers := e.buffers.set a (e.buffers.cell a),
            warnings := e.warnings ++ [(droppedWarning name id, Severity.ERROR)] } hn.2
        refine ⟨e1, by rw [deliver_cons_full_warning name m id a rest e hf, h1], ?_, ?_,
          h4, ?_, ?_⟩
        · rw [h2, fullSubscribers_congr e _ rest (fun x _ => hcell x)]
          simp [fullSubscribers, hf]
        · rw [h3, handedToAll_congr m e _ rest _ (fun x _ => hcell x)]
          simp [handedToAll, hf]
        · intro x hx
          simp only [bufferAddrs, List.mem_cons, not_or] at hx
          rw [h5 x hx.2]
          exact hcell x
        · intro x hx
          simp only [bufferAddrs, List.mem_cons] at hx
          by_cases hxa : x = a
          · subst hxa
            rw [h5 x hn.1, hf]
            exact hcell x
          · rcases hx with hx | hx
            · exact absurd hx hxa
            · rw [h6 x hx]
              simp only [hcell x]
      | false =>
        have hcell : ∀ x, x ≠ a → (e.buffers.set a
            { e.buffers.cell a with queue := (e.buffers.cell a).queue ++ [m] }).cell x
            = e.buffers.cell x := by
          intro x hxa
          simp [Buffers.set, hxa]
        have hmem : ∀ x, x ∈ bufferAddrs rest → x ≠ a := fun x hx h => hn.1 (h ▸ hx)
        obtain ⟨e1, h1, h2, h3, h4, h5, h6⟩ := ih
          { e with
            buffers := e.buffers.set a
              { e.buffers.cell a with queue := (e.buffers.cell a).queue ++ [m] },
            world := (e.buffers.cell a).notifyCallback ((e.buffers.cell a).queue ++ [m])
              e.world } hn.2
        refine ⟨e1, by rw [deliver_cons_room name m _ id a rest e hf, h1], ?_, ?_,
          h4, ?_, ?_⟩
        · rw [h2, fullSubscribers_congr e _ rest (fun x hx => hcell x (hmem x hx))]
          simp [fullSubscribers, hf]
        · rw [h3, handedToAll_congr m e _ rest _ (fun x hx => hcell x (hmem x hx))]
          simp [handedToAll, hf]
        · intro x hx
          simp only [bufferAddrs, List.mem_cons, not_or] at hx
          rw [h5 x hx.2]
          exact hcell x hx.1
        · intro x hx
          simp only [bufferAddrs, List.mem_cons] at hx
          by_cases hxa : x = a
          · subst hxa
            rw [h5 x hn.1, hf]
            simp [Buffers.set]
          · rcases hx with hx | hx
            · exact absurd hx hxa
            · rw [h6 x hx]
              simp only [hcell x hxa]

end Channel

namespace Channel

variable {T W : Type}

theorem processNext_cons (ch : Channel T W) (e : Env T W) (m : T) (sev : Severity)
    (rest : List (T × Severity)) (hq : ch.publishingQueue.queue = (m, sev) :: rest) :
    ch.processNext e =
      match deliver ch.name m sev ch.subscribers e with
      | .done e1 =>
        .done ({ ch with publishingQueue := { ch.publishingQueue with queue := rest } }, e1)
      | .thrown what e1 =>
        .thrown what
          ({ ch with publishingQueue := { ch.publishingQueue with queue := rest } }, e1) := by
  have hc : ch.publishingQueue.canDequeue = true := by
    simp [ThreadSafeQueue.canDequeue, ThreadSafeQueue.canDequeue_, hq]
  simp only [processNext, hc, if_true,
    ThreadSafeQueue.dequeue_cons ch.publishingQueue e.world (m, sev) rest hq]

theorem processNext_nil (ch : Channel T W) (e : Env T W)
    (hq : ch.publishingQueue.queue = []) : ch.processNext e = .done (ch, e) := by
  simp [processNext, ThreadSafeQueue.canDequeue, ThreadSafeQueue.canDequeue_, hq]

theorem isFull_iff_of_capacity (q : ThreadSafeQueue T W) (h0 : 0 ≤ q.maxSize)
    (h1 : q.maxSize < 2147483648) (h2 : (q.queue.length : Int) ≤ q.maxSize) :
    q.isFull = true ↔ (q.queue.length : Int) = q.maxSize := by
  have hu := ThreadSafeQueue.toUnsigned_of_nonneg q.maxSize h0 h1
  simp only [ThreadSafeQueue.isFull, decide_eq_true_eq]
  omega

theorem exists_full_iff (e : Env T W) (subs : List (Int × Subscriber T W)) :
    fullSubscribers e subs ≠ [] ↔
      ∃ id a, (id, Subscriber.buffer a) ∈ subs ∧ (e.buffers.cell a).isFull = true := by
  constructor
  · intro h
    obtain ⟨id, hid⟩ := List.exists_mem_of_ne_nil _ h
    exact ⟨id, (mem_fullSubscribers e id subs).1 hid⟩
  · rintro ⟨id, a, h1, h2⟩ hnil
    have := (mem_fullSubscribers e id subs).2 ⟨a, h1, h2⟩
    rw [hnil] at this
    simp at this

end Channel

namespace Channel

variable {T W : Type}

/-- C8. The worker handles a queued ERROR message `m`; the queues of distinct
buffered subscribers are distinct objects.  The exception for a dropped
critical message is thrown exactly when some registered buffered subscriber's
queue is full at that moment, in particular for one of capacity 1 that holds
one message; otherwise nothing is thrown.  In both cases every queue that was
full is unchanged, the message has left the inbound queue and is not put back,
the subscriber map is unchanged and nothing is published on the warnings
channel.  (For an `int` capacity `0 ≤ C` and at most `C` stored elements, full
means that exactly `C` elements are stored.) -/
theorem critical_delivery_failure (ch : Channel T W) (e : Env T W) (m : T)
    (rest : List (T × Severity))
    (hq : ch.publishingQueue.queue = (m, Severity.ERROR) :: rest)
    (hn : (bufferAddrs ch.subscribers).Nodup) :
    ((ch.processNext e).exception = some (droppedCritical ch.name) ↔
      ∃ id a, (id, Subscriber.buffer a) ∈ ch.subscribers ∧
        (e.buffers.cell a).isFull = true) ∧
    ((ch.processNext e).exception = none ↔
      ¬ ∃ id a, (id, Subscriber.buffer a) ∈ ch.subscribers ∧
        (e.buffers.cell a).isFull = true) ∧
    (∀ id a u, (id, Subscriber.buffer a) ∈ ch.subscribers →
      (e.buffers.cell a).maxSize = 1 → (e.buffers.cell a).queue = [u] →
      (ch.processNext e).exception = some (droppedCritical ch.name)) ∧
    (∀ a, (e.buffers.cell a).isFull = true →
      (ch.processNext e).state.2.buffers.cell a = e.buffers.cell a) ∧
    (ch.processNext e).state.1.publishingQueue.queue = rest ∧
    (ch.processNext e).state.1.subscribers = ch.subscribers ∧
    (ch.processNext e).state.2.warnings = e.warnings ∧
    (∀ q : ThreadSafeQueue T W, 0 ≤ q.maxSize → q.maxSize < 2147483648 →
      (q.queue.length : Int) ≤ q.maxSize →
      (q.isFull = true ↔ (q.queue.length : Int) = q.maxSize)) := by
  have hp := processNext_cons ch e m Severity.ERROR rest hq
  have hex := deliver_error_exception ch.name m ch.subscribers e hn
  have hw := deliver_error_warnings ch.name m ch.subscribers e
  have hcell := fun a => deliver_full_cell ch.name m Severity.ERROR a ch.subscribers e
  have hfull := exists_full_iff e ch.subscribers
  have hstate : (ch.processNext e).exception
        = (deliver ch.name m Severity.ERROR ch.subscribers e).exception ∧
      (ch.processNext e).state.2 = (deliver ch.name m Severity.ERROR ch.subscribers e).state ∧
      (ch.processNext e).state.1.publishingQueue.queue = rest ∧
      (ch.processNext e).state.1.subscribers = ch.subscribers := by
    rw [hp]
    cases deliver ch.name m Severity.ERROR ch.subscribers e <;> exact ⟨rfl, rfl, rfl, rfl⟩
  obtain ⟨h1, h2, h3, h4⟩ := hstate
  have hiff : (ch.processNext e).exception = some (droppedCritical ch.name) ↔
      ∃ id a, (id, Subscriber.buffer a) ∈ ch.subscribers ∧
        (e.buffers.cell a).isFull = true := by
    rw [h1, hex, ← hfull]
    by_cases hnil : fullSubscribers e ch.subscribers = [] <;> simp [hnil]
  refine ⟨hiff, ?_, ?_, ?_, h3, h4, by rw [h2]; exact hw,
    fun q h0 h1 h2 => isFull_iff_of_capacity q h0 h1 h2⟩
  · rw [h1, hex, ← hfull]
    by_cases hnil : fullSubscribers e ch.subscribers = [] <;> simp [hnil]
  · intro id a u hmem hcap hone
    refine hiff.2 ⟨id, a, hmem, ?_⟩
    simp [ThreadSafeQueue.isFull, hcap, hone, toUnsigned]
  · intro a ha
    rw [h2]
    exact hcell a ha

/-- C8, at the channel `"c"` whose only subscriber has a queue of capacity 1
that holds the message 5: handling the ERROR message 9 throws, the queue still
holds 5 alone, the inbound queue is empty and no warning is published. -/
theorem critical_delivery_failure_witness :
    ((sampleChannel Severity.ERROR).processNext sampleEnv).exception
      = some "Dropped critical message on Channel \"c\"" ∧
    (((sampleChannel Severity.ERROR).processNext sampleEnv).state.2.buffers.cell 0).queue
      = [5] ∧
    ((sampleChannel Severity.ERROR).processNext sampleEnv).state.1.publishingQueue.queue
      = [] ∧
    ((sampleChannel Severity.ERROR).processNext sampleEnv).state.2.warnings = [] :=
  have h := critical_delivery_failure (sampleChannel Severity.ERROR) sampleEnv 9 [] rfl
    (by decide)
  ⟨h.2.2.1 0 0 5 (List.mem_cons_self _ _) rfl rfl,
   congrArg ThreadSafeQueue.queue (h.2.2.2.1 0 rfl),
   h.2.2.2.2.1,
   h.2.2.2.2.2.2.1⟩

end Channel

namespace Channel

end Channel

/-! ## Properties of a channel with callback subscribers only -/

namespace Channel

variable {T W : Type}

theorem deliver_callbacks (name : String) (m : T) (sev : Severity) :
    ∀ (cbs : List (Int × (T → W → W))) (e : Env T W),
      deliver name m sev (callbackSubscribers cbs) e
        = .done { e with world := invokeAll cbs m e.world } := by
  intro cbs
  induction cbs with
  | nil => intro e; rfl
  | cons c cbs ih =>
    intro e
    have hcons : callbackSubscribers (c :: cbs)
        = (c.1, Subscriber.callback c.2) :: callbackSubscribers cbs := rfl
    rw [hcons, deliver_cons_callback, ih]
    rfl

end Channel

namespace ChannelState

variable {T W : Type}

theorem step_callbackOnly (cbs : List (Int × (T → W → W))) (ws : List (String × Severity))
    (s s1 : ChannelState T W) (ev : ChannelEvent T) (hinv : CallbackOnly cbs ws s)
    (h : s.step ev = some s1) :
    CallbackOnly cbs ws s1 ∧
    ∃ delivered, s.ch.publishingQueue.queue ++ publishedBy [ev]
        = delivered ++ s1.ch.publishingQueue.queue ∧
      s1.env.world = delivered.foldl (fun w m => invokeAll cbs m.1 w) s.env.world := by
  obtain ⟨hr, hs, hcb, hm, hw⟩ := hinv
  cases ev with
  | publish m sev =>
    simp only [step, hr, Channel.publish] at h
    cases hc : s.ch.publishingQueue.canEnqueue_ with
    | false =>
      rw [ThreadSafeQueue.enqueue_of_not_can _ _ _ hc] at h
      simp at h
    | true =>
      rw [ThreadSafeQueue.enqueue_of_can _ _ _ hc] at h
      simp only [Option.some.injEq] at h
      subst h
      refine ⟨⟨rfl, hs, hcb, hm, hw⟩, [], ?_, ?_⟩
      · simp [publishedBy]
      · simp only [List.foldl_nil, hcb]
        rfl
  | process =>
    simp only [step, hr] at h
    cases hq : s.ch.publishingQueue.queue with
    | nil =>
      rw [Channel.processNext_nil s.ch s.env hq] at h
      simp only [Option.some.injEq] at h
      subst h
      exact ⟨⟨rfl, hs, hcb, hm, hw⟩, [], by simp [publishedBy, hq], rfl⟩
    | cons p rest =>
      obtain ⟨m, sev⟩ := p
      rw [Channel.processNext_cons s.ch s.env m sev rest hq, hs,
        Channel.deliver_callbacks] at h
      simp only [Option.some.injEq] at h
      subst h
      exact ⟨⟨rfl, rfl, hcb, hm, hw⟩, [(m, sev)], by simp [publishedBy], rfl⟩

theorem publishedBy_cons (ev : ChannelEvent T) (evs : List (ChannelEvent T)) :
    publishedBy (ev :: evs) = publishedBy [ev] ++ publishedBy evs := by
  cases ev <;> simp [publishedBy]

theorem run_callbackOnly (cbs : List (Int × (T → W → W))) (ws : List (String × Severity))
    (evs : List (ChannelEvent T)) :
    ∀ s s1 : ChannelState T W, CallbackOnly cbs ws s → s.run evs = some s1 →
      CallbackOnly cbs ws s1 ∧
      ∃ delivered, s.ch.publishingQueue.queue ++ publishedBy evs
          = delivered ++ s1.ch.publishingQueue.queue ∧
        s1.env.world = delivered.foldl (fun w m => invokeAll cbs m.1 w) s.env.world := by
  induction evs with
  | nil =>
    intro s s1 hinv h
    simp only [run, Option.some.injEq] at h
    subst h
    exact ⟨hinv, [], by simp [publishedBy], rfl⟩
  | cons ev evs ih =>
    intro s s1 hinv h
    simp only [run] at h
    cases hs : s.step ev with
    | none => simp [hs] at h
    | some s2 =>
      simp only [hs] at h
      obtain ⟨hinv2, d1, hd1, hw1⟩ := step_callbackOnly cbs ws s s2 ev hinv hs
      obtain ⟨hinv1, d2, hd2, hw2⟩ := ih s2 s1 hinv2 h
      refine ⟨hinv1, d1 ++ d2, ?_, ?_⟩
      · rw [publishedBy_cons, ← List.append_assoc, hd1, List.append_assoc, hd2,
          List.append_assoc]
      · rw [hw2, hw1, List.foldl_append]

theorem run_publishAndProcess (cbs : List (Int × (T → W → W)))
    (ws : List (String × Severity)) (msgs : List (T × Severity)) :
    ∀ s : ChannelState T W, CallbackOnly cbs ws s → s.ch.publishingQueue.queue = [] →
      ∃ s1, s.run (publishAndProcess msgs) = some s1 ∧ CallbackOnly cbs ws s1 ∧
        s1.ch.publishingQueue.queue = [] ∧
        s1.env.world = msgs.foldl (fun w m => invokeAll cbs m.1 w) s.env.world := by
  induction msgs with
  | nil => intro s hinv hq; exact ⟨s, rfl, hinv, hq, rfl⟩
  | cons p msgs ih =>
    intro s hinv hq
    obtain ⟨hr, hs, hcb, hm, hw⟩ := hinv
    have hc : s.ch.publishingQueue.canEnqueue_ = true := by
      rw [ThreadSafeQueue.canEnqueue__iff, hq, hm, List.length_nil]
      exact (by decide : 0 < toUnsigned PUBLISHING_QUEUE_SIZE)
    have h1 : s.step (ChannelEvent.publish p.1 p.2)
        = some { s with
            ch := { s.ch with publishingQueue :=
              { s.ch.publishingQueue with queue := s.ch.publishingQueue.queue ++ [p] } },
            env := { s.env with world := s.env.world } } := by
      simp only [step, hr, Channel.publish, ThreadSafeQueue.enqueue_of_can _ _ _ hc, hcb]
      rfl
    have h2 : ({ s with
            ch := { s.ch with publishingQueue :=
              { s.ch.publishingQueue with queue := s.ch.publishingQueue.queue ++ [p] } },
            env := { s.env with world := s.env.world } } : ChannelState T W).step
          ChannelEvent.process
        = some { ch := { s.ch with publishingQueue :=
                    { s.ch.publishingQueue with queue := [] } },
                 env := { s.env with world := invokeAll cbs p.1 s.env.world },
                 raised := none } := by
      simp only [step, hr]
      rw [Channel.processNext_cons _ _ p.1 p.2 [] (by simp [hq])]
      simp only [hs, Channel.deliver_callbacks]
    obtain ⟨s1, hrun, hinv1, hq1, hw1⟩ := ih
      { ch := { s.ch with publishingQueue := { s.ch.publishingQueue with queue := [] } },
        env := { s.env with world := invokeAll cbs p.1 s.env.world },
        raised := none }
      ⟨rfl, hs, hcb, hm, hw⟩ rfl
    refine ⟨s1, ?_, hinv1, hq1, ?_⟩
    · simp only [publishAndProcess, run, h1, h2]
      exact hrun
    · rw [hw1]
      rfl

end ChannelState

namespace ChannelState

variable {T W : Type}

/-- C10. A channel as constructed whose subscribers are exactly the callbacks
`cbs`.  After any sequence of completed `publish` calls (of any severities) and
worker iterations nothing has been thrown and nothing has been published on
the warnings channel; the published messages are those handled so far followed
by those still queued, and the environment is the one obtained by running, for
each handled message in publish order, every callback once.  For every list of
messages the schedule that handles each message after its `publish` completes
and handles them all.  In `main`, with a callback that appends what it
receives, the callback has received 1 and then 42 and nothing was thrown. -/
theorem callbacks_never_drop (name : String) (cbs : List (Int × (T → W → W)))
    (e : Env T W) :
    (∀ (evs : List (ChannelEvent T)) (s : ChannelState T W),
      (⟨{ Channel.new name with subscribers := callbackSubscribers cbs }, e, none⟩ :
        ChannelState T W).run evs = some s →
      s.raised = none ∧ s.env.warnings = e.warnings ∧
      ∃ delivered, publishedBy evs = delivered ++ s.ch.publishingQueue.queue ∧
        s.env.world = delivered.foldl (fun w m => invokeAll cbs m.1 w) e.world) ∧
    (∀ msgs : List (T × Severity),
      ∃ s, (⟨{ Channel.new name with subscribers := callbackSubscribers cbs }, e, none⟩ :
          ChannelState T W).run (publishAndProcess msgs) = some s ∧
        s.raised = none ∧ s.env.warnings = e.warnings ∧
        s.ch.publishingQueue.queue = [] ∧
        s.env.world = msgs.foldl (fun w m => invokeAll cbs m.1 w) e.world) ∧
    (∀ fresh : Addr,
      ∃ s, main (fun (i : Int) (received : List Int) => received ++ [i]) fresh [] = some s ∧
        s.raised = none ∧ s.env.warnings = [] ∧ s.env.world = [1, 42] ∧
        s.ch.publishingQueue.queue = []) := by
  have hinit : CallbackOnly cbs e.warnings
      (⟨{ Channel.new name with subscribers := callbackSubscribers cbs }, e, none⟩ :
        ChannelState T W) := ⟨rfl, rfl, rfl, rfl, rfl⟩
  refine ⟨fun evs s h => ?_, fun msgs => ?_, fun fresh => ?_⟩
  · obtain ⟨hinv, d, hd, hw⟩ := run_callbackOnly cbs e.warnings evs _ s hinit h
    exact ⟨hinv.raised, hinv.warnings, d, by simpa [Channel.new, ThreadSafeQueue.new] using hd,
      hw⟩
  · obtain ⟨s, hrun, hinv, hq, hw⟩ := run_publishAndProcess cbs e.warnings msgs _ hinit rfl
    exact ⟨s, hrun, hinv.raised, hinv.warnings, hq, hw⟩
  · simp [main, Broker.getChannel, Broker.deref, ChannelObject.cast, Channel.subscribe,
      Channel.publishDefault, Channel.publish, ThreadSafeQueue.enqueue,
      ThreadSafeQueue.canEnqueue_, ThreadSafeQueue.enqueue_, Channel.new, ThreadSafeQueue.new,
      getSubscriptionID, mapAssign, run, step, Channel.processNext, ThreadSafeQueue.canDequeue,
      ThreadSafeQueue.canDequeue_, ThreadSafeQueue.dequeue, ThreadSafeQueue.dequeue_,
      Channel.deliver, Subscriber.call, ThreadSafeQueue.DO_NOTHING_CALLBACK, toUnsigned,
      PUBLISHING_QUEUE_SIZE, List.lookup]

/-- C10, the scenario of `main.cpp`: the channel `"test"` placed at address 0,
one persistent callback subscriber, `publish(1)` then `publish(42)`. -/
theorem callbacks_never_drop_witness :
    ∃ s, main (fun (i : Int) (received : List Int) => received ++ [i]) 0 [] = some s ∧
      s.raised = none ∧ s.env.warnings = [] ∧ s.env.world = [1, 42] ∧
      s.ch.publishingQueue.queue = [] :=
  (callbacks_never_drop (T := Int) (W := List Int) "test"
    [(0, fun i received => received ++ [i])]
    ⟨⟨fun _ => ThreadSafeQueue.new 0, 0⟩, [], []⟩).2.2 0

end ChannelState

/-! ## Properties of the subscriber map and the handles -/

theorem mapFind_mapAssign_self {β : Type} (k : Int) (v : β) :
    ∀ l : List (Int × β), mapFind k (mapAssign k v l) = some v := by
  intro l
  induction l with
  | nil => simp [mapAssign, mapFind]
  | cons e l ih =>
    obtain ⟨k1, v1⟩ := e
    simp only [mapAssign]
    split
    · simp [mapFind]
    · split
      · simp [mapFind]
      · rename_i h1 h2
        have : k1 ≠ k := fun h => h2 h.symm
        simp [mapFind, this, ih]

theorem mapFind_mapAssign_ne {β : Type} (k j : Int) (v : β) (hj : j ≠ k) :
    ∀ l : List (Int × β), mapFind j (mapAssign k v l) = mapFind j l := by
  intro l
  have hkj : k ≠ j := fun h => hj h.symm
  induction l with
  | nil => simp [mapAssign, mapFind, hkj]
  | cons e l ih =>
    obtain ⟨k1, v1⟩ := e
    simp only [mapAssign]
    split
    · simp [mapFind, hkj]
    · split
      · rename_i h1 h2
        subst h2
        simp [mapFind, hkj]
      · by_cases h : k1 = j
        · simp [mapFind, h]
        · simp [mapFind, h, ih]

theorem mapFind_mapErase_self {β : Type} (k : Int) :
    ∀ l : List (Int × β), mapFind k (mapErase k l) = none := by
  intro l
  induction l with
  | nil => rfl
  | cons e l ih =>
    obtain ⟨k1, v1⟩ := e
    by_cases h : k1 = k
    · simpa [mapErase, List.filter_cons, h] using ih
    · have : mapErase k ((k1, v1) :: l) = (k1, v1) :: mapErase k l := by
        simp [mapErase, List.filter_cons, h]
      rw [this]
      simp [mapFind, h, ih]

theorem mapFind_mapErase_ne {β : Type} (k j : Int) (hj : j ≠ k) :
    ∀ l : List (Int × β), mapFind j (mapErase k l) = mapFind j l := by
  intro l
  induction l with
  | nil => rfl
  | cons e l ih =>
    obtain ⟨k1, v1⟩ := e
    by_cases h : k1 = k
    · have h1 : mapErase k ((k1, v1) :: l) = mapErase k l := by
        simp [mapErase, List.filter_cons, h]
      have h2 : k1 ≠ j := fun h3 => hj (h3 ▸ h)
      rw [h1, ih]
      simp [mapFind, h2]
    · have h1 : mapErase k ((k1, v1) :: l) = (k1, v1) :: mapErase k l := by
        simp [mapErase, List.filter_cons, h]
      rw [h1]
      by_cases h2 : k1 = j
      · simp [mapFind, h2]
      · simp [mapFind, h2, ih]

theorem mapErase_of_not_mem {β : Type} (k : Int) (l : List (Int × β))
    (h : ∀ e ∈ l, e.1 ≠ k) : mapErase k l = l := by
  unfold mapErase
  rw [List.filter_eq_self]
  intro e he
  simpa using h e he

theorem mapErase_mapErase {β : Type} (k : Int) (l : List (Int × β)) :
    mapErase k (mapErase k l) = mapErase k l := by
  simp [mapErase, List.filter_filter]

theorem mapFind_eq_none_of_not_mem {β : Type} (k : Int) :
    ∀ l : List (Int × β), (∀ e ∈ l, e.1 ≠ k) → mapFind k l = none := by
  intro l
  induction l with
  | nil => intro _; rfl
  | cons e l ih =>
    intro h
    obtain ⟨k1, v1⟩ := e
    have h1 : k1 ≠ k := h (k1, v1) (List.mem_cons_self _ _)
    simp [mapFind, h1, ih (fun e he => h e (List.mem_cons_of_mem _ he))]

theorem mapErase_cons_ne {β : Type} (k k1 : Int) (v1 : β) (l : List (Int × β))
    (h : k1 ≠ k) : mapErase k ((k1, v1) :: l) = (k1, v1) :: mapErase k l := by
  simp [mapErase, List.filter_cons, h]

theorem mapErase_cons_self {β : Type} (k : Int) (v1 : β) (l : List (Int × β)) :
    mapErase k ((k, v1) :: l) = mapErase k l := by
  simp [mapErase, List.filter_cons]

theorem mapErase_mapAssign {β : Type} (k : Int) (v : β) :
    ∀ l : List (Int × β), (∀ e ∈ l, e.1 ≠ k) → mapErase k (mapAssign k v l) = l := by
  intro l
  induction l with
  | nil => intro _; simp [mapAssign, mapErase]
  | cons e l ih =>
    intro h
    obtain ⟨k1, v1⟩ := e
    have h1 : k1 ≠ k := h (k1, v1) (List.mem_cons_self _ _)
    have hl := mapErase_of_not_mem k l (fun e he => h e (List.mem_cons_of_mem _ he))
    simp only [mapAssign]
    split
    · rw [mapErase_cons_self, mapErase_cons_ne k k1 v1 l h1, hl]
    · split
      · rename_i h2 h3
        exact absurd h3.symm h1
      · rw [mapErase_cons_ne k k1 v1 _ h1, ih (fun e he => h e (List.mem_cons_of_mem _ he))]

theorem length_mapAssign {β : Type} (k : Int) (v : β) :
    ∀ l : List (Int × β), (∀ e ∈ l, e.1 ≠ k) →
      (mapAssign k v l).length = l.length + 1 := by
  intro l
  induction l with
  | nil => intro _; simp [mapAssign]
  | cons e l ih =>
    intro h
    obtain ⟨k1, v1⟩ := e
    have h1 : k1 ≠ k := h (k1, v1) (List.mem_cons_self _ _)
    simp only [mapAssign]
    split
    · simp
    · split
      · rename_i h2 h3
        exact absurd h3.symm h1
      · simp [ih (fun e he => h e (List.mem_cons_of_mem _ he))]

namespace Channel

variable {T W : Type}

/-- C12. In a channel state whose subscriber map has no entry under the next id
`counter ≥ 0`, `subscribe(callback, persistent)` returns an active handle (id
`counter`, channel this channel) with the given persistent flag, puts the
wrapped callback under that id, leaves every other key as it was (erasing the
new key gives back the old map, which is one entry shorter) and leaves the rest
of the channel unchanged.  `subscribe(buffersize)` does the same with a handle
that is not persistent and an entry that points to a new queue, which is empty
and has the given capacity, all other queues being unchanged. -/
theorem subscribe_spec (ch : Channel T W) (self : Addr) (callback : T → W → W)
    (persistent : Bool) (counter : Int) (buffersize : Int) (buffers : Buffers T W)
    (h0 : 0 ≤ counter) (hfresh : ∀ e ∈ ch.subscribers, e.1 ≠ counter) :
    ((ch.subscribe self callback persistent counter).1.Active ∧
      (ch.subscribe self callback persistent counter).1
        = { id := counter, channel := some self, persistent := persistent } ∧
      mapFind counter (ch.subscribe self callback persistent counter).2.1.subscribers
        = some (Subscriber.callback callback) ∧
      (∀ k, k ≠ counter →
        mapFind k (ch.subscribe self callback persistent counter).2.1.subscribers
          = mapFind k ch.subscribers) ∧
      mapErase counter (ch.subscribe self callback persistent counter).2.1.subscribers
        = ch.subscribers ∧
      (ch.subscribe self callback persistent counter).2.1.subscribers.length
        = ch.subscribers.length + 1 ∧
      (ch.subscribe self callback persistent counter).2.1.publishingQueue
        = ch.publishingQueue ∧
      (ch.subscribe self callback persistent counter).2.1.name = ch.name ∧
      (ch.subscribe self callback persistent counter).2.2 = counter + 1) ∧
    ((ch.subscribeBuffer self buffersize counter buffers).1.subscription.Active ∧
      (ch.subscribeBuffer self buffersize counter buffers).1
        = { subscription := { id := counter, channel := some self, persistent := false },
            queue := some buffers.next } ∧
      ((ch.subscribeBuffer self buffersize counter buffers).2.2.2.cell buffers.next).queue
        = [] ∧
      ((ch.subscribeBuffer self buffersize counter buffers).2.2.2.cell buffers.next).maxSize
        = buffersize ∧
      (∀ a, a ≠ buffers.next →
        (ch.subscribeBuffer self buffersize counter buffers).2.2.2.cell a = buffers.cell a) ∧
      (ch.subscribeBuffer self buffersize counter buffers).2.2.2.next = buffers.next + 1 ∧
      mapFind counter (ch.subscribeBuffer self buffersize counter buffers).2.1.subscribers
        = some (Subscriber.buffer buffers.next) ∧
      (∀ k, k ≠ counter →
        mapFind k (ch.subscribeBuffer self buffersize counter buffers).2.1.subscribers
          = mapFind k ch.subscribers) ∧
      mapErase counter (ch.subscribeBuffer self buffersize counter buffers).2.1.subscribers
        = ch.subscribers ∧
      (ch.subscribeBuffer self buffersize counter buffers).2.1.subscribers.length
        = ch.subscribers.length + 1 ∧
      (ch.subscribeBuffer self buffersize counter buffers).2.1.publishingQueue
        = ch.publishingQueue ∧
      (ch.subscribeBuffer self buffersize counter buffers).2.1.name = ch.name ∧
      (ch.subscribeBuffer self buffersize counter buffers).2.2.1 = counter + 1) := by
  refine ⟨⟨⟨h0, by simp [subscribe, getSubscriptionID]⟩, rfl,
      mapFind_mapAssign_self _ _ _, fun k hk => mapFind_mapAssign_ne _ _ _ hk _,
      mapErase_mapAssign _ _ _ hfresh, length_mapAssign _ _ _ hfresh, rfl, rfl, rfl⟩,
    ⟨⟨h0, by simp [subscribeBuffer, BufferedSubscription.create, Subscription.create,
        Subscription.moveConstruct]⟩, rfl, ?_, ?_, ?_, rfl,
      mapFind_mapAssign_self _ _ _, fun k hk => mapFind_mapAssign_ne _ _ _ hk _,
      mapErase_mapAssign _ _ _ hfresh, length_mapAssign _ _ _ hfresh, rfl, rfl, rfl⟩⟩
  · simp [subscribeBuffer, Buffers.set, ThreadSafeQueue.new]
  · simp [subscribeBuffer, Buffers.set, ThreadSafeQueue.new]
  · intro a ha
    simp [subscribeBuffer, Buffers.set, ha]

/-- C12, at the channel `"c"` with the subscriber 0, the next id being 1: the
handles have id 1, and the map has the entries 0 and 1. -/
theorem subscribe_spec_witness :
    ((sampleChannel Severity.ERROR).subscribe 8 (fun _ w => w) true 1).1
      = { id := 1, channel := some 8, persistent := true } ∧
    ((sampleChannel Severity.ERROR).subscribe 8 (fun _ w => w) true 1).2.1.subscribers.length
      = 2 ∧
    ((sampleChannel Severity.ERROR).subscribeBuffer 8 3 1 sampleEnv.buffers).1
      = { subscription := { id := 1, channel := some 8, persistent := false },
          queue := some 1 } ∧
    (((sampleChannel Severity.ERROR).subscribeBuffer 8 3 1 sampleEnv.buffers).2.2.2.cell
      1).maxSize = 3 :=
  have h := subscribe_spec (sampleChannel Severity.ERROR) 8 (fun _ w => w) true 1 3
    sampleEnv.buffers (by decide) (by decide)
  ⟨h.1.2.1, h.1.2.2.2.2.2.1, h.2.2.1, h.2.2.2.2.1⟩

end Channel

namespace Subscription

variable {U : Type} {El : U → Type} {W : Type}

theorem ids_unsubscribe (o : AbstractChannelBase U El W) (s : Subscription) :
    (o.unsubscribe s).ids = o.ids.filter (fun k => decide (k ≠ s.id)) := by
  simp only [AbstractChannelBase.ids, AbstractChannelBase.unsubscribe, Channel.unsubscribe,
    mapErase, List.filter_map]
  rfl

theorem unsubscribe_of_some (s : Subscription) (m : ChannelMemory U El W) (c : Addr)
    (h : s.channel = some c) :
    s.unsubscribe m
      = ({ id := -1, channel := none, persistent := s.persistent }, m.unsubscribe c s) := by
  simp [unsubscribe, h]

theorem unsubscribe_of_none (s : Subscription) (m : ChannelMemory U El W)
    (h : s.channel = none) : s.unsubscribe m = (s, m) := by
  simp [unsubscribe, h]

/-- C13. `unsubscribe()` on a handle with a channel `c` calls that channel's
`unsubscribe` once, which removes the entry under the handle's id and nothing
else (the other keys, the other channels and the rest of the channel are
unchanged), and leaves the handle inactive, with id -1 and no channel, its
persistent flag untouched.  On a handle without a channel it changes neither
the handle nor any channel.  A second `unsubscribe()` changes nothing, and
`Channel::unsubscribe` for an id without an entry changes nothing. -/
theorem unsubscribe_spec (s : Subscription) (m : ChannelMemory U El W) {T : Type}
    (ch : Channel T W) :
    (∀ c, s.channel = some c →
      (s.unsubscribe m).1 = { id := -1, channel := none, persistent := s.persistent } ∧
      (s.unsubscribe m).1.Inactive ∧
      (s.unsubscribe m).2.object c = (m.object c).unsubscribe s ∧
      ((s.unsubscribe m).2.object c).ids
        = (m.object c).ids.filter (fun k => decide (k ≠ s.id)) ∧
      (∀ a, a ≠ c → (s.unsubscribe m).2.object a = m.object a) ∧
      (s.unsubscribe m).2.unsubscribeCalls = m.unsubscribeCalls ++ [(c, s.id)]) ∧
    (s.channel = none → s.unsubscribe m = (s, m)) ∧
    (s.unsubscribe m).1.unsubscribe (s.unsubscribe m).2 = s.unsubscribe m ∧
    (mapFind s.id (ch.unsubscribe s).subscribers = none ∧
      (∀ k, k ≠ s.id → mapFind k (ch.unsubscribe s).subscribers = mapFind k ch.subscribers) ∧
      (ch.unsubscribe s).subscribers
        = ch.subscribers.filter (fun e => decide (e.1 ≠ s.id)) ∧
      (ch.unsubscribe s).publishingQueue = ch.publishingQueue ∧
      (ch.unsubscribe s).name = ch.name ∧ (ch.unsubscribe s).run = ch.run) ∧
    ((∀ e ∈ ch.subscribers, e.1 ≠ s.id) → ch.unsubscribe s = ch) ∧
    (ch.unsubscribe s).unsubscribe s = ch.unsubscribe s := by
  refine ⟨fun c hc => ?_, unsubscribe_of_none s m, ?_,
    ⟨mapFind_mapErase_self _ _, fun k hk => mapFind_mapErase_ne _ _ hk _, rfl, rfl, rfl, rfl⟩,
    fun h => ?_, ?_⟩
  · rw [unsubscribe_of_some s m c hc]
    refine ⟨rfl, ⟨rfl, rfl⟩, ?_, ?_, fun a ha => ?_, rfl⟩
    · simp [ChannelMemory.unsubscribe]
    · simp only [ChannelMemory.unsubscribe, if_true]
      exact ids_unsubscribe _ _
    · simp [ChannelMemory.unsubscribe, ha]
  · cases hc : s.channel with
    | none =>
      rw [unsubscribe_of_none s m hc]
      exact unsubscribe_of_none s m hc
    | some c =>
      rw [unsubscribe_of_some s m c hc]
      exact unsubscribe_of_none _ _ rfl
  · simp only [Channel.unsubscribe, mapErase_of_not_mem _ _ h]
  · simp only [Channel.unsubscribe, mapErase_mapErase]

/-- C15. Move construction gives the new handle the id, the channel and the
persistent flag of the source and leaves the source with id -1, no channel and
the persistent flag set, hence inactive.  It touches no channel: in a program
the step leaves the channels, the calls of `unsubscribe` made so far, the
counter and all other handles as they were. -/
theorem moveConstruct_spec [DecidableEq U] (s : Subscription) (p : Program U El W)
    (source : Nat) :
    (moveConstruct s).1 = s ∧
    (moveConstruct s).2 = { id := -1, channel := none, persistent := true } ∧
    (moveConstruct s).2.Inactive ∧
    (p.step (HandleOp.moveConstruct source)).memory = p.memory ∧
    (p.step (HandleOp.moveConstruct source)).subscriptionCounter = p.subscriptionCounter ∧
    (p.step (HandleOp.moveConstruct source)).buffers = p.buffers ∧
    (∀ t, p.handles source = some t →
      (p.step (HandleOp.moveConstruct source)).handles p.constructed = some t ∧
      (source ≠ p.constructed →
        (p.step (HandleOp.moveConstruct source)).handles source
          = some { id := -1, channel := none, persistent := true }) ∧
      (∀ k, k ≠ source → k ≠ p.constructed →
        (p.step (HandleOp.moveConstruct source)).handles k = p.handles k)) := by
  refine ⟨rfl, rfl, ⟨rfl, rfl⟩, ?_, ?_, ?_, fun t ht => ?_⟩
  · cases h : p.handles source <;> simp [Program.step, h, Program.addHandle, Program.setHandle]
  · cases h : p.handles source <;> simp [Program.step, h, Program.addHandle, Program.setHandle]
  · cases h : p.handles source <;> simp [Program.step, h, Program.addHandle, Program.setHandle]
  · refine ⟨?_, fun hne => ?_, fun k hk hk2 => ?_⟩
    · simp [Program.step, ht, Program.addHandle, Program.setHandle, moveConstruct]
    · simp [Program.step, ht, Program.addHandle, Program.setHandle, moveConstruct, hne]
    · simp [Program.step, ht, Program.addHandle, Program.setHandle, hk, hk2]

/-- C16. The move assignment `t = std::move(s)` between two handle objects
calls `unsubscribe` on `t`'s former channel for `t`'s former id exactly when
`t` had a channel and was not persistent, which removes that entry and no
other; otherwise no channel changes.  In every case `t` then holds the former
id, channel and persistent flag of `s`, and `s` has id -1, no channel and the
persistent flag set.  An entry under an id other than `t`'s former id, such as
the one of `s`, is kept. -/
theorem moveAssign_spec (t s : Subscription) (m : ChannelMemory U El W) :
    (t.moveAssign s m).1 = s ∧
    (t.moveAssign s m).2.1 = { id := -1, channel := none, persistent := true } ∧
    (t.moveAssign s m).2.1.Inactive ∧
    (∀ c, t.channel = some c → t.persistent = false →
      (t.moveAssign s m).2.2 = m.unsubscribe c t ∧
      ((t.moveAssign s m).2.2.object c).ids
        = (m.object c).ids.filter (fun k => decide (k ≠ t.id)) ∧
      t.id ∉ ((t.moveAssign s m).2.2.object c).ids ∧
      (∀ a, a ≠ c → (t.moveAssign s m).2.2.object a = m.object a) ∧
      (∀ a k, k ≠ t.id → (k ∈ ((t.moveAssign s m).2.2.object a).ids ↔ k ∈ (m.object a).ids)) ∧
      (t.moveAssign s m).2.2.unsubscribeCalls = m.unsubscribeCalls ++ [(c, t.id)]) ∧
    (t.channel = none ∨ t.persistent = true → (t.moveAssign s m).2.2 = m) := by
  refine ⟨rfl, rfl, ⟨rfl, rfl⟩, fun c hc hp => ?_, fun h => ?_⟩
  · have hm : (t.moveAssign s m).2.2 = m.unsubscribe c t := by
      simp [moveAssign, hc, hp, unsubscribe]
    have hids : ((m.unsubscribe c t).object c).ids
        = (m.object c).ids.filter (fun k => decide (k ≠ t.id)) := by
      simp only [ChannelMemory.unsubscribe, if_true]
      exact ids_unsubscribe _ _
    have hother : ∀ a, a ≠ c → (m.unsubscribe c t).object a = m.object a := by
      intro a ha
      simp [ChannelMemory.unsubscribe, ha]
    rw [hm]
    refine ⟨rfl, hids, ?_, hother, fun a k hk => ?_, rfl⟩
    · rw [hids]
      simp
    · by_cases ha : a = c
      · subst ha
        rw [hids]
        simp [hk]
      · rw [hother a ha]
  · rcases h with h | h
    · simp [moveAssign, h]
    · simp [moveAssign, h]

end Subscription

namespace Subscription

variable {U : Type} {El : U → Type} {W : Type}

theorem moveChain_eq (n : Nat) :
    ∀ s : Subscription, moveChain n s = (List.replicate n invalid, s) := by
  induction n with
  | zero => intro s; rfl
  | succ n ih =>
    intro s
    simp only [moveChain, ih, List.replicate_succ]
    rfl

theorem destroy_invalid (m : ChannelMemory U El W) : invalid.destroy m = m := by
  simp [destroy, invalid]

theorem destroyAll_invalid (l : List Subscription) :
    ∀ m : ChannelMemory U El W, (∀ s ∈ l, s = invalid) → destroyAll m l = m := by
  induction l with
  | nil => intro m _; rfl
  | cons s l ih =>
    intro m h
    simp only [destroyAll]
    rw [h s (List.mem_cons_self _ _), destroy_invalid]
    exact ih m (fun x hx => h x (List.mem_cons_of_mem _ hx))

theorem destroyAll_one_holder (h : Subscription) (hne : h ≠ invalid)
    (l : List Subscription) :
    ∀ m : ChannelMemory U El W, (∀ s ∈ l, s = invalid ∨ s = h) → l.count h = 1 →
      destroyAll m l = h.destroy m := by
  induction l with
  | nil => intro m _ hc; simp at hc
  | cons s l ih =>
    intro m hall hc
    have hl : ∀ x ∈ l, x = invalid ∨ x = h := fun x hx => hall x (List.mem_cons_of_mem _ hx)
    simp only [destroyAll]
    rcases hall s (List.mem_cons_self _ _) with hs | hs
    · subst hs
      rw [destroy_invalid]
      refine ih m hl ?_
      rw [List.count_cons_of_ne hne] at hc
      exact hc
    · subst hs
      rw [List.count_cons_self] at hc
      have h0 : l.count s = 0 := by omega
      have hnot : s ∉ l := List.count_eq_zero.1 h0
      refine destroyAll_invalid l _ (fun x hx => ?_)
      rcases hl x hx with hx1 | hx1
      · exact hx1
      · exact absurd (hx1 ▸ hx) hnot

/-- C14. A handle `h` with channel `c` is passed through `n` move constructions
and then all `n + 1` handle objects are destroyed, in any order `l`.  The last
holder is `h`, every moved-from source is the invalid handle, whose destruction
changes nothing.  The destructions call the channel's `unsubscribe` for the id
of `h` exactly once if `h` is not persistent, after which the entry under that
id is absent, and never if it is persistent, in which case every channel is as
before, so an entry under that id is still present.  The handle returned by
`subscribe` is such a handle: its channel is the one subscribed to, its id is
the id issued and its entry is present. -/
theorem revoke_once (h : Subscription) (c : Addr)
    (m : ChannelMemory U El W) (n : Nat) (l : List Subscription)
    (callback : (t : U) → El t → W → W) (persistent : Bool) (counter : Int)
    (hc : h.channel = some c)
    (hl : l.Perm ((moveChain n h).2 :: (moveChain n h).1)) :
    (moveChain n h).2 = h ∧
    (∀ s ∈ (moveChain n h).1, s = invalid ∧ ∀ m1 : ChannelMemory U El W, s.destroy m1 = m1) ∧
    (h.persistent = false →
      (destroyAll m l).unsubscribeCalls = m.unsubscribeCalls ++ [(c, h.id)] ∧
      h.id ∉ ((destroyAll m l).object c).ids ∧
      (∀ a, a ≠ c → (destroyAll m l).object a = m.object a)) ∧
    (h.persistent = true →
      destroyAll m l = m ∧ (h.id ∈ (m.object c).ids → h.id ∈ ((destroyAll m l).object c).ids)) ∧
    ((m.subscribe c callback persistent counter).1
        = { id := counter, channel := some c, persistent := persistent } ∧
      counter ∈ ((m.subscribe c callback persistent counter).2.1.object c).ids) := by
  have hne : h ≠ invalid := by
    intro e
    rw [e] at hc
    simp [invalid] at hc
  rw [moveChain_eq] at hl ⊢
  have hall : ∀ s ∈ l, s = invalid ∨ s = h := by
    intro s hs
    have := hl.mem_iff.1 hs
    rcases List.mem_cons.1 this with h1 | h1
    · exact Or.inr h1
    · exact Or.inl (List.eq_of_mem_replicate h1)
  have hcount : l.count h = 1 := by
    rw [hl.count_eq, List.count_cons_self, List.count_replicate]
    simp [hne.symm]
  have hd := destroyAll_one_holder h hne l m hall hcount
  refine ⟨rfl, fun s hs => ?_, fun hp => ?_, fun hp => ?_, rfl, ?_⟩
  · have := List.eq_of_mem_replicate hs
    subst this
    exact ⟨rfl, fun m1 => destroy_invalid m1⟩
  · have hd2 : destroyAll m l = m.unsubscribe c h := by
      rw [hd]
      simp [destroy, hp, unsubscribe, hc]
    rw [hd2]
    refine ⟨rfl, ?_, fun a ha => by simp [ChannelMemory.unsubscribe, ha]⟩
    simp only [ChannelMemory.unsubscribe, if_true]
    rw [ids_unsubscribe]
    simp
  · have hd2 : destroyAll m l = m := by
      rw [hd]
      simp [destroy, hp]
    rw [hd2]
    exact ⟨rfl, fun x => x⟩
  · have hobj : (m.subscribe c callback persistent counter).2.1.object c
        = ⟨(m.object c).elemType,
            ((m.object c).channel.subscribe c (callback (m.object c).elemType) persistent
              counter).2.1⟩ := by
      simp [ChannelMemory.subscribe, ChannelMemory.setObject]
    rw [hobj]
    exact List.mem_map.2 ⟨(counter, Subscriber.callback _), mem_mapAssign _ _ _, rfl⟩

end Subscription

namespace Subscription

/-- C14, for the handle with id 0 on the channel at address 3, not persistent,
moved twice: destroying the first source, the holder and the second source, in
this order, calls `unsubscribe` once, for (3, 0), and the entry is gone. -/
theorem revoke_once_witness :
    (destroyAll sampleMemory
        [invalid, { id := 0, channel := some 3, persistent := false }, invalid]).unsubscribeCalls
      = [(3, 0)] ∧
    (0 : Int) ∉ ((destroyAll sampleMemory
        [invalid, { id := 0, channel := some 3, persistent := false },
          invalid]).object 3).ids :=
  have h := (revoke_once { id := 0, channel := some 3, persistent := false } 3 sampleMemory 2
    [invalid, { id := 0, channel := some 3, persistent := false }, invalid]
    (fun _ _ w => w) false 0 rfl (List.Perm.swap _ _ _)).2.2.1 rfl
  ⟨h.1, h.2.1⟩

end Subscription

namespace BufferedSubscription

variable {T W : Type}

/-- C19. `hasMessage`, `getMessage` and `setOnNewElement` throw exactly when the
instance holds no queue, which is the state move construction leaves its source
in; `unsetOnNewElement` has no throwing path and changes nothing on such an
instance.  On an instance with a queue `hasMessage` returns true exactly when
that queue is non-empty, and it has no effect on the queues.  Move construction
gives the new object the queue pointer and the handle of the source, changes no
queue, so the unread messages stay as they are, and every operation on the new
object gives what it gave on the source before. -/
theorem operations_spec (bs : BufferedSubscription) (buffers : Buffers T W) (w : W)
    (callback : List T → W → W) :
    ((∃ what, bs.hasMessage buffers = .error what) ↔ bs.queue = none) ∧
    ((∃ what, bs.getMessage buffers w = .error what) ↔ bs.queue = none) ∧
    ((∃ what, bs.setOnNewElement callback buffers = .error what) ↔ bs.queue = none) ∧
    (bs.queue = none → bs.unsetOnNewElement buffers = buffers) ∧
    (∀ a, bs.queue = some a →
      (∃ b, bs.hasMessage buffers = .ok b ∧ (b = true ↔ (buffers.cell a).queue ≠ [])) ∧
      (∀ x xs, (buffers.cell a).queue = x :: xs →
        bs.getMessage buffers w
          = .ok (some (x, buffers.set a { buffers.cell a with queue := xs }, w))) ∧
      ((buffers.cell a).queue = [] → bs.getMessage buffers w = .ok none)) ∧
    ((moveConstruct bs).1.queue = bs.queue ∧
      (moveConstruct bs).1.subscription = bs.subscription ∧
      (moveConstruct bs).2.queue = none ∧
      (moveConstruct bs).2.subscription = Subscription.invalid ∧
      (moveConstruct bs).1.hasMessage buffers = bs.hasMessage buffers ∧
      (moveConstruct bs).1.getMessage buffers w = bs.getMessage buffers w ∧
      (moveConstruct bs).1.setOnNewElement callback buffers
        = bs.setOnNewElement callback buffers ∧
      (moveConstruct bs).2.hasMessage buffers = .error invalidText ∧
      (moveConstruct bs).2.getMessage buffers w = .error invalidText ∧
      (moveConstruct bs).2.setOnNewElement callback buffers = .error invalidText ∧
      (moveConstruct bs).2.unsetOnNewElement buffers = buffers) := by
  refine ⟨?_, ?_, ?_, fun h => by simp [unsetOnNewElement, h], fun a ha => ⟨?_, ?_, ?_⟩,
    rfl, rfl, rfl, rfl, rfl, rfl, rfl, rfl, rfl, rfl, rfl⟩
  · cases h : bs.queue <;> simp [hasMessage, h]
  · cases h : bs.queue with
    | none => simp [getMessage, h]
    | some a =>
      simp only [getMessage, h]
      cases (buffers.cell a).dequeue w <;> simp
  · cases h : bs.queue <;> simp [setOnNewElement, h]
  · refine ⟨(buffers.cell a).canDequeue, by simp only [hasMessage, ha], ?_⟩
    simp only [ThreadSafeQueue.canDequeue]
    exact ThreadSafeQueue.canDequeue__iff _
  · intro x xs hq
    simp only [getMessage, ha, ThreadSafeQueue.dequeue_cons _ w x xs hq]
  · intro hq
    simp only [getMessage, ha, ThreadSafeQueue.dequeue_nil _ w hq]

/-- C19, at a subscription whose queue, at address 0, holds the unread message
5: `hasMessage` is true and `getMessage` returns 5 on the object made by move
construction, and `hasMessage` throws on the source. -/
theorem operations_spec_witness :
    (moveConstruct ⟨⟨0, some 3, false⟩, some 0⟩).1.hasMessage sampleEnv.buffers = .ok true ∧
    (∃ b, (moveConstruct ⟨⟨0, some 3, false⟩, some 0⟩).1.getMessage sampleEnv.buffers ()
      = .ok (some ((5 : Nat), b, ()))) ∧
    (∃ what, (moveConstruct ⟨⟨0, some 3, false⟩, some 0⟩).2.hasMessage sampleEnv.buffers
      = .error what) :=
  have h := operations_spec ⟨⟨0, some 3, false⟩, some 0⟩ sampleEnv.buffers ()
    ThreadSafeQueue.DO_NOTHING_CALLBACK
  ⟨h.2.2.2.2.2.2.2.2.2.1.trans rfl,
   ⟨_, h.2.2.2.2.2.2.2.2.2.2.1.trans ((h.2.2.2.2.1 0 rfl).2.1 5 [] rfl)⟩,
   ⟨_, h.2.2.2.2.2.2.2.2.2.2.2.2.1⟩⟩

end BufferedSubscription

/-! ## Properties of programs that use handles -/

namespace Program

variable {U : Type} {El : U → Type} {W : Type}

theorem consistent_issue (p : Program U El W) (hinv : p.Consistent)
    (m : ChannelMemory U El W) (b : (t : U) → Buffers (El t) W) (c : Addr)
    (persistent : Bool) :
    (addHandle { p with memory := m, buffers := b,
                        subscriptionCounter := p.subscriptionCounter + 1,
                        issued := p.issued ++ [p.subscriptionCounter] }
      { id := p.subscriptionCounter, channel := some c, persistent := persistent }).Consistent := by
  obtain ⟨h1, h2, h3, h4⟩ := hinv
  have h0 : (0 : Int) ≤ p.subscriptionCounter := by rw [h1]; exact Int.natCast_nonneg _
  refine ⟨?_, ?_, ?_, ?_⟩
  · simp only [addHandle, List.length_append, List.length_singleton, h1]
    push_cast
    rfl
  · simp only [addHandle]
    rw [List.length_append, List.length_singleton, List.range_succ, List.map_append, ← h2, h1]
    rfl
  · intro k s hk
    simp only [addHandle] at hk ⊢
    by_cases hkc : k = p.constructed
    · simp only [hkc, if_true, Option.some.injEq] at hk
      subst hk
      exact Or.inr ⟨h0, by simp, by simp⟩
    · simp only [hkc, if_false] at hk
      rcases h3 k s hk with h | ⟨ha, hb, hc⟩
      · exact Or.inl h
      · exact Or.inr ⟨ha, by omega, hc⟩
  · intro i j s t hij hi hj hs ht
    simp only [addHandle] at hi hj
    by_cases hic : i = p.constructed
    · simp only [hic, if_true, Option.some.injEq] at hi
      have hjc : j ≠ p.constructed := fun h => hij (hic.trans h.symm)
      simp only [hjc, if_false] at hj
      subst hi
      rcases h3 j t hj with h | ⟨_, hb, _⟩
      · exact absurd h.2 ht
      · simp only
        omega
    · simp only [hic, if_false] at hi
      by_cases hjc : j = p.constructed
      · simp only [hjc, if_true, Option.some.injEq] at hj
        subst hj
        rcases h3 i s hi with h | ⟨_, hb, _⟩
        · exact absurd h.2 hs
        · simp only
          omega
      · simp only [hjc, if_false] at hj
        exact h4 i j s t hij hi hj hs ht

theorem consistent_memory (p : Program U El W) (hinv : p.Consistent)
    (m : ChannelMemory U El W) : ({ p with memory := m } : Program U El W).Consistent :=
  ⟨hinv.counter, hinv.issued, hinv.handle, hinv.distinct⟩

theorem consistent_set_inactive (p : Program U El W) (hinv : p.Consistent) (k : Nat)
    (persistent : Bool) :
    (p.setHandle k (some { id := -1, channel := none, persistent := persistent })).Consistent := by
  obtain ⟨h1, h2, h3, h4⟩ := hinv
  refine ⟨h1, h2, ?_, ?_⟩
  · intro x s hx
    simp only [setHandle] at hx
    by_cases hxk : x = k
    · simp only [hxk, if_true, Option.some.injEq] at hx
      subst hx
      exact Or.inl ⟨rfl, rfl⟩
    · simp only [hxk, if_false] at hx
      exact h3 x s hx
  · intro i j s t hij hi hj hs ht
    simp only [setHandle] at hi hj
    by_cases hik : i = k
    · simp only [hik, if_true, Option.some.injEq] at hi
      subst hi
      exact absurd rfl hs
    · by_cases hjk : j = k
      · simp only [hjk, if_true, Option.some.injEq] at hj
        subst hj
        exact absurd rfl ht
      · simp only [hik, hjk, if_false] at hi hj
        exact h4 i j s t hij hi hj hs ht

theorem consistent_set_none (p : Program U El W) (hinv : p.Consistent) (k : Nat) :
    (p.setHandle k none).Consistent := by
  obtain ⟨h1, h2, h3, h4⟩ := hinv
  refine ⟨h1, h2, ?_, ?_⟩
  · intro x s hx
    simp only [setHandle] at hx
    by_cases hxk : x = k
    · simp [hxk] at hx
    · simp only [hxk, if_false] at hx
      exact h3 x s hx
  · intro i j s t hij hi hj hs ht
    simp only [setHandle] at hi hj
    by_cases hik : i = k
    · simp [hik] at hi
    · by_cases hjk : j = k
      · simp [hjk] at hj
      · simp only [hik, hjk, if_false] at hi hj
        exact h4 i j s t hij hi hj hs ht

theorem consistent_move (p : Program U El W) (hinv : p.Consistent) (source target : Nat)
    (s : Subscription) (hs : p.handles source = some s) :
    ((p.setHandle target (some (Subscription.moveConstruct s).1)).setHandle source
      (some (Subscription.moveConstruct s).2)).Consistent := by
  obtain ⟨h1, h2, h3, h4⟩ := hinv
  refine ⟨h1, h2, ?_, ?_⟩
  · intro x u hx
    simp only [setHandle] at hx
    by_cases hxs : x = source
    · simp only [hxs, if_true, Option.some.injEq] at hx
      subst hx
      exact Or.inl ⟨rfl, rfl⟩
    · simp only [hxs, if_false] at hx
      by_cases hxt : x = target
      · simp only [hxt, if_true, Option.some.injEq] at hx
        subst hx
        exact h3 source s hs
      · simp only [hxt, if_false] at hx
        exact h3 x u hx
  · intro i j u v hij hi hj hu hv
    simp only [setHandle] at hi hj
    by_cases his : i = source
    · simp only [his, if_true, Option.some.injEq] at hi
      subst hi
      exact absurd rfl hu
    · by_cases hjs : j = source
      · simp only [hjs, if_true, Option.some.injEq] at hj
        subst hj
        exact absurd rfl hv
      · simp only [his, hjs, if_false] at hi hj
        by_cases hit : i = target
        · have hjt : j ≠ target := fun h => hij (hit.trans h.symm)
          simp only [hit, if_true, Option.some.injEq] at hi
          simp only [hjt, if_false] at hj
          subst hi
          exact h4 source j s v (fun h => hjs h.symm) hs hj hu hv
        · simp only [hit, if_false] at hi
          by_cases hjt : j = target
          · simp only [hjt, if_true, Option.some.injEq] at hj
            subst hj
            exact h4 i source u s his hi hs hu hv
          · simp only [hjt, if_false] at hj
            exact h4 i j u v hij hi hj hu hv

end Program

namespace Program

variable {U : Type} {El : U → Type} {W : Type}

theorem consistent_add_invalid (p : Program U El W) (hinv : p.Consistent) :
    (addHandle p Subscription.invalid).Consistent := by
  obtain ⟨h1, h2, h3, h4⟩ := hinv
  refine ⟨h1, h2, ?_, ?_⟩
  · intro x s hx
    simp only [addHandle] at hx
    by_cases hxk : x = p.constructed
    · simp only [hxk, if_true, Option.some.injEq] at hx
      subst hx
      exact Or.inl ⟨rfl, rfl⟩
    · simp only [hxk, if_false] at hx
      exact h3 x s hx
  · intro i j s t hij hi hj hs ht
    simp only [addHandle] at hi hj
    by_cases hik : i = p.constructed
    · simp only [hik, if_true, Option.some.injEq] at hi
      subst hi
      exact absurd rfl hs
    · by_cases hjk : j = p.constructed
      · simp only [hjk, if_true, Option.some.injEq] at hj
        subst hj
        exact absurd rfl ht
      · simp only [hik, hjk, if_false] at hi hj
        exact h4 i j s t hij hi hj hs ht

theorem consistent_add_moved (p : Program U El W) (hinv : p.Consistent) (source : Nat)
    (s : Subscription) (hs : p.handles source = some s) :
    (addHandle (p.setHandle source (some (Subscription.moveConstruct s).2))
      (Subscription.moveConstruct s).1).Consistent := by
  obtain ⟨h1, h2, h3, h4⟩ := hinv
  refine ⟨h1, h2, ?_, ?_⟩
  · intro x u hx
    simp only [addHandle, setHandle] at hx
    by_cases hxc : x = p.constructed
    · simp only [hxc, if_true, Option.some.injEq] at hx
      subst hx
      exact h3 source s hs
    · simp only [hxc, if_false] at hx
      by_cases hxs : x = source
      · simp only [hxs, if_true, Option.some.injEq] at hx
        subst hx
        exact Or.inl ⟨rfl, rfl⟩
      · simp only [hxs, if_false] at hx
        exact h3 x u hx
  · intro i j u v hij hi hj hu hv
    simp only [addHandle, setHandle] at hi hj
    by_cases hic : i = p.constructed
    · have hjc : j ≠ p.constructed := fun h => hij (hic.trans h.symm)
      simp only [hic, if_true, Option.some.injEq] at hi
      simp only [hjc, if_false] at hj
      subst hi
      by_cases hjs : j = source
      · simp only [hjs, if_true, Option.some.injEq] at hj
        subst hj
        exact absurd rfl hv
      · simp only [hjs, if_false] at hj
        exact h4 source j s v (fun h => hjs h.symm) hs hj hu hv
    · simp only [hic, if_false] at hi
      by_cases his : i = source
      · simp only [his, if_true, Option.some.injEq] at hi
        subst hi
        exact absurd rfl hu
      · simp only [his, if_false] at hi
        by_cases hjc : j = p.constructed
        · simp only [hjc, if_true, Option.some.injEq] at hj
          subst hj
          exact h4 i source u s his hi hs hu hv
        · simp only [hjc, if_false] at hj
          by_cases hjs : j = source
          · simp only [hjs, if_true, Option.some.injEq] at hj
            subst hj
            exact absurd rfl hv
          · simp only [hjs, if_false] at hj
            exact h4 i j u v hij hi hj hu hv

theorem step_consistent [DecidableEq U] (p : Program U El W) (op : HandleOp U El W)
    (hinv : p.Consistent) : (p.step op).Consistent := by
  cases op with
  | subscribe channel callback persistent =>
    exact consistent_issue p hinv _ p.buffers channel persistent
  | subscribeBuffer channel buffersize =>
    exact consistent_issue p hinv _ _ channel false
  | construct => exact consistent_add_invalid p hinv
  | moveConstruct source =>
    simp only [step]
    cases hs : p.handles source with
    | none => exact hinv
    | some s => exact consistent_add_moved p hinv source s hs
  | moveAssign target source =>
    simp only [step]
    by_cases hts : target = source
    · simp only [hts, if_true]
      exact hinv
    · simp only [hts, if_false]
      cases ht : p.handles target with
      | none => exact hinv
      | some t =>
        cases hs : p.handles source with
        | none => exact hinv
        | some s =>
          exact consistent_move _ (consistent_memory p hinv (t.moveAssign s p.memory).2.2)
            source target s hs
  | unsubscribe handle =>
    simp only [step]
    cases hs : p.handles handle with
    | none => exact hinv
    | some s =>
      have hm := consistent_memory p hinv (s.unsubscribe p.memory).2
      cases hc : s.channel with
      | none =>
        rcases hinv.handle handle s hs with h | h
        · have hs1 : (s.unsubscribe p.memory).1
              = { id := -1, channel := none, persistent := s.persistent } := by
            rw [Subscription.unsubscribe_of_none s p.memory hc]
            cases s
            simp_all
          simp only [hs1]
          exact consistent_set_inactive _ hm handle s.persistent
        · exact absurd hc h.2.2
      | some c =>
        simp only [Subscription.unsubscribe_of_some s p.memory c hc]
        exact consistent_set_inactive _
          (consistent_memory p hinv (p.memory.unsubscribe c s)) handle s.persistent
  | destroy handle =>
    simp only [step]
    cases hs : p.handles handle with
    | none => exact hinv
    | some s => exact consistent_set_none _ (consistent_memory p hinv _) handle

theorem run_consistent [DecidableEq U] (ops : List (HandleOp U El W)) :
    ∀ p : Program U El W, p.Consistent → (p.run ops).Consistent := by
  induction ops with
  | nil => intro p h; exact h
  | cons op ops ih => intro p h; exact ih _ (step_consistent p op h)

theorem start_consistent (object : Addr → AbstractChannelBase U El W)
    (buffers : (t : U) → Buffers (El t) W) : (start object buffers).Consistent :=
  ⟨rfl, rfl, fun _ _ h => by simp [start] at h, fun _ _ _ _ _ h => by simp [start] at h⟩

end Program

namespace Program

variable {U : Type} {El : U → Type} {W : Type} [DecidableEq U]

/-- C17. In a program that starts with the counter at 0 and performs any
operations on handles (subscriptions by callback and by buffer on any channels,
constructions, moves, `unsubscribe` calls and destructions), the ids issued so
far are 0, 1, 2, ... in issue order: the `n`-th id issued is `n`, so the ids
are strictly increasing and pairwise different, also after handles were
unsubscribed or destroyed, and the counter is their number.  The handle
returned by the next `subscribe`, of either kind, has as id the number of ids
issued before, and every live handle with a channel carries an issued id.  As
long as at most `2^31` ids were issued they are values of an `int`. -/
theorem ids_unique_monotonic (object : Addr → AbstractChannelBase U El W)
    (buffers : (t : U) → Buffers (El t) W) (ops : List (HandleOp U El W)) :
    (∀ n, n < ((start object buffers).run ops).issued.length →
      ((start object buffers).run ops).issued[n]? = some (n : Int)) ∧
    ((start object buffers).run ops).issued.Pairwise (fun a b => a < b) ∧
    ((start object buffers).run ops).issued.Nodup ∧
    ((start object buffers).run ops).subscriptionCounter
      = (((start object buffers).run ops).issued.length : Int) ∧
    (∀ channel callback persistent,
      (((start object buffers).run ops).step
          (HandleOp.subscribe channel callback persistent)).handles
          ((start object buffers).run ops).constructed
        = some { id := (((start object buffers).run ops).issued.length : Int),
                 channel := some channel, persistent := persistent } ∧
      (((start object buffers).run ops).step
          (HandleOp.subscribe channel callback persistent)).issued
        = ((start object buffers).run ops).issued
            ++ [(((start object buffers).run ops).issued.length : Int)]) ∧
    (∀ channel buffersize,
      (((start object buffers).run ops).step
          (HandleOp.subscribeBuffer channel buffersize)).handles
          ((start object buffers).run ops).constructed
        = some { id := (((start object buffers).run ops).issued.length : Int),
                 channel := some channel, persistent := false } ∧
      (((start object buffers).run ops).step
          (HandleOp.subscribeBuffer channel buffersize)).issued
        = ((start object buffers).run ops).issued
            ++ [(((start object buffers).run ops).issued.length : Int)]) ∧
    (∀ k s, ((start object buffers).run ops).handles k = some s → s.channel ≠ none →
      s.id ∈ ((start object buffers).run ops).issued) ∧
    (((start object buffers).run ops).issued.length ≤ 2147483648 →
      ∀ id ∈ ((start object buffers).run ops).issued, 0 ≤ id ∧ id < 2147483648) := by
  have hinv := run_consistent ops _ (start_consistent object buffers)
  obtain ⟨h1, h2, h3, h4⟩ := hinv
  generalize (start object buffers).run ops = p at h1 h2 h3 h4 ⊢
  have hmem : ∀ id : Int, id ∈ p.issued ↔ 0 ≤ id ∧ id < p.issued.length := by
    intro id
    rw [h2, List.mem_map]
    simp only [List.length_map, List.length_range, List.mem_range]
    constructor
    · rintro ⟨n, hn, rfl⟩
      exact ⟨Int.ofNat_nonneg n, Int.ofNat_lt.2 hn⟩
    · rintro ⟨h0, hlt⟩
      refine ⟨id.toNat, ?_, ?_⟩
      · have := Int.toNat_of_nonneg h0
        omega
      · exact Int.toNat_of_nonneg h0
  have hpair : p.issued.Pairwise (fun a b => a < b) := by
    rw [h2, List.pairwise_map]
    exact List.Pairwise.imp (fun h => Int.ofNat_lt.2 h) (List.pairwise_lt_range _)
  refine ⟨fun n hn => ?_, hpair, hpair.imp (fun h => ne_of_lt h), h1, ?_, ?_, ?_, ?_⟩
  · rw [h2] at hn ⊢
    simp only [List.length_map, List.length_range] at hn
    simp [List.getElem?_map, List.getElem?_range hn]
  · intro channel callback persistent
    simp [step, addHandle, ChannelMemory.subscribe, Channel.subscribe, getSubscriptionID, h1]
  · intro channel buffersize
    simp [step, addHandle, Channel.subscribeBuffer, BufferedSubscription.create,
      Subscription.create, Subscription.moveConstruct, getSubscriptionID, h1]
  · intro k s hk hc
    rcases h3 k s hk with h | ⟨ha, hb, _⟩
    · exact absurd h.2 hc
    · exact (hmem s.id).2 ⟨ha, by rw [← h1]; exact hb⟩
  · intro hlen id hid
    have := (hmem id).1 hid
    exact ⟨this.1, by omega⟩

/-- C18. In every state a program reaches from its start by subscriptions of
either kind, default constructions, move constructions, move assignments
between different handle objects, `unsubscribe` calls and destructions, every
live handle is active (id at least 0 and a channel) or inactive (id -1 and no
channel), and two different live handle objects that are active have different
ids. -/
theorem handle_states (object : Addr → AbstractChannelBase U El W)
    (buffers : (t : U) → Buffers (El t) W) (ops : List (HandleOp U El W)) :
    (∀ k s, ((start object buffers).run ops).handles k = some s →
      s.Active ∨ s.Inactive) ∧
    (∀ i j s t, i ≠ j → ((start object buffers).run ops).handles i = some s →
      ((start object buffers).run ops).handles j = some t →
      s.Active → t.Active → s.id ≠ t.id) := by
  have hinv := run_consistent ops _ (start_consistent object buffers)
  refine ⟨fun k s hk => ?_, fun i j s t hij hi hj hs ht => ?_⟩
  · rcases hinv.handle k s hk with h | ⟨ha, _, hc⟩
    · exact Or.inr h
    · exact Or.inl ⟨ha, hc⟩
  · exact hinv.distinct i j s t hij hi hj hs.2 ht.2

end Program

namespace Program

/-- C17, at `sampleProgram`: the three ids issued are 0, 1 and 2, although the
handle with id 0 was destroyed before the third subscription. -/
theorem ids_unique_monotonic_witness :
    sampleProgram.issued = [0, 1, 2] ∧
    sampleProgram.memory.unsubscribeCalls = [(3, 0)] ∧
    sampleProgram.issued.Nodup :=
  ⟨rfl, rfl,
   (ids_unique_monotonic sampleMemory.object (fun _ => ⟨fun _ => ThreadSafeQueue.new 0, 0⟩)
     [HandleOp.subscribe 3 (fun _ _ w => w) false,
      HandleOp.subscribeBuffer 4 2,
      HandleOp.moveConstruct 0,
      HandleOp.destroy 0,
      HandleOp.destroy 2,
      HandleOp.subscribe 3 (fun _ _ w => w) true]).2.2.1⟩

/-- C18, at `sampleProgram`: the live handles are those with the ids 1 and 2,
both active. -/
theorem handle_states_witness :
    sampleProgram.handles 0 = none ∧
    sampleProgram.handles 1 = some { id := 1, channel := some 4, persistent := false } ∧
    sampleProgram.handles 2 = none ∧
    sampleProgram.handles 3 = some { id := 2, channel := some 3, persistent := true } ∧
    (∀ s t, sampleProgram.handles 1 = some s → sampleProgram.handles 3 = some t →
      s.Active → t.Active → s.id ≠ t.id) :=
  ⟨rfl, rfl, rfl, rfl, fun s t =>
   (handle_states sampleMemory.object (fun _ => ⟨fun _ => ThreadSafeQueue.new 0, 0⟩)
     [HandleOp.subscribe 3 (fun _ _ w => w) false,
      HandleOp.subscribeBuffer 4 2,
      HandleOp.moveConstruct 0,
      HandleOp.destroy 0,
      HandleOp.destroy 2,
      HandleOp.subscribe 3 (fun _ _ w => w) true]).2 1 3 s t (by decide)⟩

end Program

/-! ## The warnings channel and the registry -/

namespace Broker

variable {U : Type} {El : U → Type} {W : Type} [DecidableEq U]

theorem getChannel_addr (b : Broker U El W) (t : U) (name : String) (fresh a : Addr)
    (h : (b.getChannel t name fresh).1 = .ok a) :
    a = fresh ∨ ∃ e ∈ b.channels, e.2.addr = a := by
  cases hl : b.channels.lookup name with
  | none =>
    rw [getChannel_absent b t name fresh hl] at h
    simp only [Except.ok.injEq] at h
    exact Or.inl h.symm
  | some o =>
    by_cases ht : o.elemType = t
    · rw [getChannel_present b t name fresh o hl ht] at h
      simp only [Except.ok.injEq] at h
      exact Or.inr ⟨(name, o), mem_of_lookup_eq_some name o _ hl, h⟩
    · rw [getChannel_mismatch b t name fresh o hl ht] at h
      simp at h

/-- C20, as amended.  The warnings channel is the global object
`WARNING_CHANNEL`, which the registry does not hold.  A lookup of
`"InternalChannel.Warnings"` in a registry without that name makes a new channel
of that name and returns it; whatever the registry holds, the returned channel
is at an address other than that of `WARNING_CHANNEL` (live objects have
different addresses), and the channel made by the lookup has nothing queued, so
with a subscriber added its worker hands out nothing.  The diagnostics of a
WARNING-severity drop on any channel are the calls `WARNING_CHANNEL.publish`:
performed on the global object, they reach the callbacks registered on
`WARNING_CHANNEL` itself, each once per diagnostic, in order. -/
theorem warnings_on_global_channel {T : Type} (b : Broker U El W) (t : U)
    (fresh warningAddr : Addr) (ch : Channel T W) (e : Env T W) (m : T)
    (rest : List (T × Severity)) (cbs : List (Int × (String → W → W)))
    (queues : Buffers String W)
    (hq : ch.publishingQueue.queue = (m, Severity.WARNING) :: rest)
    (hn : (bufferAddrs ch.subscribers).Nodup) :
    (b.channels.lookup WARNING_CHANNEL_NAME = none →
      b.getChannel t WARNING_CHANNEL_NAME fresh
        = (.ok fresh, { channels := b.channels ++
            [(WARNING_CHANNEL_NAME, ⟨fresh, t, Channel.new WARNING_CHANNEL_NAME⟩)] })) ∧
    ((∀ entry ∈ b.channels, entry.2.addr ≠ warningAddr) → fresh ≠ warningAddr →
      ∀ a, (b.getChannel t WARNING_CHANNEL_NAME fresh).1 = .ok a → a ≠ warningAddr) ∧
    (∀ (callback : El t → W → W) (persistent : Bool) (counter : Int) (self : Addr)
        (env : Env (El t) W),
      ((Channel.new WARNING_CHANNEL_NAME : Channel (El t) W).subscribe self callback
          persistent counter).2.1.processNext env
        = .done (((Channel.new WARNING_CHANNEL_NAME : Channel (El t) W).subscribe self
            callback persistent counter).2.1, env)) ∧
    ∃ ch1 e1, ch.processNext e = .done (ch1, e1) ∧
      e1.warnings = e.warnings ++ (fullSubscribers e ch.subscribers).map
        (fun id => (droppedWarning ch.name id, Severity.ERROR)) ∧
      ∃ s, (⟨{ (WARNING_CHANNEL : Channel String W) with
                subscribers := callbackSubscribers cbs },
              ⟨queues, e1.world, []⟩, none⟩ : ChannelState String W).run
            (publishAndProcess ((fullSubscribers e ch.subscribers).map
              (fun id => (droppedWarning ch.name id, Severity.ERROR)))) = some s ∧
        s.raised = none ∧
        s.ch.publishingQueue.queue = [] ∧
        s.env.world = ((fullSubscribers e ch.subscribers).map
            (fun id => (droppedWarning ch.name id, Severity.ERROR))).foldl
          (fun w d => invokeAll cbs d.1 w) e1.world := by
  refine ⟨fun hl => getChannel_absent b t _ fresh hl, fun hreg hfresh a ha => ?_,
    fun callback persistent counter self env => ?_, ?_⟩
  · rcases getChannel_addr b t _ fresh a ha with h | ⟨entry, hmem, h⟩
    · rw [h]; exact hfresh
    · rw [← h]; exact hreg entry hmem
  · exact Channel.processNext_nil _ env rfl
  · obtain ⟨e1, h1, h2, _, _, _, _⟩ :=
      Channel.deliver_warning_done ch.name m ch.subscribers e hn
    have hp := Channel.processNext_cons ch e m Severity.WARNING rest hq
    rw [h1] at hp
    refine ⟨_, e1, hp, h2, ?_⟩
    have hinit : ChannelState.CallbackOnly cbs []
        (⟨{ (WARNING_CHANNEL : Channel String W) with
              subscribers := callbackSubscribers cbs },
            ⟨queues, e1.world, []⟩, none⟩ : ChannelState String W) :=
      ⟨rfl, rfl, rfl, rfl, rfl⟩
    obtain ⟨s, hrun, hinv, hq1, hw⟩ := ChannelState.run_publishAndProcess cbs []
      ((fullSubscribers e ch.subscribers).map
        (fun id => (droppedWarning ch.name id, Severity.ERROR))) _ hinit rfl
    exact ⟨s, hrun, hinv.raised, hq1, hw⟩

/-- C20 fails as stated: in `warningLookupScenario` a diagnostic is published
for the dropped WARNING message and the worker of `WARNING_CHANNEL` handles it,
but the subscriber registered through the registry lookup of
`"InternalChannel.Warnings"` has received nothing. -/
theorem warning_lookup_receives_nothing :
    warningLookupScenario 1 =
      some ([], [("Dropped a message on Channel \"c\" - Subscriber 1 didn't accept...",
        Severity.ERROR)], []) := by
  rfl

/-- C20 as amended, at the channel `"c"` of the examples with a callback on
`WARNING_CHANNEL` that appends what it receives: the callback receives the
diagnostic of the drop. -/
theorem warnings_on_global_channel_witness :
    ∃ ch1 e1, (sampleChannel Severity.WARNING).processNext sampleEnv = .done (ch1, e1) ∧
      ∃ s, (⟨{ (WARNING_CHANNEL : Channel String Unit) with
                subscribers := callbackSubscribers [(0, fun _ w => w)] },
              ⟨⟨fun _ => ThreadSafeQueue.new 0, 0⟩, e1.world, []⟩, none⟩ :
            ChannelState String Unit).run
            (publishAndProcess ((fullSubscribers sampleEnv
              (sampleChannel Severity.WARNING).subscribers).map
              (fun id => (droppedWarning (sampleChannel Severity.WARNING).name id,
                Severity.ERROR)))) = some s ∧
        s.raised = none :=
  match warnings_on_global_channel (Broker.getBroker : Broker MainType MainType.El Unit)
      MainType.string 1 0 (sampleChannel Severity.WARNING) sampleEnv 9 []
      [(0, fun _ w => w)] ⟨fun _ => ThreadSafeQueue.new 0, 0⟩ rfl (by decide) with
  | ⟨_, _, _, ch1, e1, h1, _, s, h3, h4, _, _⟩ => ⟨ch1, e1, h1, s, h3, h4⟩

end Broker

/-! ## Properties of a buffered subscription on its channel -/

namespace Channel

variable {T W : Type}

theorem deliver_subscribers_state (ch : Channel T W) (e : Env T W) :
    (ch.processNext e).state.1.subscribers = ch.subscribers := by
  cases hq : ch.publishingQueue.queue with
  | nil => rw [processNext_nil ch e hq]; rfl
  | cons p rest =>
    obtain ⟨m, sev⟩ := p
    rw [processNext_cons ch e m sev rest hq]
    cases deliver ch.name m sev ch.subscribers e <;> rfl

end Channel

namespace ConsumerRun

variable {T W : Type}

end ConsumerRun

namespace ConsumerRun

variable {T W : Type}

end ConsumerRun

namespace ChannelState

variable {T W : Type}

end ChannelState

namespace ConsumerRun

variable {T W : Type}

end ConsumerRun

namespace ConsumerRun

variable {T W : Type}

end ConsumerRun

namespace Subscription

/-- C13, at the handle with id 0 on the channel at address 3 of `sampleMemory`:
`unsubscribe()` removes the entry 0, records one call and leaves the handle
inactive. -/
theorem unsubscribe_spec_witness :
    (unsubscribe { id := 0, channel := some 3, persistent := false } sampleMemory).1
      = { id := -1, channel := none, persistent := false } ∧
    ((unsubscribe { id := 0, channel := some 3, persistent := false } sampleMemory).2.object
      3).ids = [] ∧
    (unsubscribe { id := 0, channel := some 3, persistent := false }
      sampleMemory).2.unsubscribeCalls = [(3, 0)] :=
  have h := (unsubscribe_spec { id := 0, channel := some 3, persistent := false } sampleMemory
    (Channel.new "c" : Channel Nat Unit)).1 3 rfl
  ⟨h.1, h.2.2.2.1.trans rfl, h.2.2.2.2.2⟩

/-- C15, at the handle with id 0 on the channel at address 3. -/
theorem moveConstruct_spec_witness :
    (moveConstruct { id := 0, channel := some 3, persistent := false }).1
      = { id := 0, channel := some 3, persistent := false } ∧
    (moveConstruct { id := 0, channel := some 3, persistent := false }).2
      = { id := -1, channel := none, persistent := true } ∧
    (sampleProgram.step (HandleOp.moveConstruct 1)).memory = sampleProgram.memory :=
  have h := moveConstruct_spec { id := 0, channel := some 3, persistent := false }
    sampleProgram 1
  ⟨h.1, h.2.1, h.2.2.2.1⟩

/-- C16, with the target handle 0 on the channel at address 3, not persistent,
and the source handle 1 on the channel at address 4: the entry 0 at address 3 is
removed, the channel at address 4 is unchanged. -/
theorem moveAssign_spec_witness :
    (moveAssign { id := 0, channel := some 3, persistent := false }
      { id := 1, channel := some 4, persistent := true } sampleMemory).1
      = { id := 1, channel := some 4, persistent := true } ∧
    (0 : Int) ∉ ((moveAssign { id := 0, channel := some 3, persistent := false }
      { id := 1, channel := some 4, persistent := true } sampleMemory).2.2.object 3).ids ∧
    (moveAssign { id := 0, channel := some 3, persistent := false }
      { id := 1, channel := some 4, persistent := true } sampleMemory).2.2.object 4
      = sampleMemory.object 4 :=
  have h := moveAssign_spec { id := 0, channel := some 3, persistent := false }
    { id := 1, channel := some 4, persistent := true } sampleMemory
  ⟨h.1, (h.2.2.2.1 3 rfl rfl).2.2.1, (h.2.2.2.1 3 rfl rfl).2.2.2.1 4 (by decide)⟩

end Subscription

/-! ## Capacities outside the usual range -/

namespace ThreadSafeQueue

variable {T W : Type}

theorem toUnsigned_of_neg (n : Int) (hlo : -2147483648 ≤ n) (hneg : n < 0) :
    (toUnsigned n : Int) = 4294967296 + n := by
  unfold toUnsigned
  rw [Int.toNat_of_nonneg (Int.emod_nonneg _ (by decide))]
  have h1 : n % 4294967296 = (n + 4294967296) % 4294967296 := by
    rw [Int.add_emod_self]
  rw [h1, Int.emod_eq_of_lt (by omega) (by omega)]
  omega

theorem toUnsigned_eq_zero_iff (n : Int) (hlo : -2147483648 ≤ n) (hhi : n < 2147483648) :
    toUnsigned n = 0 ↔ n = 0 := by
  constructor
  · intro h
    by_cases hneg : n < 0
    · have := toUnsigned_of_neg n hlo hneg
      rw [h] at this
      omega
    · have := toUnsigned_of_nonneg n (by omega) hhi
      rw [h] at this
      omega
  · intro h
    subst h
    rfl

/-- C25. For a queue constructed with an `int` capacity `n`, `-2^31 ≤ n < 0`,
the capacity that `canEnqueue_` compares with is `2^32 + n`: `tryEnqueue`
returns true exactly when the size is below `2^32 + n`, and then appends; in
particular it returns true on every queue with fewer than `2^31` elements, such
as the new one.  The same holds for the queue of a buffered subscription made by
`subscribe(n)`.  Among all `int` capacities, 0 is the only one with which
`tryEnqueue` fails on every queue. -/
theorem negative_capacity (n : Int) (xs : List T) (cb : List T → W → W) (v : T) (w : W)
    (ch : Channel T W) (self : Addr) (counter : Int) (buffers : Buffers T W)
    (hlo : -2147483648 ≤ n) (hneg : n < 0) :
    (toUnsigned n : Int) = 4294967296 + n ∧
    (((⟨xs, n, cb⟩ : ThreadSafeQueue T W).tryEnqueue v w).1 = true ↔
      (xs.length : Int) < 4294967296 + n) ∧
    ((xs.length : Int) < 4294967296 + n →
      ((⟨xs, n, cb⟩ : ThreadSafeQueue T W).tryEnqueue v w).2.1.queue = xs ++ [v]) ∧
    (xs.length < 2147483648 →
      ((⟨xs, n, cb⟩ : ThreadSafeQueue T W).tryEnqueue v w).1 = true) ∧
    ((new n : ThreadSafeQueue T W).tryEnqueue v w).1 = true ∧
    (((ch.subscribeBuffer self n counter buffers).2.2.2.cell buffers.next).tryEnqueue v
      w).1 = true ∧
    (∀ k : Int, -2147483648 ≤ k → k < 2147483648 →
      ((∀ (ys : List T) (u : T) (w1 : W),
          ((⟨ys, k, cb⟩ : ThreadSafeQueue T W).tryEnqueue u w1).1 = false) ↔ k = 0)) := by
  have hu := toUnsigned_of_neg n hlo hneg
  have key : ∀ (q : ThreadSafeQueue T W) (u : T) (w1 : W),
      (q.tryEnqueue u w1).1 = true ↔ q.queue.length < toUnsigned q.maxSize := by
    intro q u w1
    cases hc : q.canEnqueue_ with
    | false =>
      rw [tryEnqueue_of_not_can q u w1 hc]
      have := (canEnqueue__iff q).not.1 (by simp [hc])
      simp [this]
    | true =>
      rw [tryEnqueue_of_can q u w1 hc]
      simp [(canEnqueue__iff q).1 hc]
  have hnew : ∀ q : ThreadSafeQueue T W, q.maxSize = n → q.queue = [] →
      (q.tryEnqueue v w).1 = true := by
    intro q hm hq
    rw [key, hm, hq, List.length_nil]
    omega
  refine ⟨hu, ?_, ?_, ?_, hnew _ rfl rfl, ?_, ?_⟩
  · rw [key]
    simp only
    omega
  · intro h
    have hc : (⟨xs, n, cb⟩ : ThreadSafeQueue T W).canEnqueue_ = true := by
      rw [canEnqueue__iff]
      simp only
      omega
    rw [tryEnqueue_of_can _ v w hc]
  · intro h
    rw [key]
    simp only
    omega
  · exact hnew _ (by simp [Channel.subscribeBuffer, Buffers.set, new])
      (by simp [Channel.subscribeBuffer, Buffers.set, new])
  · intro k hk0 hk1
    constructor
    · intro h
      have h0 := h [] v w
      have := (key (⟨[], k, cb⟩ : ThreadSafeQueue T W) v w).not.1 (by simp [h0])
      simp only [List.length_nil, Nat.not_lt, Nat.le_zero] at this
      exact (toUnsigned_eq_zero_iff k hk0 hk1).1 this
    · intro hk ys u w1
      subst hk
      have := (key (⟨ys, 0, cb⟩ : ThreadSafeQueue T W) u w1).not.2 (by
        simp only [Nat.not_lt]
        exact Nat.zero_le _)
      simpa using this

/-- C25, at capacity -1: the capacity compared with is `2^32 - 1`, and a queue
that holds three elements accepts a fourth. -/
theorem negative_capacity_witness :
    (toUnsigned (-1) : Int) = 4294967295 ∧
    ((⟨[1, 2, 3], -1, DO_NOTHING_CALLBACK⟩ : ThreadSafeQueue Nat Unit).tryEnqueue 4 ()).1
      = true ∧
    ((⟨[1, 2, 3], -1, DO_NOTHING_CALLBACK⟩ : ThreadSafeQueue Nat Unit).tryEnqueue 4
      ()).2.1.queue = [1, 2, 3, 4] :=
  have h := negative_capacity (-1) [1, 2, 3] DO_NOTHING_CALLBACK 4 ()
    (sampleChannel Severity.ERROR) 3 1 sampleEnv.buffers (by decide) (by decide)
  ⟨h.1, h.2.2.2.1 (by decide), h.2.2.1 (by decide)⟩

end ThreadSafeQueue

/-! ## Properties of the inbound queue of a channel -/

namespace Channel

variable {T W : Type}

theorem toUnsigned_publishing_queue_size : toUnsigned PUBLISHING_QUEUE_SIZE = 5 := by
  decide

theorem publish_of_room (ch : Channel T W) (m : T) (sev : Severity) (w : W)
    (hm : ch.publishingQueue.maxSize = PUBLISHING_QUEUE_SIZE)
    (h : ch.publishingQueue.queue.length < 5) :
    ch.publish m sev w =
      some ({ ch with publishingQueue :=
                { ch.publishingQueue with queue := ch.publishingQueue.queue ++ [(m, sev)] } },
        ch.publishingQueue.notifyCallback (ch.publishingQueue.queue ++ [(m, sev)]) w) := by
  have hc : ch.publishingQueue.canEnqueue_ = true := by
    rw [ThreadSafeQueue.canEnqueue__iff, hm, toUnsigned_publishing_queue_size]
    exact h
  simp only [publish, ThreadSafeQueue.enqueue_of_can _ _ _ hc]

theorem publish_of_no_room (ch : Channel T W) (m : T) (sev : Severity) (w : W)
    (hm : ch.publishingQueue.maxSize = PUBLISHING_QUEUE_SIZE)
    (h : 5 ≤ ch.publishingQueue.queue.length) : ch.publish m sev w = none := by
  have hc : ch.publishingQueue.canEnqueue_ = false := by
    have := (ThreadSafeQueue.canEnqueue__iff ch.publishingQueue).not.2 (by
      rw [hm, toUnsigned_publishing_queue_size]
      omega)
    simpa using this
  simp only [publish, ThreadSafeQueue.enqueue_of_not_can _ _ _ hc]

end Channel

namespace ChannelState

variable {T W : Type}

theorem step_backpressure (s s1 : ChannelState T W) (ev : ChannelEvent T) (p k : Nat)
    (hm : s.ch.publishingQueue.maxSize = PUBLISHING_QUEUE_SIZE)
    (hl : s.ch.publishingQueue.queue.length ≤ 5)
    (hp : s.raised = none → p ≤ s.ch.publishingQueue.queue.length + k)
    (hstep : s.step ev = some s1) :
    s1.ch.publishingQueue.maxSize = PUBLISHING_QUEUE_SIZE ∧
    s1.ch.publishingQueue.queue.length ≤ 5 ∧
    (s1.raised = none →
      p + (publishedBy [ev]).length ≤
        s1.ch.publishingQueue.queue.length + (k + iterations [ev])) := by
  cases hr : s.raised with
  | some what =>
    have h1 : s1 = s := by
      cases ev <;> simp [step, hr] at hstep <;> exact hstep.symm
    subst h1
    exact ⟨hm, hl, fun h => by rw [hr] at h; cases h⟩
  | none =>
    have hp := hp hr
    cases ev with
    | publish m sev =>
      by_cases hroom : s.ch.publishingQueue.queue.length < 5
      · simp only [step, hr, Channel.publish_of_room s.ch m sev s.env.world hm hroom,
          Option.some.injEq] at hstep
        subst hstep
        refine ⟨hm, ?_, fun _ => ?_⟩
        · simp only [List.length_append, List.length_singleton]
          omega
        · simp only [List.length_append, List.length_singleton, publishedBy, iterations]
          omega
      · simp [step, hr, Channel.publish_of_no_room s.ch m sev s.env.world hm
          (by omega)] at hstep
    | process =>
      cases hq : s.ch.publishingQueue.queue with
      | nil =>
        simp only [step, hr, Channel.processNext_nil s.ch s.env hq,
          Option.some.injEq] at hstep
        subst hstep
        refine ⟨hm, hl, fun _ => ?_⟩
        simp only [publishedBy, iterations, List.length_nil]
        omega
      | cons x rest =>
        obtain ⟨m, sev⟩ := x
        rw [hq] at hl hp
        simp only [List.length_cons] at hl hp
        simp only [step, hr, Channel.processNext_cons s.ch s.env m sev rest hq] at hstep
        cases hd : Channel.deliver s.ch.name m sev s.ch.subscribers s.env with
        | done e1 =>
          simp only [hd, Option.some.injEq] at hstep
          subst hstep
          refine ⟨hm, by simp only; omega, fun _ => ?_⟩
          simp only [publishedBy, iterations, List.length_nil]
          omega
        | thrown what e1 =>
          simp only [hd, Option.some.injEq] at hstep
          subst hstep
          exact ⟨hm, by simp only; omega, fun h => by cases h⟩

theorem publishedBy_length_cons (ev : ChannelEvent T) (evs : List (ChannelEvent T)) :
    (publishedBy (ev :: evs)).length = (publishedBy [ev]).length + (publishedBy evs).length := by
  cases ev <;> simp [publishedBy]
  omega

theorem iterations_cons (ev : ChannelEvent T) (evs : List (ChannelEvent T)) :
    iterations (ev :: evs) = iterations [ev] + iterations evs := by
  cases ev <;> simp [iterations]
  omega

theorem run_backpressure (evs : List (ChannelEvent T)) :
    ∀ (s s1 : ChannelState T W) (p k : Nat),
      s.ch.publishingQueue.maxSize = PUBLISHING_QUEUE_SIZE →
      s.ch.publishingQueue.queue.length ≤ 5 →
      (s.raised = none → p ≤ s.ch.publishingQueue.queue.length + k) →
      s.run evs = some s1 →
      s1.ch.publishingQueue.maxSize = PUBLISHING_QUEUE_SIZE ∧
      s1.ch.publishingQueue.queue.length ≤ 5 ∧
      (s1.raised = none →
        p + (publishedBy evs).length ≤
          s1.ch.publishingQueue.queue.length + (k + iterations evs)) := by
  induction evs with
  | nil =>
    intro s s1 p k hm hl hp hrun
    simp only [run, Option.some.injEq] at hrun
    subst hrun
    exact ⟨hm, hl, fun h => by simpa [publishedBy, iterations] using hp h⟩
  | cons ev evs ih =>
    intro s s1 p k hm hl hp hrun
    cases hstep : s.step ev with
    | none => simp [run, hstep] at hrun
    | some s2 =>
      simp only [run, hstep] at hrun
      obtain ⟨hm2, hl2, hp2⟩ := step_backpressure s s2 ev p k hm hl hp hstep
      obtain ⟨hm1, hl1, hp1⟩ := ih s2 s1 _ _ hm2 hl2 hp2 hrun
      refine ⟨hm1, hl1, fun h => ?_⟩
      have := hp1 h
      rw [publishedBy_length_cons, iterations_cons]
      omega

theorem run_publishOnly_of_room (ms : List (T × Severity)) :
    ∀ s : ChannelState T W, s.raised = none →
      s.ch.publishingQueue.maxSize = PUBLISHING_QUEUE_SIZE →
      s.ch.publishingQueue.queue.length + ms.length ≤ 5 →
      ∃ s1 : ChannelState T W, s.run (publishOnly ms) = some s1 ∧
        s1.ch.publishingQueue.queue = s.ch.publishingQueue.queue ++ ms ∧
        s1.ch.subscribers = s.ch.subscribers ∧ s1.raised = none := by
  induction ms with
  | nil =>
    intro s hr _ _
    exact ⟨s, rfl, by simp, rfl, hr⟩
  | cons x ms ih =>
    rintro ⟨ch, env, raised⟩ hr hm hl
    simp only at hr hm hl
    subst hr
    simp only [List.length_cons] at hl
    obtain ⟨s1, h1, h2, h3, h4⟩ := ih
      ⟨{ ch with publishingQueue :=
          { ch.publishingQueue with queue := ch.publishingQueue.queue ++ [(x.1, x.2)] } },
        { env with world :=
          (ch.publishingQueue.notifyCallback (ch.publishingQueue.queue ++ [(x.1, x.2)])
            env.world) }, none⟩
      rfl hm (by simp only [List.length_append, List.length_singleton]; omega)
    refine ⟨s1, ?_, ?_, h3, h4⟩
    · simp only [publishOnly, List.map_cons, run, step,
        Channel.publish_of_room ch x.1 x.2 env.world hm (by omega)]
      exact h1
    · rw [h2]
      simp

theorem run_publishOnly_of_no_room (ms : List (T × Severity)) :
    ∀ s : ChannelState T W, s.raised = none →
      s.ch.publishingQueue.maxSize = PUBLISHING_QUEUE_SIZE →
      s.ch.publishingQueue.queue.length ≤ 5 →
      5 < s.ch.publishingQueue.queue.length + ms.length →
      s.run (publishOnly ms) = none := by
  induction ms with
  | nil =>
    intro s _ _ hl h
    simp only [List.length_nil] at h
    omega
  | cons x ms ih =>
    rintro ⟨ch, env, raised⟩ hr hm hl h
    simp only at hr hm hl h
    subst hr
    simp only [List.length_cons] at h
    by_cases hroom : ch.publishingQueue.queue.length < 5
    · simp only [publishOnly, List.map_cons, run, step,
        Channel.publish_of_room ch x.1 x.2 env.world hm hroom]
      exact ih
        ⟨{ ch with publishingQueue :=
            { ch.publishingQueue with queue := ch.publishingQueue.queue ++ [(x.1, x.2)] } },
          { env with world :=
            (ch.publishingQueue.notifyCallback (ch.publishingQueue.queue ++ [(x.1, x.2)])
              env.world) }, none⟩
        rfl hm (by simp only [List.length_append, List.length_singleton]; omega)
        (by simp only [List.length_append, List.length_singleton]; omega)
    · simp only [publishOnly, List.map_cons, run, step,
        Channel.publish_of_no_room ch x.1 x.2 env.world hm (by omega)]

/-- C21. The inbound queue of a channel made by the constructor has capacity 5,
whatever subscribers were added since.  On a channel with that capacity
`publish` completes exactly in the states with fewer than 5 queued pairs, and
then appends its pair.  So when the worker runs no iteration, up to 5 publishes
complete and leave their pairs queued in order, and no schedule of more than 5
completes.  In every schedule that completes the queue holds at most 5 pairs
and, while the worker has not thrown, the completed publishes number at most the
queued pairs plus the worker's iterations: a sixth publish has completed only
after an iteration. -/
theorem backpressure (name : String) (subs : List (Int × Subscriber T W)) (e : Env T W) :
    toUnsigned (Channel.new name : Channel T W).publishingQueue.maxSize = 5 ∧
    (∀ (ch : Channel T W) (m : T) (sev : Severity) (w : W),
      ch.publishingQueue.maxSize = PUBLISHING_QUEUE_SIZE →
      ((ch.publish m sev w).isSome = true ↔ ch.publishingQueue.queue.length < 5) ∧
      ∀ r, ch.publish m sev w = some r →
        r.1.publishingQueue.queue = ch.publishingQueue.queue ++ [(m, sev)] ∧
        r.1.publishingQueue.maxSize = PUBLISHING_QUEUE_SIZE) ∧
    (∀ ms : List (T × Severity),
      (ms.length ≤ 5 →
        ∃ s : ChannelState T W,
          (⟨{ (Channel.new name : Channel T W) with subscribers := subs }, e, none⟩ :
            ChannelState T W).run (publishOnly ms) = some s ∧
          s.ch.publishingQueue.queue = ms) ∧
      (5 < ms.length →
        (⟨{ (Channel.new name : Channel T W) with subscribers := subs }, e, none⟩ :
          ChannelState T W).run (publishOnly ms) = none)) ∧
    (∀ (evs : List (ChannelEvent T)) (s : ChannelState T W),
      (⟨{ (Channel.new name : Channel T W) with subscribers := subs }, e, none⟩ :
        ChannelState T W).run evs = some s →
      s.ch.publishingQueue.queue.length ≤ 5 ∧
      (s.raised = none →
        (publishedBy evs).length ≤ s.ch.publishingQueue.queue.length + iterations evs ∧
        (publishedBy evs).length ≤ 5 + iterations evs)) := by
  refine ⟨Channel.toUnsigned_publishing_queue_size, ?_, ?_, ?_⟩
  · intro ch m sev w hm
    by_cases hroom : ch.publishingQueue.queue.length < 5
    · rw [Channel.publish_of_room ch m sev w hm hroom]
      refine ⟨by simp [hroom], ?_⟩
      intro r hr
      simp only [Option.some.injEq] at hr
      subst hr
      exact ⟨rfl, hm⟩
    · rw [Channel.publish_of_no_room ch m sev w hm (by omega)]
      exact ⟨by simp [hroom], fun r hr => by cases hr⟩
  · intro ms
    constructor
    · intro h
      obtain ⟨s, h1, h2, _, _⟩ := run_publishOnly_of_room ms
        (⟨{ (Channel.new name : Channel T W) with subscribers := subs }, e, none⟩ :
          ChannelState T W) rfl rfl
        (by simpa [Channel.new, ThreadSafeQueue.new] using h)
      exact ⟨s, h1, by simpa [Channel.new, ThreadSafeQueue.new] using h2⟩
    · intro h
      exact run_publishOnly_of_no_room ms _ rfl rfl
        (by simp [Channel.new, ThreadSafeQueue.new])
        (by simpa [Channel.new, ThreadSafeQueue.new] using h)
  · intro evs s hrun
    obtain ⟨_, hl, hp⟩ := run_backpressure evs _ s 0 0 rfl
      (by simp [Channel.new, ThreadSafeQueue.new]) (fun _ => Nat.zero_le _) hrun
    refine ⟨hl, fun hr => ?_⟩
    have := hp hr
    constructor <;> omega

end ChannelState

/-! ## Properties of the diagnostics of dropped messages -/

namespace Channel

variable {T W : Type}

end Channel

/-! ## Properties of an unsubscribed buffered subscription -/

namespace BufferedSubscription

variable {T W : Type} {U : Type} {El : U → Type}

/-- C23, as stated, fails.  The buffered subscription with id 0 on the channel
at address 3, whose queue at address 0 holds the unread message 5, is
unsubscribed: its handle is inactive, and still `hasMessage` returns true,
`getMessage` returns 5 and `setOnNewElement` returns, none of them throwing. -/
theorem unsubscribed_operations_return :
    ((⟨⟨0, some 3, false⟩, some 0⟩ : BufferedSubscription).unsubscribe
      sampleMemory).1.subscription.Inactive ∧
    ((⟨⟨0, some 3, false⟩, some 0⟩ : BufferedSubscription).unsubscribe
      sampleMemory).1.hasMessage sampleEnv.buffers = .ok true ∧
    (∃ b, ((⟨⟨0, some 3, false⟩, some 0⟩ : BufferedSubscription).unsubscribe
      sampleMemory).1.getMessage sampleEnv.buffers () = .ok (some ((5 : Nat), b, ()))) ∧
    (∃ b, ((⟨⟨0, some 3, false⟩, some 0⟩ : BufferedSubscription).unsubscribe
      sampleMemory).1.setOnNewElement ThreadSafeQueue.DO_NOTHING_CALLBACK sampleEnv.buffers
        = .ok b) :=
  ⟨⟨rfl, rfl⟩, rfl, ⟨_, rfl⟩, ⟨_, rfl⟩⟩

/-- C23, amended.  The call `unsubscribe()` on a buffered subscription makes the
handle inactive when it had a channel and leaves the queue pointer as it was.
So `hasMessage`, `getMessage` and `setOnNewElement` give afterwards what they
gave before, and each throws exactly when the instance holds no queue, that is
on a moved-from instance and not on an unsubscribed one; `unsetOnNewElement`
has no throwing path. -/
theorem unsubscribe_keeps_queue (bs : BufferedSubscription) (m : ChannelMemory U El W)
    (buffers : Buffers T W) (w : W) (callback : List T → W → W) :
    (bs.unsubscribe m).1.queue = bs.queue ∧
    (bs.unsubscribe m).1.subscription.channel = none ∧
    (bs.subscription.channel ≠ none → (bs.unsubscribe m).1.subscription.Inactive) ∧
    (bs.unsubscribe m).1.hasMessage buffers = bs.hasMessage buffers ∧
    (bs.unsubscribe m).1.getMessage buffers w = bs.getMessage buffers w ∧
    (bs.unsubscribe m).1.setOnNewElement callback buffers
      = bs.setOnNewElement callback buffers ∧
    (bs.unsubscribe m).1.unsetOnNewElement buffers = bs.unsetOnNewElement buffers ∧
    ((∃ what, (bs.unsubscribe m).1.hasMessage buffers = .error what) ↔ bs.queue = none) ∧
    ((∃ what, (bs.unsubscribe m).1.getMessage buffers w = .error what) ↔ bs.queue = none) ∧
    ((∃ what, (bs.unsubscribe m).1.setOnNewElement callback buffers = .error what) ↔
      bs.queue = none) ∧
    (∀ a, bs.queue = some a →
      (bs.unsubscribe m).1.hasMessage buffers = .ok (buffers.cell a).canDequeue) := by
  refine ⟨rfl, ?_, ?_, rfl, rfl, rfl, rfl, ?_, ?_, ?_, ?_⟩
  · cases h : bs.subscription.channel <;> simp [unsubscribe, Subscription.unsubscribe, h]
  · intro hc
    cases h : bs.subscription.channel with
    | none => exact absurd h hc
    | some c => simp [unsubscribe, Subscription.unsubscribe, h, Subscription.Inactive]
  · show (∃ what, bs.hasMessage buffers = .error what) ↔ bs.queue = none
    cases h : bs.queue <;> simp [hasMessage, h]
  · show (∃ what, bs.getMessage buffers w = .error what) ↔ bs.queue = none
    cases h : bs.queue with
    | none => simp [getMessage, h]
    | some a =>
      simp only [getMessage, h]
      cases (buffers.cell a).dequeue w <;> simp
  · show (∃ what, bs.setOnNewElement callback buffers = .error what) ↔ bs.queue = none
    cases h : bs.queue <;> simp [setOnNewElement, h]
  · intro a ha
    show bs.hasMessage buffers = _
    simp only [hasMessage, ha]

end BufferedSubscription

/-! ## Properties of the fan-out of one message -/

namespace Channel

variable {T W : Type}

end Channel

end broking
